import Mathlib

/-!
# scale2zero: scaling engine, route manager, aggregator

A shallow embedding of the Go sources under `autoscaler/`:

* `models/app.go`, `models/route.go`, `models/policy.go` : the records;
* `routemanager/route_manager.go` : `DisableAppRoutes`, `EnableAppRoutes`,
  `refreshApps`, `sendRoutes`, `GetAppIDByRoute`;
* `scalingengine/scalingengine.go` : `checkCoolDown`, `StartApp`, `StopApp`;
* `eventgenerator/aggregator.go` : `refreshApps`, `doEvaluation` and the
  ingest case of `startAggregation`;
* `eventgenerator/trigger_worker.go` : `doHandleTrigger`;
* `nozzle/nozzle.go` : `filterEnvelopes`;
* `appmanager/app_manager.go` : `GetApplications`, `AddApp`, `RemoveApp` and
  the reload loop;
* `db/sqldb/scalingengine_sqldb.go` : `RetrieveScalingHistories`;
* `apiserver/server/api_handler.go` : `GetScalingHistories`;
* `routemanager/server/route_handler.go` : `HijackAppRoutes`.

Conventions of the embedding.

* A Go `map[string]V` is an association list with one entry per key
  (`GoMap`).  Go ranges over a map in an unspecified order; the embedding
  ranges in list order, and every list order is a value of the type.
* A Go `error` is `Option String` (`none` is `nil`).
* Time is a count of nanoseconds (`time.Now().UnixNano()`, `time.Duration`),
  an integer: clock readings and durations are `int64` values far from the
  bounds of the type (`UnixNano` is defined until the year 2262), so sums
  and differences of them do not wrap.  The wall clock is the field `now`
  of `World`.  It moves only when the code waits: a platform request lasts
  the time its reply says, and `time.Sleep d` lasts `d` plus what the
  environment adds; steps in memory take no time.  The timer channel of
  `time.After d` is readable once the clock has reached the instant of the
  call plus `d`.
* The platform client `cf.Client` is an interface; its behaviour is a
  parameter (`CfClient`): the reply to a request may depend on the request
  and on how many requests were issued before it.
* The per-app striped lock serialises the invocations for an app; the
  embedding runs invocations one after the other.
* Invocations are recorded: `World.cfCalls` lists the platform requests,
  `World.routeCalls` the calls of the two route capabilities, and
  `World.scalingHistory` the rows handed to `SaveScalingHistory`.
* A loop that sends on a channel returns the list of what it sent, in the
  order sent; the capacity of the channel is not part of the embedding.
* An HTTP handler returns what it hands to the response writer: the status
  and the Go value of an error body, the rows it writes, or the target of
  the reverse proxy.  Functions of the Go standard library that a handler
  calls on strings (`strconv.ParseInt`, `strings.ToUpper`,
  `strings.ToLower`) are parameters (`GoLibrary`).
* A loop that never returns is run for a number of iterations and says how
  it stands after them (`LoopEnd`).
* The registry hands out its map by reference; where that matters
  (`AppManager`), map objects live in a heap (`MapHeap`) and a map value is
  an address.  Elsewhere a map argument is what the map holds at the call.
-/

namespace Scale2Zero

/-! ## Go maps -/

/-- Go `map[string]V`. -/
abbrev GoMap (V : Type) := AList (fun _ : String => V)

namespace GoMap

variable {V : Type}

/-- The map literal `map[string]V{}`. -/
def empty : GoMap V := (∅ : AList (fun _ : String => V))

/-- The flag of `_, exists := m[k]`. -/
def has (m : GoMap V) (k : String) : Bool := (AList.lookup k m).isSome

/-- The value of `m[k]`: the zero value of `V` for an absent key. -/
def get (m : GoMap V) (k : String) (zero : V) : V := (AList.lookup k m).getD zero

/-- The assignment `m[k] = v`. -/
def set (m : GoMap V) (k : String) (v : V) : GoMap V := AList.insert k v m

/-- The statement `delete(m, k)`. -/
def delete (m : GoMap V) (k : String) : GoMap V := AList.erase k m

end GoMap

/-! ## models -/

/-- One `time.Second`, in nanoseconds. -/
def Second : Int := 1000000000

/-- One `time.Minute`, in nanoseconds. -/
def Minute : Int := 60 * Second

/-- The type `models.ScalingType`, constructors in `iota` order (0, 1, 2, 3). -/
inductive ScalingType where
  | ScalingTypeDynamic
  | ScalingTypeSchedule
  | ScalingType2ZeroStop
  | ScalingType2ZeroStart
  deriving DecidableEq, Repr

/-- The type `models.ScalingStatus`, constructors in `iota` order (0, 1, 2): the zero
value of the type is `ScalingStatusSucceeded`. -/
inductive ScalingStatus where
  | ScalingStatusSucceeded
  | ScalingStatusFailed
  | ScalingStatusIgnored
  deriving DecidableEq, Repr

/-- The integer a `ScalingStatus` constant stands for. -/
def ScalingStatus.code : ScalingStatus → Int
  | .ScalingStatusSucceeded => 0
  | .ScalingStatusFailed => 1
  | .ScalingStatusIgnored => 2

/-- The record `models.AppScalingHistory`. -/
structure AppScalingHistory where
  AppId : String
  Timestamp : Int
  ScalingType : ScalingType
  Status : ScalingStatus
  OldInstances : Int
  NewInstances : Int
  Reason : String
  Message : String
  Error : String
  deriving DecidableEq, Repr

/-- The record `models.Trigger`. -/
structure Trigger where
  AppID : String
  BreachDuration : Int
  deriving DecidableEq, Repr

/-- The record `models.RouteEntity`. -/
structure RouteEntity where
  Route : String
  IP : String
  Port : Int
  TTL : Int
  deriving DecidableEq, Repr

/-- The part of `gcf.AppSummary` the engine reads. -/
structure AppSummary where
  State : String
  deriving DecidableEq, Repr

/-! ## The platform client and the world -/

/-- What a platform request returns: the value, the `error`, and how long
the request lasted (nanoseconds). -/
structure Reply (α : Type) where
  value : α
  err : Option String
  took : Nat

/-- The behaviour of a `cf.Client`.  The `Nat` argument of each operation is
the number of platform requests issued before this one. -/
structure CfClient where
  StartApp : String → Nat → Reply Unit
  StopApp : String → Nat → Reply Unit
  GetAppRunningInstanceNumber : String → Nat → Reply Int
  GetAppSummary : String → Nat → Reply AppSummary
  UnRegisterRoutes : List RouteEntity → Nat → Reply Unit

/-- The environment of a run: the platform, and by how much each
`time.Sleep` oversleeps. -/
structure Env where
  cf : CfClient
  oversleep : Nat → Nat

/-- A platform request, as recorded in `World.cfCalls`. -/
inductive CfCall where
  | StartApp (appID : String)
  | StopApp (appID : String)
  | GetAppRunningInstanceNumber (appID : String)
  | GetAppSummary (appID : String)
  | UnRegisterRoutes (routes : List RouteEntity)
  deriving DecidableEq, Repr

/-- A call of one of the route capabilities handed to the engine. -/
inductive RouteCall where
  | EnableAppRoutes (appID : String)
  | DisableAppRoutes (appID : String)
  deriving DecidableEq, Repr

/-- The mutable state of `routemanager.RouteManager` with the listener
address it was built with. -/
structure RouteManager where
  appRoutesMap : GoMap (List String)
  routeAppMap : GoMap String
  temporaryDisabledAppMap : GoMap Bool
  routeListenerIP : String
  routeListenerPort : Int
  deriving DecidableEq

/-- All that an invocation of the engine can read or change outside the
engine itself. -/
structure World where
  now : Int
  cfCalls : List CfCall
  scalingHistory : List AppScalingHistory
  routeManager : RouteManager
  routeCalls : List RouteCall
  deriving DecidableEq

namespace World

/-- Issue a platform request: record it and let its duration pass. -/
def request {α : Type} (w : World) (c : CfCall) (r : Reply α) : World :=
  { w with now := w.now + (r.took : Int), cfCalls := w.cfCalls ++ [c] }

/-- The statement `time.Sleep(d)`. -/
def sleep (w : World) (env : Env) (d : Int) : World :=
  { w with now := w.now + d + (env.oversleep w.cfCalls.length : Int) }

/-- The call `scalingEngineDB.SaveScalingHistory(history)`; the engine drops
the `error` it returns. -/
def SaveScalingHistory (w : World) (history : AppScalingHistory) : World :=
  { w with scalingHistory := w.scalingHistory ++ [history] }

end World

/-! ## routemanager/route_manager.go -/

namespace RouteManager

/-- The slice `routeEntityList` that `DisableAppRoutes` builds from the
routes of an app. -/
def routeEntityList (rm : RouteManager) (routes : List String) : List RouteEntity :=
  routes.map (fun r =>
    { Route := r, IP := rm.routeListenerIP, Port := rm.routeListenerPort, TTL := 120 })

/-- The method `RouteManager.DisableAppRoutes`: returns the new state and the argument
of the `UnRegisterRoutes` request it issues, if it issues one. -/
def DisableAppRoutes (rm : RouteManager) (appID : String) :
    RouteManager × Option (List RouteEntity) :=
  let rm1 := { rm with temporaryDisabledAppMap := GoMap.set rm.temporaryDisabledAppMap appID true }
  match AList.lookup appID rm1.appRoutesMap with
  | some routes =>
    let l := routeEntityList rm1 routes
    if l.length > 0 then (rm1, some l) else (rm1, none)
  | none => (rm1, none)

/-- The method `RouteManager.EnableAppRoutes`. -/
def EnableAppRoutes (rm : RouteManager) (appID : String) : RouteManager :=
  { rm with temporaryDisabledAppMap := GoMap.delete rm.temporaryDisabledAppMap appID }

end RouteManager

namespace World

/-- The capability `disableAppRoutesFunc`, bound to
`routeManager.DisableAppRoutes` in `cmd/scale2zero/main.go`. -/
def disableAppRoutesFunc (w : World) (env : Env) (appID : String) : World :=
  let w1 := { w with routeCalls := w.routeCalls ++ [RouteCall.DisableAppRoutes appID] }
  match RouteManager.DisableAppRoutes w1.routeManager appID with
  | (rm, some l) =>
    request { w1 with routeManager := rm } (CfCall.UnRegisterRoutes l)
      (env.cf.UnRegisterRoutes l w1.cfCalls.length)
  | (rm, none) => { w1 with routeManager := rm }

/-- The capability `enableAppRoutesFunc`, bound to
`routeManager.EnableAppRoutes` in `cmd/scale2zero/main.go`. -/
def enableAppRoutesFunc (w : World) (appID : String) : World :=
  { w with
    routeCalls := w.routeCalls ++ [RouteCall.EnableAppRoutes appID],
    routeManager := RouteManager.EnableAppRoutes w.routeManager appID }

end World

/-! ## scalingengine/scalingengine.go -/

/-- The fields of `scalingengine.ScalingEngine` that `StartApp`, `StopApp`
and `checkCoolDown` read or write (client, database and route capabilities
are in `Env` and `World`). -/
structure ScalingEngine where
  appNextScaleTimestampMap : GoMap Int
  coolDownDuration : Int
  startStopExpiredDuration : Int
  deriving DecidableEq

/-- The constructor `NewScalingEngine`: an empty cool-down map, and two minutes for
`startStopExpiredDuration`. -/
def NewScalingEngine (coolDownDuration : Int) : ScalingEngine :=
  { appNextScaleTimestampMap := GoMap.empty,
    coolDownDuration := coolDownDuration,
    startStopExpiredDuration := 2 * Minute }

/-- What an invocation returns: the Go `error`, and the engine and world it
leaves behind. -/
structure Outcome where
  err : Option String
  se : ScalingEngine
  world : World
  deriving DecidableEq

namespace ScalingEngine

/-- The method `ScalingEngine.checkCoolDown`. -/
def checkCoolDown (se : ScalingEngine) (w : World) (appID : String) : Bool :=
  let duration := w.now - GoMap.get se.appNextScaleTimestampMap appID 0
  if duration > 0 then true else false

/-- The text `fmt.Sprintf("%d", se.startStopExpiredDuration/time.Second)`. -/
def expiredSeconds (se : ScalingEngine) : String :=
  toString (Int.tdiv se.startStopExpiredDuration Second)

/-- Iterations granted to a polling loop.  Each iteration that does not
return sleeps five seconds, so the loop returns within this many
(`startPoll_returns`, `stopPoll_returns`). -/
def pollFuel (se : ScalingEngine) : Nat :=
  Int.toNat (se.startStopExpiredDuration / (5 * Second)) + 2

/-- The record `history` that `StartApp` creates (lines 48-53); the fields
the literal leaves out have their zero value. -/
def startHistory (appID : String) (now : Int) : AppScalingHistory :=
  { AppId := appID,
    Timestamp := now,
    ScalingType := ScalingType.ScalingType2ZeroStart,
    Status := ScalingStatus.ScalingStatusSucceeded,
    OldInstances := 0,
    NewInstances := 0,
    Reason := "ingress request received",
    Message := "",
    Error := "" }

/-- The record `history` that `StopApp` creates (lines 97-102); the fields
the literal leaves out have their zero value. -/
def stopHistory (trigger : Trigger) (now : Int) : AppScalingHistory :=
  { AppId := trigger.AppID,
    Timestamp := now,
    ScalingType := ScalingType.ScalingType2ZeroStop,
    Status := ScalingStatus.ScalingStatusSucceeded,
    OldInstances := 0,
    NewInstances := 0,
    Reason := "no ingress request received for " ++ toString trigger.BreachDuration ++ " seconds",
    Message := "",
    Error := "" }

/-- The `for`/`select` loop of `StartApp` (lines 62-85).  `expiredAt` is the
instant at which `expiredChan` becomes readable.  The result is the returned
`error`, the engine, the world and the history record as the loop leaves
them; `none` when the iterations granted are used up. -/
def startPoll (env : Env) (se : ScalingEngine) (appID : String) (expiredAt : Int)
    (history : AppScalingHistory) :
    Nat → World → Option (Option String × ScalingEngine × World × AppScalingHistory)
  | 0, _ => none
  | fuel + 1, w =>
    if expiredAt ≤ w.now then
      -- case <-expiredChan
      some (some "failed to start application", se, w,
        { history with
          Status := ScalingStatus.ScalingStatusFailed,
          Message := "failed to start application in " ++ expiredSeconds se ++ " seconds" })
    else
      -- default
      let r := env.cf.GetAppRunningInstanceNumber appID w.cfCalls.length
      let w1 := w.request (CfCall.GetAppRunningInstanceNumber appID) r
      -- a failed query is logged only
      if r.value ≥ 1 then
        let se1 := { se with
          appNextScaleTimestampMap :=
            GoMap.set se.appNextScaleTimestampMap appID (w1.now + se.coolDownDuration) }
        let w2 := w1.disableAppRoutesFunc env appID
        some (none, se1, w2, { history with Status := ScalingStatus.ScalingStatusSucceeded })
      else
        startPoll env se appID expiredAt history fuel (w1.sleep env (5 * Second))

/-- The method `ScalingEngine.StartApp`.  The deferred `SaveScalingHistory(history)`
runs at every return, with the record as it is then. -/
def StartApp (env : Env) (se : ScalingEngine) (w : World) (appID : String) : Option Outcome :=
  let history := startHistory appID w.now
  let r := env.cf.StartApp appID w.cfCalls.length
  let w1 := w.request (CfCall.StartApp appID) r
  match r.err with
  | some e => some { err := some e, se := se, world := w1.SaveScalingHistory history }
  | none =>
    let expiredAt := w1.now + se.startStopExpiredDuration
    match startPoll env se appID expiredAt history (pollFuel se) w1 with
    | none => none
    | some (err, se1, w2, history1) =>
      some { err := err, se := se1, world := w2.SaveScalingHistory history1 }

/-- The `for`/`select` loop of `StopApp` (lines 126-155); `none` when the
iterations granted are used up. -/
def stopPoll (env : Env) (se : ScalingEngine) (appID : String) (expiredAt : Int)
    (history : AppScalingHistory) : Nat → World → Option Outcome
  | 0, _ => none
  | fuel + 1, w =>
    if expiredAt ≤ w.now then
      -- case <-expiredChan
      some { err := some "failed to stop app", se := se,
             world := w.SaveScalingHistory
              { history with
                Status := ScalingStatus.ScalingStatusFailed,
                Message := "failed to stop application in " ++ expiredSeconds se ++ " seconds" } }
    else
      -- default
      let r := env.cf.GetAppSummary appID w.cfCalls.length
      let w1 := w.request (CfCall.GetAppSummary appID) r
      match r.err with
      | some e =>
        some { err := some e, se := se,
               world := w1.SaveScalingHistory
                { history with
                  Status := ScalingStatus.ScalingStatusFailed,
                  Message := "failed to get application status" } }
      | none =>
        if r.value.State = "STOPPED" then
          let se1 := { se with
            appNextScaleTimestampMap :=
              GoMap.set se.appNextScaleTimestampMap appID (w1.now + se.coolDownDuration) }
          let w2 := w1.enableAppRoutesFunc appID
          some { err := none, se := se1,
                 world := w2.SaveScalingHistory
                  { history with Status := ScalingStatus.ScalingStatusSucceeded } }
        else
          stopPoll env se appID expiredAt history fuel (w1.sleep env (5 * Second))

/-- The method `ScalingEngine.StopApp`. -/
def StopApp (env : Env) (se : ScalingEngine) (w : World) (trigger : Trigger) : Option Outcome :=
  let appID := trigger.AppID
  if !checkCoolDown se w appID then
    some { err := none, se := se, world := w }
  else
    let history := stopHistory trigger w.now
    let r := env.cf.GetAppSummary appID w.cfCalls.length
    let w1 := w.request (CfCall.GetAppSummary appID) r
    match r.err with
    | some e =>
      some { err := some e, se := se,
             world := w1.SaveScalingHistory
              { history with
                Status := ScalingStatus.ScalingStatusFailed,
                Message := "failed to get application status" } }
    | none =>
      if r.value.State = "STOPPED" then
        some { err := none, se := se, world := w1 }
      else
        let r2 := env.cf.StopApp appID w1.cfCalls.length
        let w2 := w1.request (CfCall.StopApp appID) r2
        match r2.err with
        | some e =>
          some { err := some e, se := se,
                 world := w2.SaveScalingHistory
                  { history with
                    Status := ScalingStatus.ScalingStatusFailed,
                    Message := "failed to send stop application request" } }
        | none =>
          let expiredAt := w2.now + se.startStopExpiredDuration
          stopPoll env se appID expiredAt history (pollFuel se) w2

end ScalingEngine

/-! ## Runs of the engine -/

/-- The world at the start of iteration `k` of a polling loop whose
iterations before `k` all issued the request `c` and went to sleep for five
seconds; `took n` is how long the request numbered `n` lasts. -/
def pollWorld (env : Env) (c : CfCall) (took : Nat → Nat) : Nat → World → World
  | 0, w => w
  | k + 1, w =>
    pollWorld env c took k
      ((w.request c ({ value := (), err := none, took := took w.cfCalls.length } : Reply Unit)).sleep
        env (5 * Second))

/-- The world at the start of iteration `k` of the loop of `StartApp`, all
iterations before it having gone to sleep. -/
def startPollWorld (env : Env) (appID : String) (k : Nat) (w : World) : World :=
  pollWorld env (CfCall.GetAppRunningInstanceNumber appID)
    (fun n => (env.cf.GetAppRunningInstanceNumber appID n).took) k w

/-- The world at the start of iteration `k` of the loop of `StopApp`, all
iterations before it having gone to sleep. -/
def stopPollWorld (env : Env) (appID : String) (k : Nat) (w : World) : World :=
  pollWorld env (CfCall.GetAppSummary appID)
    (fun n => (env.cf.GetAppSummary appID n).took) k w

/-- The world in which the loop of `StartApp` starts: the start request has
returned. -/
def startRequested (env : Env) (w : World) (appID : String) : World :=
  w.request (CfCall.StartApp appID) (env.cf.StartApp appID w.cfCalls.length)

/-- The world in which the loop of `StopApp` starts: the first
`GetAppSummary` and the stop request have returned. -/
def stopRequested (env : Env) (w : World) (appID : String) : World :=
  (w.request (CfCall.GetAppSummary appID) (env.cf.GetAppSummary appID w.cfCalls.length)).request
    (CfCall.StopApp appID) (env.cf.StopApp appID (w.cfCalls.length + 1))

/-- One step of a run: an invocation of the engine, or time passing between
two invocations. -/
inductive Step where
  | StartApp (appID : String)
  | StopApp (trigger : Trigger)
  | Wait (d : Nat)
  deriving DecidableEq, Repr

/-- The record of one invocation in a run: the app, whether it was a
`StopApp`, the `error` returned and the history rows it wrote. -/
structure Action where
  appID : String
  stop : Bool
  err : Option String
  rows : List AppScalingHistory
  deriving DecidableEq, Repr

/-- An invocation ended Succeeded: it returned `nil` and wrote a history row
of status Succeeded. -/
def Action.succeeded (a : Action) : Prop :=
  a.err = none ∧ ∃ r ∈ a.rows, r.Status = ScalingStatus.ScalingStatusSucceeded

/-- The record of an invocation that started in world `w` and returned `o`. -/
def Action.of (appID : String) (stop : Bool) (w : World) (o : Outcome) : Action :=
  { appID := appID, stop := stop, err := o.err,
    rows := o.world.scalingHistory.drop w.scalingHistory.length }

/-- Run the steps in order, from an engine and a world; the result lists the
invocations made, oldest first. -/
def run (env : Env) : List Step → ScalingEngine → World →
    Option (List Action × ScalingEngine × World)
  | [], se, w => some ([], se, w)
  | Step.Wait d :: rest, se, w => run env rest se { w with now := w.now + (d : Int) }
  | Step.StartApp appID :: rest, se, w =>
    match ScalingEngine.StartApp env se w appID with
    | none => none
    | some o =>
      match run env rest o.se o.world with
      | none => none
      | some (acts, se1, w1) => some (Action.of appID false w o :: acts, se1, w1)
  | Step.StopApp trigger :: rest, se, w =>
    match ScalingEngine.StopApp env se w trigger with
    | none => none
    | some o =>
      match run env rest o.se o.world with
      | none => none
      | some (acts, se1, w1) => some (Action.of trigger.AppID true w o :: acts, se1, w1)

/-- The cool-down property of a run: the run returns, and for any two of its
invocations on the same app that both ended Succeeded, the first before the
second and the second satisfying `later`, the history timestamps `t1` of the
first and `t2` of the second satisfy `t2 - t1 ≥ coolDownDuration` (and
`t1 < t2` when the cool-down is not negative). -/
def CooldownHolds (env : Env) (se : ScalingEngine) (w : World) (steps : List Step)
    (later : Action → Prop) : Prop :=
  ∃ acts se1 w1, run env steps se w = some (acts, se1, w1) ∧
    acts.Pairwise (fun a1 a2 =>
      a1.appID = a2.appID → a1.succeeded → a2.succeeded → later a2 →
        ∀ r1 ∈ a1.rows, ∀ r2 ∈ a2.rows,
          (0 ≤ se.coolDownDuration → r1.Timestamp < r2.Timestamp) ∧
          r2.Timestamp - r1.Timestamp ≥ se.coolDownDuration)

/-! ## eventgenerator/aggregator.go -/

/-- The two maps of `eventgenerator.Aggregator`. -/
structure Aggregator where
  appLatestRequestTimeMap : GoMap Int
  appBreachDurationMap : GoMap Int
  deriving DecidableEq

namespace Aggregator

/-- The method `Aggregator.refreshApps`; `apps` is what `getAppsFunc()` returns and `now`
what `time.Now().UnixNano()` reads. -/
def refreshApps (eg : Aggregator) (apps : GoMap Int) (now : Int) : Aggregator :=
  let latest1 := apps.keys.foldl
    (fun m appId => if !GoMap.has m appId then GoMap.set m appId now else m)
    eg.appLatestRequestTimeMap
  let latest2 := latest1.keys.foldl
    (fun m appId => if !GoMap.has apps appId then GoMap.delete m appId else m)
    latest1
  { appLatestRequestTimeMap := latest2, appBreachDurationMap := apps }

end Aggregator

namespace Aggregator

/-- The method `Aggregator.doEvaluation`, with `now` what `time.Now().UnixNano()`
reads.  It returns the aggregator, which it does not write to, and the
triggers it sends on `triggerChan`, in the order sent.  The quotient is Go's
`int64` division, which truncates toward zero. -/
def doEvaluation (eg : Aggregator) (now : Int) : Aggregator × List Trigger :=
  (eg, eg.appLatestRequestTimeMap.entries.foldl
    (fun chan e =>
      let duration := Int.tdiv (now - e.2) 1000000000
      if duration > GoMap.get eg.appBreachDurationMap e.1 0 then
        chan ++ [{ AppID := e.1, BreachDuration := GoMap.get eg.appBreachDurationMap e.1 0 }]
      else chan)
    [])

end Aggregator

/-! ## nozzle/nozzle.go -/

/-- The `oneof` field `message` of `loggregator_v2.Envelope`: unset, or one
of the five message kinds; a counter, a gauge metric and a timer carry a
name. -/
inductive EnvelopeMessage where
  | Unset
  | Log
  | Counter (name : String)
  | Gauge
  | Timer (name : String)
  | Event
  deriving DecidableEq, Repr

/-- The fields of `loggregator_v2.Envelope` that the nozzle reads. -/
structure Envelope where
  SourceId : String
  Message : EnvelopeMessage
  deriving DecidableEq, Repr

/-- The method `Nozzle.filterEnvelopes`; `apps` is what `getAppIDsFunc()`
returns.  The result lists the envelopes sent on `envelopChan`, in the order
sent. -/
def filterEnvelopes (apps : GoMap Int) (envelops : List Envelope) : List Envelope :=
  envelops.foldl
    (fun chan e =>
      if GoMap.has apps e.SourceId then
        match e.Message with
        | EnvelopeMessage.Timer name => if name = "http" then chan ++ [e] else chan
        | _ => chan
      else chan)
    []

/-! ## routemanager/route_manager.go: refresh, send, lookup -/

/-- The constructor `NewRouteManager`: three empty maps. -/
def NewRouteManager (routeListenerIP : String) (routeListenerPort : Int) : RouteManager :=
  { appRoutesMap := GoMap.empty, routeAppMap := GoMap.empty,
    temporaryDisabledAppMap := GoMap.empty,
    routeListenerIP := routeListenerIP, routeListenerPort := routeListenerPort }

namespace RouteManager

/-- The body of the loop over `staleAppList` in `refreshApps` (lines 112-119). -/
def dropStaleApp (rm : RouteManager) (appId : String) : RouteManager :=
  let rm1 :=
    match AList.lookup appId rm.appRoutesMap with
    | some routes =>
      { rm with routeAppMap := routes.foldl (fun m r => GoMap.delete m r) rm.routeAppMap }
    | none => rm
  { rm1 with appRoutesMap := GoMap.delete rm1.appRoutesMap appId }

/-- The body of the loop over `newAppList` in `refreshApps` (lines 120-130);
the second component lists the apps `GetAppRoutes` was called for. -/
def addNewApp (GetAppRoutes : String → Reply (List String))
    (st : RouteManager × List String) (appId : String) : RouteManager × List String :=
  let r := GetAppRoutes appId
  match r.err with
  | some _ => (st.1, st.2 ++ [appId])
  | none =>
    ({ st.1 with
        routeAppMap := r.value.foldl (fun m route => GoMap.set m route appId) st.1.routeAppMap,
        appRoutesMap := GoMap.set st.1.appRoutesMap appId r.value },
      st.2 ++ [appId])

/-- The slice `newAppList` of `refreshApps` (lines 99-105). -/
def newAppList (rm : RouteManager) (appMap : GoMap Int) : List String :=
  appMap.keys.foldl
    (fun l appId => if !GoMap.has rm.appRoutesMap appId then l ++ [appId] else l) []

/-- The slice `staleAppList` of `refreshApps` (lines 100-110). -/
def staleAppList (rm : RouteManager) (appMap : GoMap Int) : List String :=
  rm.appRoutesMap.keys.foldl
    (fun l appId => if !GoMap.has appMap appId then l ++ [appId] else l) []

/-- The method `RouteManager.refreshApps`; `appMap` is what `getAppFunc()`
returns and `GetAppRoutes` how the platform answers `cfClient.GetAppRoutes`
during this pass.  The result is the new state and the apps `GetAppRoutes`
was called for, in call order. -/
def refreshApps (rm : RouteManager) (appMap : GoMap Int)
    (GetAppRoutes : String → Reply (List String)) : RouteManager × List String :=
  (newAppList rm appMap).foldl (addNewApp GetAppRoutes)
    ((staleAppList rm appMap).foldl dropStaleApp rm, [])

/-- The method `RouteManager.sendRoutes`: returns the state, which it does
not write to, and the entities it sends on `routeChan`, in the order sent. -/
def sendRoutes (rm : RouteManager) : RouteManager × List RouteEntity :=
  (rm, rm.appRoutesMap.entries.foldl
    (fun chan e =>
      if GoMap.get rm.temporaryDisabledAppMap e.1 false then chan
      else
        e.2.foldl
          (fun chan route =>
            chan ++ [{ Route := route, IP := rm.routeListenerIP,
                       Port := rm.routeListenerPort, TTL := 120 }])
          chan)
    [])

/-- The method `RouteManager.GetAppIDByRoute`. -/
def GetAppIDByRoute (rm : RouteManager) (route : String) : String :=
  match AList.lookup route rm.routeAppMap with
  | some appID => appID
  | none => ""

/-- The states a route manager can reach from `NewRouteManager` by
`refreshApps`, `DisableAppRoutes` and `EnableAppRoutes`, when every
successful answer `routes` of `GetAppRoutes` for an app `a` satisfies
`ok a routes`. -/
inductive Reachable (ok : String → List String → Prop) : RouteManager → Prop where
  | init (ip : String) (port : Int) : Reachable ok (NewRouteManager ip port)
  | refresh (rm : RouteManager) (appMap : GoMap Int)
      (GetAppRoutes : String → Reply (List String)) :
      Reachable ok rm →
      (∀ a, (GetAppRoutes a).err = none → ok a (GetAppRoutes a).value) →
      Reachable ok (refreshApps rm appMap GetAppRoutes).1
  | disable (rm : RouteManager) (appID : String) :
      Reachable ok rm → Reachable ok (DisableAppRoutes rm appID).1
  | enable (rm : RouteManager) (appID : String) :
      Reachable ok rm → Reachable ok (EnableAppRoutes rm appID)

/-- The hostname `h` is in `app_routes[a]`. -/
def Lists (rm : RouteManager) (a h : String) : Prop :=
  ∃ routes, AList.lookup a rm.appRoutesMap = some routes ∧ h ∈ routes

/-- The route-map invariant: `route_app[h] = a` if and only if `h` is in
`app_routes[a]`. -/
def RouteMapInvariant (rm : RouteManager) : Prop :=
  ∀ h a, AList.lookup h rm.routeAppMap = some a ↔ Lists rm a h

/-- The app `appID` is in the suppressed set. -/
def suppressed (rm : RouteManager) (appID : String) : Bool :=
  GoMap.get rm.temporaryDisabledAppMap appID false

end RouteManager

/-- The state of the route manager after a series of `refreshApps` passes,
each with its registry snapshot and its platform answers. -/
def RouteManager.refreshMany (rm : RouteManager)
    (passes : List (GoMap Int × (String → Reply (List String)))) : RouteManager :=
  passes.foldl (fun rm pass => (RouteManager.refreshApps rm pass.1 pass.2).1) rm

/-! ## appmanager/app_manager.go -/

/-- The Go heap, as far as objects of type `map[string]int` go: what the map
object at each address holds, and the address the next `make` returns.  A
Go value of type `map[string]int` is the address of a map object. -/
structure MapHeap where
  contents : Nat → GoMap Int
  next : Nat

/-- The field `applicationMap` of `appmanager.AppManager`: the address of the
registry's map object. -/
structure AppManager where
  applicationMap : Nat
  deriving DecidableEq, Repr

/-- The constructor `NewAppManager`: `applicationMap` is a new, empty map
object. -/
def NewAppManager (heap : MapHeap) : AppManager × MapHeap :=
  ({ applicationMap := heap.next },
   { contents := Function.update heap.contents heap.next GoMap.empty, next := heap.next + 1 })

namespace AppManager

/-- The method `AppManager.GetApplications`: it returns `am.applicationMap`,
the address of the registry's map object. -/
def GetApplications (am : AppManager) : Nat := am.applicationMap

/-- The method `AppManager.AddApp`: the assignment
`am.applicationMap[appId] = breachDuration` writes to the map object. -/
def AddApp (am : AppManager) (heap : MapHeap) (appId : String) (breachDuration : Int) :
    MapHeap :=
  { heap with
    contents := Function.update heap.contents am.applicationMap
      (GoMap.set (heap.contents am.applicationMap) appId breachDuration) }

/-- The method `AppManager.RemoveApp`: `delete(am.applicationMap, appId)`
writes to the map object. -/
def RemoveApp (am : AppManager) (heap : MapHeap) (appId : String) : MapHeap :=
  { heap with
    contents := Function.update heap.contents am.applicationMap
      (GoMap.delete (heap.contents am.applicationMap) appId) }

/-- One iteration of the loop of `AppManager.startApplicationRetrieve` (lines
65-71); `loaded` is what `applicationDB.GetApplications()` returns: an error,
or a map object that the database layer has just made. -/
def retrieve (am : AppManager) (heap : MapHeap) (loaded : Except String (GoMap Int)) :
    AppManager × MapHeap :=
  match loaded with
  | Except.ok apps =>
    ({ applicationMap := heap.next },
     { contents := Function.update heap.contents heap.next apps, next := heap.next + 1 })
  | Except.error _ => (am, heap)

/-- Snapshot isolation for one `AddApp`: the map returned by
`GetApplications` before the call holds after the call what it held before. -/
def AddIsolated (am : AppManager) (heap : MapHeap) (appId : String) (breachDuration : Int) :
    Prop :=
  (AddApp am heap appId breachDuration).contents (GetApplications am) =
    heap.contents (GetApplications am)

end AppManager

/-! ## db/db.go, db/sqldb/scalingengine_sqldb.go -/

/-- The constant `db.DESC` of type `db.OrderType` (a `uint8`). -/
def DESC : Nat := 0

/-- The constant `db.ASC` of type `db.OrderType` (a `uint8`). -/
def ASC : Nat := 1

/-- The constant `db.DESCSTR`. -/
def DESCSTR : String := "DESC"

/-- The constant `db.ASCSTR`. -/
def ASCSTR : String := "ASC"

/-- The rows the database returns for the statement that
`RetrieveScalingHistories` builds (lines 74-78), `SELECT ... FROM
scalinghistory WHERE appid = $1 AND timestamp >= $2 AND timestamp <= $3 ORDER
BY timestamp` followed by `orderStr`, on the table `table`.  SQL leaves the
order of rows with equal timestamps open; here they keep their table order. -/
def selectScalingHistory (table : List AppScalingHistory) (appId : String) (start end1 : Int)
    (orderStr : String) : List AppScalingHistory :=
  let rows := table.filter
    (fun r => decide (r.AppId = appId) && decide (start ≤ r.Timestamp) &&
      decide (r.Timestamp ≤ end1))
  if orderStr = "DESC" then rows.insertionSort (fun a b => a.Timestamp ≥ b.Timestamp)
  else rows.insertionSort (fun a b => a.Timestamp ≤ b.Timestamp)

/-- The method `ScalingEngineSQLDB.RetrieveScalingHistories` on the table
`table`; `now` is what `time.Now().UnixNano()` reads and `queryErr` the error
of `sqldb.Query`, if it fails. -/
def RetrieveScalingHistories (table : List AppScalingHistory) (now : Int)
    (queryErr : Option String) (appId : String) (start end0 : Int) (orderType : Nat)
    (includeAll : Bool) : Except String (List AppScalingHistory) :=
  let orderStr := if orderType = DESC then DESCSTR else ASCSTR
  let end1 := if end0 < 0 then now else end0
  match queryErr with
  | some e => Except.error e
  | none =>
    Except.ok
      ((selectScalingHistory table appId start end1 orderStr).foldl
        (fun histories row =>
          let history := { row with AppId := appId }
          if includeAll = true ∨ history.Status ≠ ScalingStatus.ScalingStatusIgnored then
            histories ++ [history]
          else histories)
        [])

/-! ## eventgenerator/aggregator.go: the ingest loop -/

/-- The `envelopChan` case of `Aggregator.startAggregation`: the envelope's
source id gets the current time as its latest request time, whether or not
the registry knows the id; `now` is `time.Now().UnixNano()`. -/
def Aggregator.ingest (eg : Aggregator) (envelope : Envelope) (now : Int) : Aggregator :=
  { eg with
    appLatestRequestTimeMap := GoMap.set eg.appLatestRequestTimeMap envelope.SourceId now }

/-! ## routemanager/server/route_handler.go -/

/-- The type `models.ErrorResponse`, as the handlers build it: a code and a
message. -/
structure ErrorResponse where
  Code : String
  Message : String
  deriving DecidableEq, Repr

/-- How `HijackAppRoutes` answers a request: `handlers.WriteJSONResponse`
with a status and an error body, or `reverseProxy.ServeHTTP`, which forwards
the request to the URL the `Director` sets: scheme `http`, host the
request's `Host`. -/
inductive RouteResponse where
  | WriteJSONResponse (status : Nat) (body : ErrorResponse)
  | ServeHTTP (scheme : String) (host : String)
  deriving DecidableEq, Repr

/-- The fields of `RouteHandler` that `HijackAppRoutes` calls.  Both read or
change state outside the handler (the route manager, the scaling engine,
the platform); `σ` is that state. -/
structure RouteHandler (σ : Type) where
  getAppIDByRouteFunc : σ → String → String
  startAppFunc : String → σ → Option String × σ

/-- What one request leaves behind: the response, the apps `startAppFunc` was
called for, and the state. -/
structure Hijacked (σ : Type) where
  response : RouteResponse
  started : List String
  state : σ

/-- The method `RouteHandler.HijackAppRoutes` for a request with host `host`. -/
def RouteHandler.HijackAppRoutes {σ : Type} (h : RouteHandler σ) (host : String) (s : σ) :
    Hijacked σ :=
  let appID := h.getAppIDByRouteFunc s host
  if appID = "" then
    { response := RouteResponse.WriteJSONResponse 500
        { Code := "Internal-server-error", Message := "Error taking scaling action" },
      started := [], state := s }
  else
    let r := h.startAppFunc appID s
    match r.1 with
    | some _ =>
      { response := RouteResponse.WriteJSONResponse 500
          { Code := "Internal-server-error", Message := "Error taking scaling action" },
        started := [appID], state := r.2 }
    | none =>
      { response := RouteResponse.ServeHTTP "http" host, started := [appID], state := r.2 }

/-! ## eventgenerator/trigger_worker.go -/

/-- How a run of a loop stands after some iterations: it has returned, it is
blocked in a `select` none of whose cases is ready, or it is about to start
another iteration. -/
inductive LoopEnd (α : Type) where
  | Returned (state : α)
  | Blocked (state : α)
  | Running (state : α)
  deriving DecidableEq, Repr

/-- A trigger worker and what can be seen of it: the triggers waiting in
`triggerChan`, the triggers `scale2ZeroFunc` was called with, and the
messages logged at level info. -/
structure TriggerWorker where
  triggerChan : List Trigger
  handled : List Trigger
  infos : List String
  deriving DecidableEq, Repr

/-- The method `TriggerWorker.doHandleTrigger`, run for at most `n`
iterations of its loop.  `done` says whether `context.Done()` is closed;
when both cases of the `select` are ready Go picks one at random, here
`pickDone` decides, given the number of iterations made so far.  The case
`context.Done()` logs `stopped` and the loop goes on; no path returns. -/
def TriggerWorker.doHandleTrigger (done : Bool) (pickDone : Nat → Bool) :
    Nat → TriggerWorker → LoopEnd TriggerWorker
  | 0, w => LoopEnd.Running w
  | n + 1, w =>
    match done, w.triggerChan with
    | false, [] => LoopEnd.Blocked w
    | false, trigger :: rest =>
      TriggerWorker.doHandleTrigger done pickDone n
        { w with triggerChan := rest, handled := w.handled ++ [trigger] }
    | true, [] =>
      TriggerWorker.doHandleTrigger done pickDone n { w with infos := w.infos ++ ["stopped"] }
    | true, trigger :: rest =>
      if pickDone (w.handled.length + w.infos.length) then
        TriggerWorker.doHandleTrigger done pickDone n { w with infos := w.infos ++ ["stopped"] }
      else
        TriggerWorker.doHandleTrigger done pickDone n
          { w with triggerChan := rest, handled := w.handled ++ [trigger] }

/-! ## apiserver/server/api_handler.go: GetScalingHistories -/

/-- The functions of the Go standard library that `GetScalingHistories`
calls: `strconv.ParseInt(s, 10, 64)`, here `none` when it returns an error,
`strings.ToUpper` and `strings.ToLower`. -/
structure GoLibrary where
  ParseInt : String → Option Int
  ToUpper : String → String
  ToLower : String → String

/-- The arguments of one call of `scalingEngineDB.RetrieveScalingHistories`. -/
structure HistoryQuery where
  appId : String
  start : Int
  end0 : Int
  orderType : Nat
  includeAll : Bool
  deriving DecidableEq, Repr

/-- How `GetScalingHistories` answers: `handlers.WriteJSONResponse` with a
status and an error body, or `w.Write` of the histories as JSON. -/
inductive ApiResponse where
  | WriteJSONResponse (status : Nat) (body : ErrorResponse)
  | Write (histories : List AppScalingHistory)
  deriving DecidableEq, Repr

/-- The block of `GetScalingHistories` that reads the parameter `start`
(lines 125-140); an error is the body of the 400 response. -/
def parseStart (lib : GoLibrary) (startParam : List String) : Except ErrorResponse Int :=
  match startParam with
  | [] => Except.ok 0
  | [s] =>
    match lib.ParseInt s with
    | some start => Except.ok start
    | none => Except.error { Code := "Bad-Request", Message := "Error parsing start time" }
  | _ :: _ :: _ =>
    Except.error
      { Code := "Bad-Request", Message := "Incorrect start parameter in query string" }

/-- The block of `GetScalingHistories` that reads the parameter `end` (lines
142-157). -/
def parseEnd (lib : GoLibrary) (endParam : List String) : Except ErrorResponse Int :=
  match endParam with
  | [] => Except.ok (-1)
  | [s] =>
    match lib.ParseInt s with
    | some end0 => Except.ok end0
    | none => Except.error { Code := "Bad-Request", Message := "Error parsing end time" }
  | _ :: _ :: _ =>
    Except.error { Code := "Bad-Request", Message := "Incorrect end parameter in query string" }

/-- The block of `GetScalingHistories` that reads the parameter `order`
(lines 159-179). -/
def parseOrder (lib : GoLibrary) (orderParam : List String) : Except ErrorResponse Nat :=
  match orderParam with
  | [] => Except.ok DESC
  | [s] =>
    let orderStr := lib.ToUpper s
    if orderStr = DESCSTR then Except.ok DESC
    else if orderStr = ASCSTR then Except.ok ASC
    else
      Except.error
        { Code := "Bad-Request",
          Message := "Incorrect order parameter in query string, the value can only be " ++
            "\x27" ++ ASCSTR ++ "\x27 or \x27" ++ DESCSTR ++ "\x27" }
  | _ :: _ :: _ =>
    Except.error
      { Code := "Bad-Request", Message := "Incorrect order parameter in query string" }

/-- The block of `GetScalingHistories` that reads the parameter `include`
(lines 181-199). -/
def parseInclude (lib : GoLibrary) (includeParam : List String) : Except ErrorResponse Bool :=
  match includeParam with
  | [] => Except.ok false
  | [s] =>
    let includeStr := lib.ToLower s
    if includeStr = "all" then Except.ok true
    else
      Except.error
        { Code := "Bad-Request",
          Message := "Incorrect include parameter in query string, the value can only be " ++
            "\x27all\x27" }
  | _ :: _ :: _ =>
    Except.error
      { Code := "Bad-Request", Message := "Incorrect include parameter in query string" }

/-- The method `PublicApiHandler.GetScalingHistories`.  `appId` is
`vars["appid"]`, the four lists are what `r.URL.Query()` holds for `start`,
`end`, `order` and `include`, and `RetrieveScalingHistories` is the method
of `h.scalingEngineDB`.  The result is the response and the queries made to
the database.  (`json.Marshal` of a slice of history records returns no
error.) -/
def GetScalingHistories (lib : GoLibrary)
    (RetrieveScalingHistories :
      String → Int → Int → Nat → Bool → Except String (List AppScalingHistory))
    (appId : String) (startParam endParam orderParam includeParam : List String) :
    ApiResponse × List HistoryQuery :=
  match parseStart lib startParam with
  | Except.error e => (ApiResponse.WriteJSONResponse 400 e, [])
  | Except.ok start =>
    match parseEnd lib endParam with
    | Except.error e => (ApiResponse.WriteJSONResponse 400 e, [])
    | Except.ok end0 =>
      match parseOrder lib orderParam with
      | Except.error e => (ApiResponse.WriteJSONResponse 400 e, [])
      | Except.ok order =>
        match parseInclude lib includeParam with
        | Except.error e => (ApiResponse.WriteJSONResponse 400 e, [])
        | Except.ok includeAll =>
          match RetrieveScalingHistories appId start end0 order includeAll with
          | Except.error _ =>
            (ApiResponse.WriteJSONResponse 500
              { Code := "Interal-Server-Error",
                Message := "Error getting scaling histories from database" },
             [{ appId := appId, start := start, end0 := end0, orderType := order,
                includeAll := includeAll }])
          | Except.ok histories =>
            (ApiResponse.Write histories,
             [{ appId := appId, start := start, end0 := end0, orderType := order,
                includeAll := includeAll }])

/-- The malformed queries, in the words of the specification: `start` or
`end` is given once and is not a base-10 `int64`, `order` is given once and
is neither `asc` nor `desc` whatever the case of its letters, `include` is
given once and is not `all` whatever the case of its letters, or one of the
four parameters is given more than once. -/
def malformedQuery (lib : GoLibrary) (startParam endParam orderParam includeParam : List String) :
    Prop :=
  ((∃ s, startParam = [s] ∧ lib.ParseInt s = none) ∨ 1 < startParam.length) ∨
  ((∃ s, endParam = [s] ∧ lib.ParseInt s = none) ∨ 1 < endParam.length) ∨
  ((∃ s, orderParam = [s] ∧ lib.ToUpper s ≠ "DESC" ∧ lib.ToUpper s ≠ "ASC") ∨
    1 < orderParam.length) ∨
  ((∃ s, includeParam = [s] ∧ lib.ToLower s ≠ "all") ∨ 1 < includeParam.length)

/-! ## Sample inputs -/

/-- A route manager with no app. -/
def rm0 : RouteManager :=
  { appRoutesMap := GoMap.empty, routeAppMap := GoMap.empty,
    temporaryDisabledAppMap := GoMap.empty,
    routeListenerIP := "10.0.0.1", routeListenerPort := 8080 }

/-- A world at one thousand seconds, nothing recorded. -/
def w0 : World :=
  { now := 1000 * Second, cfCalls := [], scalingHistory := [], routeManager := rm0,
    routeCalls := [] }

/-- An engine as `NewScalingEngine` builds it, cool-down ten minutes. -/
def se0 : ScalingEngine := NewScalingEngine (10 * Minute)

/-- A platform where every request lasts one second and succeeds; an app
is reported `STARTED` with no running instance until the request numbered
`flip`, and `STOPPED` with one running instance from then on. -/
def cfFlip (flip : Nat) : CfClient :=
  { StartApp := fun _ _ => { value := (), err := none, took := 1000000000 },
    StopApp := fun _ _ => { value := (), err := none, took := 1000000000 },
    GetAppRunningInstanceNumber := fun _ n =>
      { value := if n < flip then 0 else 1, err := none, took := 1000000000 },
    GetAppSummary := fun _ n =>
      { value := { State := if n < flip then "STARTED" else "STOPPED" }, err := none,
        took := 1000000000 },
    UnRegisterRoutes := fun _ _ => { value := (), err := none, took := 1000000000 } }

/-- An environment over `cfFlip`, sleeps exact. -/
def envFlip (flip : Nat) : Env := { cf := cfFlip flip, oversleep := fun _ => 0 }

/-- A platform that refuses every start request and is otherwise `cfFlip 0`. -/
def cfStartFails : CfClient :=
  { cfFlip 0 with
    StartApp := fun _ _ => { value := (), err := some "CF-ServiceUnavailable", took := 1000000000 } }

/-- An environment over `cfStartFails`, sleeps exact. -/
def envStartFails : Env := { cf := cfStartFails, oversleep := fun _ => 0 }

/-- An engine whose last action on app `A` ended at 900 s: the next one is
allowed after 1500 s. -/
def seCooling : ScalingEngine :=
  { se0 with appNextScaleTimestampMap := GoMap.set GoMap.empty "A" (1500 * Second) }

/-- A platform that accepts every request and reports every app as
`STARTED` for ever. -/
def cfStuck : CfClient :=
  { cfFlip 0 with
    GetAppSummary := fun _ _ => { value := { State := "STARTED" }, err := none, took := 1000000000 } }

/-- An environment over `cfStuck`, sleeps exact. -/
def envStuck : Env := { cf := cfStuck, oversleep := fun _ => 0 }

/-- The reply of the platform to the request `c`, issued as request number
`n`, carries an error. -/
def CfClient.failed (cf : CfClient) (n : Nat) : CfCall → Bool
  | CfCall.StartApp a => (cf.StartApp a n).err.isSome
  | CfCall.StopApp a => (cf.StopApp a n).err.isSome
  | CfCall.GetAppRunningInstanceNumber a => (cf.GetAppRunningInstanceNumber a n).err.isSome
  | CfCall.GetAppSummary a => (cf.GetAppSummary a n).err.isSome
  | CfCall.UnRegisterRoutes l => (cf.UnRegisterRoutes l n).err.isSome

/-- The environment in which every `GetAppRunningInstanceNumber` reply has
its `error` replaced by `nil`; all else is as in `env`. -/
def Env.silencePollErrors (env : Env) : Env :=
  { env with
    cf := { env.cf with
      GetAppRunningInstanceNumber := fun a n =>
        { env.cf.GetAppRunningInstanceNumber a n with err := none } } }

/-- A platform that accepts the start request; the instance query numbered 1
fails (the client then returns `-1` and the error), the later ones report
one running instance. -/
def cfFlaky : CfClient :=
  { cfFlip 0 with
    GetAppRunningInstanceNumber := fun _ n =>
      if n ≤ 1 then { value := -1, err := some "CF-InstancesError", took := 1000000000 }
      else { value := 1, err := none, took := 1000000000 } }

/-- An environment over `cfFlaky`, sleeps exact. -/
def envFlaky : Env := { cf := cfFlaky, oversleep := fun _ => 0 }

/-- A platform whose `GetAppSummary` always fails; otherwise `cfFlip 0`. -/
def cfSummaryFails : CfClient :=
  { cfFlip 0 with
    GetAppSummary := fun _ _ =>
      { value := { State := "" }, err := some "CF-SummaryError", took := 1000000000 } }

/-- An environment over `cfSummaryFails`, sleeps exact. -/
def envSummaryFails : Env := { cf := cfSummaryFails, oversleep := fun _ => 0 }

/-- The aggregator of scenario S1: app `A` enrolled with breach duration
60, its last request at instant 0. -/
def egS1 : Aggregator :=
  { appLatestRequestTimeMap := GoMap.set GoMap.empty "A" 0,
    appBreachDurationMap := GoMap.set GoMap.empty "A" 60 }

/-- A registry snapshot with the apps `A` and `B`. -/
def appsAB : GoMap Int := GoMap.set (GoMap.set GoMap.empty "A" 60) "B" 60

/-- A platform on which the apps `A` and `B` are both mapped to the route
`shop.example.com`. -/
def sharedRoutes : String → Reply (List String) :=
  fun _ => { value := ["shop.example.com"], err := none, took := 0 }

/-- A route manager in which app `A` has two routes and app `B` one, and `B`
is suppressed. -/
def rmAB : RouteManager :=
  { appRoutesMap :=
      GoMap.set (GoMap.set GoMap.empty "B" ["b.example.com"]) "A"
        ["a.example.com", "www.example.com"],
    routeAppMap :=
      GoMap.set (GoMap.set (GoMap.set GoMap.empty "b.example.com" "B") "a.example.com" "A")
        "www.example.com" "A",
    temporaryDisabledAppMap := GoMap.set GoMap.empty "B" true,
    routeListenerIP := "10.0.0.1", routeListenerPort := 8080 }

/-- A platform on which app `A` has the route `a.example.com`, app `B` the
route `b.example.com`, and the routes of any other app cannot be fetched. -/
def ownRoutes : String → Reply (List String) :=
  fun a =>
    if a = "A" then { value := ["a.example.com"], err := none, took := 0 }
    else if a = "B" then { value := ["b.example.com"], err := none, took := 0 }
    else { value := [], err := some "CF-AppNotFound", took := 0 }

/-- The app a hostname belongs to on the platform `ownRoutes`. -/
def ownOwner : String → String :=
  fun h => if h = "a.example.com" then "A" else "B"

/-- A heap whose map object at address 0 holds the enrollment of app `A`
with breach duration 60; every other object is empty. -/
def heapA : MapHeap :=
  { contents := fun r => if r = 0 then GoMap.set GoMap.empty "A" 60 else GoMap.empty,
    next := 1 }

/-- A registry whose map object is at address 0. -/
def amA : AppManager := { applicationMap := 0 }

/-- A history row of app `A` with a timestamp and a status (a stop, no
texts). -/
def rowA (timestamp : Int) (status : ScalingStatus) : AppScalingHistory :=
  { AppId := "A", Timestamp := timestamp, ScalingType := ScalingType.ScalingType2ZeroStop,
    Status := status, OldInstances := 0, NewInstances := 0, Reason := "", Message := "",
    Error := "" }

/-- The history table of scenario S6. -/
def tableS6 : List AppScalingHistory :=
  [rowA 100 ScalingStatus.ScalingStatusSucceeded, rowA 200 ScalingStatus.ScalingStatusIgnored,
   rowA 300 ScalingStatus.ScalingStatusFailed]

/-- The aggregator of scenario S1 after an envelope of the source id
`ghost`, which the registry does not know, was ingested at 10 s. -/
def egGhost : Aggregator :=
  Aggregator.ingest egS1 { SourceId := "ghost", Message := EnvelopeMessage.Timer "http" }
    (10 * Second)

/-- A route handler over the route manager `rmAB`; the state is the list of
the apps started so far, and starting app `B` fails. -/
def handlerAB : RouteHandler (List String) :=
  { getAppIDByRouteFunc := fun _ host => RouteManager.GetAppIDByRoute rmAB host,
    startAppFunc := fun appID s =>
      if appID = "B" then (some "failed to start application", s) else (none, s ++ [appID]) }

/-- A trigger worker that has done nothing yet, with `chan` waiting in its
channel. -/
def worker0 (chan : List Trigger) : TriggerWorker :=
  { triggerChan := chan, handled := [], infos := [] }

/-- How the library answers on the strings of the examples: `100` and `400`
are numbers, `asc` and `Desc` are the two orders in mixed case, `ALL` is
`all` in upper case. -/
def libS6 : GoLibrary :=
  { ParseInt := fun s => if s = "100" then some 100 else if s = "400" then some 400 else none,
    ToUpper := fun s => if s = "asc" then "ASC" else if s = "Desc" then "DESC" else s,
    ToLower := fun s => if s = "ALL" then "all" else s }

/-- A registry snapshot with the apps `C` and `D`. -/
def appsCD : GoMap Int := GoMap.set (GoMap.set GoMap.empty "C" 60) "D" 60

/-- A registry snapshot with the apps `A`, `B` and `C`. -/
def appsABC : GoMap Int := GoMap.set appsAB "C" 60

/-- A platform on which every app is mapped to the route `a.example.com`. -/
def movedRoutes : String → Reply (List String) :=
  fun _ => { value := ["a.example.com"], err := none, took := 0 }

/-- A route manager in which the apps `A` and `B` both have the route
`shop.example.com`: the state after one `refreshApps` on the platform
`sharedRoutes`. -/
def rmShared : RouteManager :=
  (RouteManager.refreshApps (NewRouteManager "10.0.0.1" 8080) appsAB sharedRoutes).1

/-- The world `w0` with the route manager `rmShared`. -/
def wShared : World := { w0 with routeManager := rmShared }

/-- A platform on which every `GetAppRoutes` request fails. -/
def noRoutes : String → Reply (List String) :=
  fun _ => { value := [], err := some "CF-ServiceUnavailable", took := 0 }

/-! ## Go maps: lemmas -/

theorem GoMap.get_set_self {V : Type} (m : GoMap V) (k : String) (v z : V) :
    GoMap.get (GoMap.set m k v) k z = v := by
  simp [GoMap.get, GoMap.set]

theorem GoMap.get_set_ne {V : Type} (m : GoMap V) {k k' : String} (v z : V) (h : k' ≠ k) :
    GoMap.get (GoMap.set m k v) k' z = GoMap.get m k' z := by
  simp [GoMap.get, GoMap.set, AList.lookup_insert_ne h]

theorem GoMap.has_iff_mem {V : Type} (m : GoMap V) (k : String) :
    GoMap.has m k = true ↔ k ∈ m := by
  simp [GoMap.has, AList.lookup_isSome]

/-! ## The cool-down gate -/

theorem checkCoolDown_iff (se : ScalingEngine) (w : World) (appID : String) :
    ScalingEngine.checkCoolDown se w appID = true ↔
      GoMap.get se.appNextScaleTimestampMap appID 0 < w.now := by
  unfold ScalingEngine.checkCoolDown
  by_cases h : w.now - GoMap.get se.appNextScaleTimestampMap appID 0 > 0
  · simp only [h, if_true, true_iff]; omega
  · simp only [h, if_false, Bool.false_eq_true, false_iff]; omega

/-- C2. Cool-down gate of `StopApp`: the gate lets the call proceed exactly
when `now > next_scale_ns[app]` (an absent entry counts as 0, so an app
never scaled passes whenever `now > 0`); when `now ≤ next_scale_ns[app]`,
`StopApp` returns `nil` and leaves the engine and the whole world as they
were: no platform request, no history row, no change of the cool-down map,
no call of `EnableAppRoutes`. -/
theorem StopApp_cooldown_gate (env : Env) (se : ScalingEngine) (w : World) (trigger : Trigger) :
    (ScalingEngine.checkCoolDown se w trigger.AppID = true ↔
      w.now > GoMap.get se.appNextScaleTimestampMap trigger.AppID 0) ∧
    (AList.lookup trigger.AppID se.appNextScaleTimestampMap = none →
      (ScalingEngine.checkCoolDown se w trigger.AppID = true ↔ w.now > 0)) ∧
    (w.now ≤ GoMap.get se.appNextScaleTimestampMap trigger.AppID 0 →
      ScalingEngine.StopApp env se w trigger = some { err := none, se := se, world := w }) := by
  refine ⟨?_, ?_, ?_⟩
  · rw [checkCoolDown_iff]
  · intro hnone
    rw [checkCoolDown_iff]
    simp [GoMap.get, hnone]
  · intro hle
    have hc : ScalingEngine.checkCoolDown se w trigger.AppID = false := by
      cases hb : ScalingEngine.checkCoolDown se w trigger.AppID with
      | false => rfl
      | true => rw [checkCoolDown_iff] at hb; omega
    simp [ScalingEngine.StopApp, hc]

/-- Witness of C2: a trigger for app `A` at 1000 s while the cool-down of `A`
lasts until 1500 s. -/
theorem StopApp_cooldown_gate_witness :
    ScalingEngine.StopApp (envFlip 9) seCooling w0 { AppID := "A", BreachDuration := 60 } =
      some { err := none, se := seCooling, world := w0 } :=
  (StopApp_cooldown_gate (envFlip 9) seCooling w0 { AppID := "A", BreachDuration := 60 }).2.2
    (by decide)

/-! ## A start request that fails -/

/-- C3. When the platform start request fails with error `e`, `StartApp`
returns `e`, issues no other platform request (it does not poll), leaves the
cool-down map and the route manager alone and calls no route capability;
the one history row it writes has type Start2Zero and carries the status
the record was created with, `ScalingStatusSucceeded`, not
`ScalingStatusFailed`. -/
theorem StartApp_request_failure (env : Env) (se : ScalingEngine) (w : World) (appID e : String)
    (hfail : (env.cf.StartApp appID w.cfCalls.length).err = some e) :
    ∃ o, ScalingEngine.StartApp env se w appID = some o ∧
      o.err = some e ∧
      o.se = se ∧
      o.world.cfCalls = w.cfCalls ++ [CfCall.StartApp appID] ∧
      o.world.routeCalls = w.routeCalls ∧
      o.world.routeManager = w.routeManager ∧
      o.world.scalingHistory = w.scalingHistory ++
        [{ AppId := appID, Timestamp := w.now,
           ScalingType := ScalingType.ScalingType2ZeroStart,
           Status := ScalingStatus.ScalingStatusSucceeded,
           OldInstances := 0, NewInstances := 0,
           Reason := "ingress request received", Message := "", Error := "" }] := by
  simp [ScalingEngine.StartApp, ScalingEngine.startHistory, hfail, World.request,
    World.SaveScalingHistory]

/-- Witness of C3: the platform refuses the start request of app `A`; the row
written has status Succeeded. -/
theorem StartApp_request_failure_witness :
    ∃ o, ScalingEngine.StartApp envStartFails se0 w0 "A" = some o ∧
      o.err = some "CF-ServiceUnavailable" ∧
      o.se = se0 ∧
      o.world.cfCalls = w0.cfCalls ++ [CfCall.StartApp "A"] ∧
      o.world.routeCalls = w0.routeCalls ∧
      o.world.routeManager = w0.routeManager ∧
      o.world.scalingHistory = w0.scalingHistory ++
        [{ AppId := "A", Timestamp := w0.now,
           ScalingType := ScalingType.ScalingType2ZeroStart,
           Status := ScalingStatus.ScalingStatusSucceeded,
           OldInstances := 0, NewInstances := 0,
           Reason := "ingress request received", Message := "", Error := "" }] :=
  StartApp_request_failure envStartFails se0 w0 "A" "CF-ServiceUnavailable" rfl

/-! ## An app that is already stopped -/

/-- C7. Already stopped: when `StopApp` passes the cool-down gate and the
first `GetAppSummary` succeeds with state `STOPPED`, `StopApp` returns `nil`;
the only platform request is that `GetAppSummary` (no stop request), no
history row is written, the cool-down map is unchanged, no route capability
is called and the route manager is unchanged: a suppressed app stays
suppressed. -/
theorem StopApp_already_stopped (env : Env) (se : ScalingEngine) (w : World) (trigger : Trigger)
    (hgate : ScalingEngine.checkCoolDown se w trigger.AppID = true)
    (hok : (env.cf.GetAppSummary trigger.AppID w.cfCalls.length).err = none)
    (hstopped : (env.cf.GetAppSummary trigger.AppID w.cfCalls.length).value.State = "STOPPED") :
    ∃ o, ScalingEngine.StopApp env se w trigger = some o ∧
      o.err = none ∧
      o.se = se ∧
      o.world.cfCalls = w.cfCalls ++ [CfCall.GetAppSummary trigger.AppID] ∧
      o.world.scalingHistory = w.scalingHistory ∧
      o.world.routeCalls = w.routeCalls ∧
      o.world.routeManager = w.routeManager ∧
      (∀ a, GoMap.has o.world.routeManager.temporaryDisabledAppMap a =
        GoMap.has w.routeManager.temporaryDisabledAppMap a) := by
  simp [ScalingEngine.StopApp, hgate, hok, hstopped, World.request]

/-- Witness of C7: app `A` is reported `STOPPED` at the first query. -/
theorem StopApp_already_stopped_witness :
    ∃ o, ScalingEngine.StopApp (envFlip 0) se0 w0 { AppID := "A", BreachDuration := 60 } = some o ∧
      o.err = none ∧
      o.se = se0 ∧
      o.world.cfCalls = w0.cfCalls ++ [CfCall.GetAppSummary "A"] ∧
      o.world.scalingHistory = w0.scalingHistory ∧
      o.world.routeCalls = w0.routeCalls ∧
      o.world.routeManager = w0.routeManager ∧
      (∀ a, GoMap.has o.world.routeManager.temporaryDisabledAppMap a =
        GoMap.has w0.routeManager.temporaryDisabledAppMap a) :=
  StopApp_already_stopped (envFlip 0) se0 w0 { AppID := "A", BreachDuration := 60 }
    (by decide) rfl rfl

/-! ## Polling loops: the clock -/

theorem pollWorld_calls (env : Env) (c : CfCall) (took : Nat → Nat) (k : Nat) (w : World) :
    (pollWorld env c took k w).cfCalls = w.cfCalls ++ List.replicate k c := by
  induction k generalizing w with
  | zero => simp [pollWorld]
  | succ k ih =>
    rw [pollWorld, ih]
    simp [World.request, World.sleep, List.replicate_succ]

theorem pollWorld_length (env : Env) (c : CfCall) (took : Nat → Nat) (k : Nat) (w : World) :
    (pollWorld env c took k w).cfCalls.length = w.cfCalls.length + k := by
  simp [pollWorld_calls]

theorem pollWorld_frame (env : Env) (c : CfCall) (took : Nat → Nat) (k : Nat) (w : World) :
    (pollWorld env c took k w).scalingHistory = w.scalingHistory ∧
    (pollWorld env c took k w).routeCalls = w.routeCalls ∧
    (pollWorld env c took k w).routeManager = w.routeManager := by
  induction k generalizing w with
  | zero => simp [pollWorld]
  | succ k ih =>
    rw [pollWorld]
    simpa [World.request, World.sleep] using ih _

theorem pollWorld_succ (env : Env) (c : CfCall) (took : Nat → Nat) (k : Nat) (w : World) :
    pollWorld env c took (k + 1) w =
      ((pollWorld env c took k w).request c
        ({ value := (), err := none, took := took (pollWorld env c took k w).cfCalls.length } :
          Reply Unit)).sleep env (5 * Second) := by
  induction k generalizing w with
  | zero => simp [pollWorld]
  | succ k ih =>
    rw [pollWorld, ih]
    rfl

theorem pollWorld_now_succ (env : Env) (c : CfCall) (took : Nat → Nat) (k : Nat) (w : World) :
    (pollWorld env c took k w).now + 5 * Second ≤ (pollWorld env c took (k + 1) w).now := by
  rw [pollWorld_succ]
  simp only [World.request, World.sleep]
  omega

theorem pollWorld_now_mono (env : Env) (c : CfCall) (took : Nat → Nat) (w : World)
    {i k : Nat} (h : i ≤ k) :
    (pollWorld env c took i w).now ≤ (pollWorld env c took k w).now := by
  induction h with
  | refl => exact le_refl _
  | @step m _ ih =>
    show (pollWorld env c took i w).now ≤ (pollWorld env c took (m + 1) w).now
    have h5 := pollWorld_now_succ env c took m w
    have h0 : (0 : Int) ≤ 5 * Second := by decide
    omega

theorem pollWorld_now_ge (env : Env) (c : CfCall) (took : Nat → Nat) (k : Nat) (w : World) :
    w.now + 5 * Second * (k : Int) ≤ (pollWorld env c took k w).now := by
  induction k with
  | zero => simp [pollWorld]
  | succ k ih =>
    have h5 := pollWorld_now_succ env c took k w
    push_cast
    rw [mul_add, mul_one]
    omega

/-- Fuel: an iteration that starts before the deadline is within the
iterations granted. -/
theorem pollFuel_enough (env : Env) (c : CfCall) (took : Nat → Nat) (se : ScalingEngine)
    (k : Nat) (w : World)
    (hlive : (pollWorld env c took k w).now < w.now + se.startStopExpiredDuration) :
    ∃ f, ScalingEngine.pollFuel se = (f + 1) + k := by
  have hge := pollWorld_now_ge env c took k w
  have hk : 5 * Second * (k : Int) < se.startStopExpiredDuration := by omega
  have h5 : (5 : Int) * Second = 5000000000 := by decide
  rw [h5] at hk
  refine ⟨ScalingEngine.pollFuel se - 1 - k, ?_⟩
  unfold ScalingEngine.pollFuel
  rw [h5]
  omega

/-! ## Polling loops: iterations that go to sleep -/

theorem startPollWorld_shift (env : Env) (appID : String) (i : Nat) (w : World) :
    startPollWorld env appID (i + 1) w =
      startPollWorld env appID i
        ((w.request (CfCall.GetAppRunningInstanceNumber appID)
          (env.cf.GetAppRunningInstanceNumber appID w.cfCalls.length)).sleep env (5 * Second)) := by
  rfl

theorem stopPollWorld_shift (env : Env) (appID : String) (i : Nat) (w : World) :
    stopPollWorld env appID (i + 1) w =
      stopPollWorld env appID i
        ((w.request (CfCall.GetAppSummary appID)
          (env.cf.GetAppSummary appID w.cfCalls.length)).sleep env (5 * Second)) := by
  rfl

theorem startPoll_skip (env : Env) (se : ScalingEngine) (appID : String) (expiredAt : Int)
    (history : AppScalingHistory) (k fuel : Nat) (w : World)
    (hlive : ∀ i, i < k → (startPollWorld env appID i w).now < expiredAt)
    (hwait : ∀ i, i < k →
      (env.cf.GetAppRunningInstanceNumber appID (w.cfCalls.length + i)).value < 1) :
    ScalingEngine.startPoll env se appID expiredAt history (fuel + k) w =
      ScalingEngine.startPoll env se appID expiredAt history fuel
        (startPollWorld env appID k w) := by
  induction k generalizing w with
  | zero => rfl
  | succ k ih =>
    have h0 : ¬ expiredAt ≤ w.now := by
      have := hlive 0 (Nat.succ_pos k)
      simp only [startPollWorld, pollWorld] at this
      omega
    have hv : ¬ (env.cf.GetAppRunningInstanceNumber appID w.cfCalls.length).value ≥ 1 := by
      have := hwait 0 (Nat.succ_pos k)
      simp only [Nat.add_zero] at this
      omega
    rw [← Nat.add_assoc, ScalingEngine.startPoll]
    simp only [h0, hv, if_false]
    rw [startPollWorld_shift]
    apply ih
    · intro i hi
      rw [← startPollWorld_shift]
      exact hlive (i + 1) (Nat.succ_lt_succ hi)
    · intro i hi
      have := hwait (i + 1) (Nat.succ_lt_succ hi)
      simp only [World.sleep, World.request, List.length_append, List.length_singleton]
      rw [Nat.add_assoc, Nat.add_comm 1 i]
      exact this

theorem stopPoll_skip (env : Env) (se : ScalingEngine) (appID : String) (expiredAt : Int)
    (history : AppScalingHistory) (k fuel : Nat) (w : World)
    (hlive : ∀ i, i < k → (stopPollWorld env appID i w).now < expiredAt)
    (hok : ∀ i, i < k → (env.cf.GetAppSummary appID (w.cfCalls.length + i)).err = none)
    (hwait : ∀ i, i < k →
      (env.cf.GetAppSummary appID (w.cfCalls.length + i)).value.State ≠ "STOPPED") :
    ScalingEngine.stopPoll env se appID expiredAt history (fuel + k) w =
      ScalingEngine.stopPoll env se appID expiredAt history fuel
        (stopPollWorld env appID k w) := by
  induction k generalizing w with
  | zero => rfl
  | succ k ih =>
    have h0 : ¬ expiredAt ≤ w.now := by
      have := hlive 0 (Nat.succ_pos k)
      simp only [stopPollWorld, pollWorld] at this
      omega
    have he : (env.cf.GetAppSummary appID w.cfCalls.length).err = none := by
      simpa using hok 0 (Nat.succ_pos k)
    have hv : ¬ (env.cf.GetAppSummary appID w.cfCalls.length).value.State = "STOPPED" := by
      simpa using hwait 0 (Nat.succ_pos k)
    rw [← Nat.add_assoc, ScalingEngine.stopPoll]
    simp only [h0, he, hv, if_false]
    rw [stopPollWorld_shift]
    apply ih
    · intro i hi
      rw [← stopPollWorld_shift]
      exact hlive (i + 1) (Nat.succ_lt_succ hi)
    · intro i hi
      have := hok (i + 1) (Nat.succ_lt_succ hi)
      simp only [World.sleep, World.request, List.length_append, List.length_singleton]
      rw [Nat.add_assoc, Nat.add_comm 1 i]
      exact this
    · intro i hi
      have := hwait (i + 1) (Nat.succ_lt_succ hi)
      simp only [World.sleep, World.request, List.length_append, List.length_singleton]
      rw [Nat.add_assoc, Nat.add_comm 1 i]
      exact this

/-! ## The route capabilities -/

theorem disableAppRoutesFunc_frame (w : World) (env : Env) (appID : String) :
    (w.disableAppRoutesFunc env appID).routeCalls =
      w.routeCalls ++ [RouteCall.DisableAppRoutes appID] ∧
    (w.disableAppRoutesFunc env appID).scalingHistory = w.scalingHistory ∧
    w.now ≤ (w.disableAppRoutesFunc env appID).now ∧
    (w.disableAppRoutesFunc env appID).routeManager =
      (RouteManager.DisableAppRoutes w.routeManager appID).1 := by
  unfold World.disableAppRoutesFunc
  rcases hd : RouteManager.DisableAppRoutes w.routeManager appID with ⟨rm, _ | l⟩
  · simp [hd]
  · simp only [hd, World.request]
    refine ⟨trivial, trivial, ?_, trivial⟩
    omega

/-! ## A start that is confirmed -/

/-- C4. `StartApp` success: if the platform start request succeeds, the
polls `0 .. k-1` of `GetAppRunningInstanceNumber` report no running
instance, and poll `k` is issued before the deadline and reports at least
one, then `StartApp` returns `nil`; `next_scale_ns[app]` is set to the clock
reading when poll `k` returned plus the cool-down (no other entry changes);
`DisableAppRoutes(app)` is called exactly once (and `EnableAppRoutes` not at
all); exactly one history row is written, of type Start2Zero and status
Succeeded. -/
theorem StartApp_success (env : Env) (se : ScalingEngine) (w : World) (appID : String) (k : Nat)
    (hstart : (env.cf.StartApp appID w.cfCalls.length).err = none)
    (hwait : ∀ i, i < k →
      (env.cf.GetAppRunningInstanceNumber appID (w.cfCalls.length + 1 + i)).value < 1)
    (hlive : (startPollWorld env appID k (startRequested env w appID)).now <
      (startRequested env w appID).now + se.startStopExpiredDuration)
    (hup : 1 ≤ (env.cf.GetAppRunningInstanceNumber appID (w.cfCalls.length + 1 + k)).value) :
    ∃ o, ScalingEngine.StartApp env se w appID = some o ∧
      o.err = none ∧
      o.se = { se with
        appNextScaleTimestampMap := GoMap.set se.appNextScaleTimestampMap appID
          ((startPollWorld env appID k (startRequested env w appID)).now +
            ((env.cf.GetAppRunningInstanceNumber appID (w.cfCalls.length + 1 + k)).took : Int) +
            se.coolDownDuration) } ∧
      o.world.routeCalls = w.routeCalls ++ [RouteCall.DisableAppRoutes appID] ∧
      o.world.scalingHistory = w.scalingHistory ++
        [{ AppId := appID, Timestamp := w.now,
           ScalingType := ScalingType.ScalingType2ZeroStart,
           Status := ScalingStatus.ScalingStatusSucceeded,
           OldInstances := 0, NewInstances := 0,
           Reason := "ingress request received", Message := "", Error := "" }] := by
  have hlen : (startRequested env w appID).cfCalls.length = w.cfCalls.length + 1 := by
    simp [startRequested, World.request]
  obtain ⟨f, hf⟩ := pollFuel_enough env _ _ se k (startRequested env w appID) hlive
  have hskip := startPoll_skip env se appID
    ((startRequested env w appID).now + se.startStopExpiredDuration)
    (ScalingEngine.startHistory appID w.now)
    k (f + 1) (startRequested env w appID)
    (fun i hi => lt_of_le_of_lt (pollWorld_now_mono env _ _ _ (Nat.le_of_lt hi)) hlive)
    (fun i hi => by rw [hlen]; exact hwait i hi)
  have hklen : (startPollWorld env appID k (startRequested env w appID)).cfCalls.length =
      w.cfCalls.length + 1 + k := by
    rw [startPollWorld, pollWorld_length, hlen]
  have hfr := pollWorld_frame env (CfCall.GetAppRunningInstanceNumber appID)
    (fun n => (env.cf.GetAppRunningInstanceNumber appID n).took) k (startRequested env w appID)
  have hnot : ¬ (startRequested env w appID).now + se.startStopExpiredDuration ≤
      (startPollWorld env appID k (startRequested env w appID)).now := by omega
  have hge : (env.cf.GetAppRunningInstanceNumber appID (w.cfCalls.length + 1 + k)).value ≥ 1 := hup
  unfold ScalingEngine.StartApp
  simp only [hstart]
  rw [show w.request (CfCall.StartApp appID) (env.cf.StartApp appID w.cfCalls.length) =
    startRequested env w appID from rfl, hf, hskip, ScalingEngine.startPoll]
  simp only [hnot, if_false, hklen, hge, if_true, ScalingEngine.startHistory]
  refine ⟨_, rfl, rfl, ?_, ?_, ?_⟩
  · simp only [World.request]
  · simp only [World.SaveScalingHistory, (disableAppRoutesFunc_frame _ env appID).1]
    simp only [World.request]
    exact congrArg (· ++ [RouteCall.DisableAppRoutes appID]) hfr.2.1
  · simp only [World.SaveScalingHistory, (disableAppRoutesFunc_frame _ env appID).2.1]
    simp only [World.request]
    rw [show (startPollWorld env appID k (startRequested env w appID)).scalingHistory =
      w.scalingHistory from hfr.1]

/-! ## Polling loops: the iteration that returns -/

/-- Every polling loop has a first iteration `K` that starts after the
deadline or at which the poll makes the loop return (`leave K`); it is
within the iterations granted. -/
theorem poll_first (env : Env) (c : CfCall) (took : Nat → Nat) (se : ScalingEngine) (w : World)
    (leave : Nat → Prop) :
    ∃ K f, ScalingEngine.pollFuel se = f + 1 + K ∧
      (∀ i, i < K →
        (pollWorld env c took i w).now < w.now + se.startStopExpiredDuration ∧ ¬ leave i) ∧
      (¬ (pollWorld env c took K w).now < w.now + se.startStopExpiredDuration ∨ leave K) := by
  classical
  have h5 : (5 : Int) * Second = 5000000000 := by decide
  have hk0 : ¬ (pollWorld env c took (ScalingEngine.pollFuel se - 1) w).now <
      w.now + se.startStopExpiredDuration := by
    have hge := pollWorld_now_ge env c took (ScalingEngine.pollFuel se - 1) w
    have hcast : ((ScalingEngine.pollFuel se - 1 : Nat) : Int) =
        ((se.startStopExpiredDuration / 5000000000).toNat : Int) + 1 := by
      unfold ScalingEngine.pollFuel
      rw [h5]
      omega
    rw [hcast, h5] at hge
    omega
  have hex : ∃ k, ¬ (pollWorld env c took k w).now < w.now + se.startStopExpiredDuration ∨
      leave k := ⟨_, Or.inl hk0⟩
  refine ⟨Nat.find hex, ScalingEngine.pollFuel se - 1 - Nat.find hex, ?_, ?_, Nat.find_spec hex⟩
  · have hle : Nat.find hex ≤ ScalingEngine.pollFuel se - 1 := Nat.find_min' hex (Or.inl hk0)
    have hpos : 2 ≤ ScalingEngine.pollFuel se := by
      unfold ScalingEngine.pollFuel
      omega
    omega
  · intro i hi
    have hmin := Nat.find_min hex hi
    constructor
    · by_contra hc
      exact hmin (Or.inl hc)
    · intro hc
      exact hmin (Or.inr hc)

/-! ## The control paths of `StartApp` and `StopApp` -/

theorem startRequested_length (env : Env) (w : World) (appID : String) :
    (startRequested env w appID).cfCalls.length = w.cfCalls.length + 1 := by
  simp [startRequested, World.request]

theorem stopRequested_length (env : Env) (w : World) (appID : String) :
    (stopRequested env w appID).cfCalls.length = w.cfCalls.length + 2 := by
  simp [stopRequested, World.request]

/-- Paths of `StartApp`: it always returns, along one of three paths: the start request
fails; the deadline passes at iteration `K`; the poll of iteration `K`
reports a running instance. -/
theorem StartApp_cases (env : Env) (se : ScalingEngine) (w : World) (appID : String) :
    (∃ e, (env.cf.StartApp appID w.cfCalls.length).err = some e ∧
      ScalingEngine.StartApp env se w appID = some
        { err := some e, se := se,
          world := (startRequested env w appID).SaveScalingHistory
            (ScalingEngine.startHistory appID w.now) }) ∨
    ((env.cf.StartApp appID w.cfCalls.length).err = none ∧
      ∃ K, (∀ i, i < K →
          (env.cf.GetAppRunningInstanceNumber appID (w.cfCalls.length + 1 + i)).value < 1) ∧
        (((startRequested env w appID).now + se.startStopExpiredDuration ≤
            (startPollWorld env appID K (startRequested env w appID)).now ∧
          ScalingEngine.StartApp env se w appID = some
            { err := some "failed to start application", se := se,
              world := (startPollWorld env appID K (startRequested env w appID)).SaveScalingHistory
                { ScalingEngine.startHistory appID w.now with
                  Status := ScalingStatus.ScalingStatusFailed,
                  Message := "failed to start application in " ++
                    ScalingEngine.expiredSeconds se ++ " seconds" } }) ∨
         ((startPollWorld env appID K (startRequested env w appID)).now <
            (startRequested env w appID).now + se.startStopExpiredDuration ∧
          1 ≤ (env.cf.GetAppRunningInstanceNumber appID (w.cfCalls.length + 1 + K)).value ∧
          ScalingEngine.StartApp env se w appID = some
            { err := none,
              se := { se with
                appNextScaleTimestampMap := GoMap.set se.appNextScaleTimestampMap appID
                  ((startPollWorld env appID K (startRequested env w appID)).now +
                    ((env.cf.GetAppRunningInstanceNumber appID (w.cfCalls.length + 1 + K)).took :
                      Int) + se.coolDownDuration) },
              world :=
                (((startPollWorld env appID K (startRequested env w appID)).request
                    (CfCall.GetAppRunningInstanceNumber appID)
                    (env.cf.GetAppRunningInstanceNumber appID
                      (w.cfCalls.length + 1 + K))).disableAppRoutesFunc env appID).SaveScalingHistory
                  { ScalingEngine.startHistory appID w.now with
                    Status := ScalingStatus.ScalingStatusSucceeded } }))) := by
  cases herr : (env.cf.StartApp appID w.cfCalls.length).err with
  | some e =>
    left
    exact ⟨e, rfl, by simp [ScalingEngine.StartApp, herr, startRequested]⟩
  | none =>
    right
    refine ⟨rfl, ?_⟩
    obtain ⟨K, f, hf, hwait, hterm⟩ := poll_first env (CfCall.GetAppRunningInstanceNumber appID)
      (fun n => (env.cf.GetAppRunningInstanceNumber appID n).took) se (startRequested env w appID)
      (fun i => 1 ≤ (env.cf.GetAppRunningInstanceNumber appID (w.cfCalls.length + 1 + i)).value)
    have hlen := startRequested_length env w appID
    have hskip := startPoll_skip env se appID
      ((startRequested env w appID).now + se.startStopExpiredDuration)
      (ScalingEngine.startHistory appID w.now) K (f + 1) (startRequested env w appID)
      (fun i hi => (hwait i hi).1)
      (fun i hi => by rw [hlen]; have := (hwait i hi).2; omega)
    have hklen : (startPollWorld env appID K (startRequested env w appID)).cfCalls.length =
        w.cfCalls.length + 1 + K := by
      rw [startPollWorld, pollWorld_length, hlen]
    have hrun : ScalingEngine.StartApp env se w appID =
        match ScalingEngine.startPoll env se appID
          ((startRequested env w appID).now + se.startStopExpiredDuration)
          (ScalingEngine.startHistory appID w.now) (f + 1)
          (startPollWorld env appID K (startRequested env w appID)) with
        | none => none
        | some (err, se1, w2, history1) =>
          some { err := err, se := se1, world := w2.SaveScalingHistory history1 } := by
      unfold ScalingEngine.StartApp
      simp only [herr]
      rw [show w.request (CfCall.StartApp appID) (env.cf.StartApp appID w.cfCalls.length) =
        startRequested env w appID from rfl, hf, hskip]
    refine ⟨K, fun i hi => by have := (hwait i hi).2; omega, ?_⟩
    by_cases hexp : (startRequested env w appID).now + se.startStopExpiredDuration ≤
        (startPollWorld env appID K (startRequested env w appID)).now
    · left
      refine ⟨hexp, ?_⟩
      rw [hrun, ScalingEngine.startPoll]
      simp only [hexp, if_true]
    · right
      have hup : 1 ≤ (env.cf.GetAppRunningInstanceNumber appID (w.cfCalls.length + 1 + K)).value := by
        rcases hterm with h | h
        · exact absurd (show (startPollWorld env appID K (startRequested env w appID)).now <
            (startRequested env w appID).now + se.startStopExpiredDuration by omega) h
        · exact h
      have hge : (env.cf.GetAppRunningInstanceNumber appID (w.cfCalls.length + 1 + K)).value ≥ 1 :=
        hup
      refine ⟨by omega, hup, ?_⟩
      rw [hrun, ScalingEngine.startPoll]
      simp only [hexp, if_false, hklen, hge, if_true]
      simp only [World.request]

/-- Paths of `StopApp`: it always returns, along one of seven paths: the gate is closed;
the first `GetAppSummary` fails; the app is already stopped; the stop
request fails; the deadline passes at iteration `K`; the poll of iteration
`K` fails; the poll of iteration `K` reports `STOPPED`. -/
theorem StopApp_cases (env : Env) (se : ScalingEngine) (w : World) (trigger : Trigger) :
    (w.now ≤ GoMap.get se.appNextScaleTimestampMap trigger.AppID 0 ∧
      ScalingEngine.StopApp env se w trigger = some { err := none, se := se, world := w }) ∨
    (GoMap.get se.appNextScaleTimestampMap trigger.AppID 0 < w.now ∧
      ((∃ e, (env.cf.GetAppSummary trigger.AppID w.cfCalls.length).err = some e ∧
          ScalingEngine.StopApp env se w trigger = some
            { err := some e, se := se,
              world := (w.request (CfCall.GetAppSummary trigger.AppID)
                (env.cf.GetAppSummary trigger.AppID w.cfCalls.length)).SaveScalingHistory
                { ScalingEngine.stopHistory trigger w.now with
                  Status := ScalingStatus.ScalingStatusFailed,
                  Message := "failed to get application status" } }) ∨
       ((env.cf.GetAppSummary trigger.AppID w.cfCalls.length).err = none ∧
          (env.cf.GetAppSummary trigger.AppID w.cfCalls.length).value.State = "STOPPED" ∧
          ScalingEngine.StopApp env se w trigger = some
            { err := none, se := se,
              world := w.request (CfCall.GetAppSummary trigger.AppID)
                (env.cf.GetAppSummary trigger.AppID w.cfCalls.length) }) ∨
       ((env.cf.GetAppSummary trigger.AppID w.cfCalls.length).err = none ∧
          (env.cf.GetAppSummary trigger.AppID w.cfCalls.length).value.State ≠ "STOPPED" ∧
          ((∃ e, (env.cf.StopApp trigger.AppID (w.cfCalls.length + 1)).err = some e ∧
              ScalingEngine.StopApp env se w trigger = some
                { err := some e, se := se,
                  world := (stopRequested env w trigger.AppID).SaveScalingHistory
                    { ScalingEngine.stopHistory trigger w.now with
                      Status := ScalingStatus.ScalingStatusFailed,
                      Message := "failed to send stop application request" } }) ∨
           ((env.cf.StopApp trigger.AppID (w.cfCalls.length + 1)).err = none ∧
              ∃ K, (∀ i, i < K →
                  (env.cf.GetAppSummary trigger.AppID (w.cfCalls.length + 2 + i)).err = none ∧
                  (env.cf.GetAppSummary trigger.AppID (w.cfCalls.length + 2 + i)).value.State ≠
                    "STOPPED") ∧
                (((stopRequested env w trigger.AppID).now + se.startStopExpiredDuration ≤
                    (stopPollWorld env trigger.AppID K (stopRequested env w trigger.AppID)).now ∧
                  ScalingEngine.StopApp env se w trigger = some
                    { err := some "failed to stop app", se := se,
                      world := (stopPollWorld env trigger.AppID K
                        (stopRequested env w trigger.AppID)).SaveScalingHistory
                        { ScalingEngine.stopHistory trigger w.now with
                          Status := ScalingStatus.ScalingStatusFailed,
                          Message := "failed to stop application in " ++
                            ScalingEngine.expiredSeconds se ++ " seconds" } }) ∨
                 ((stopPollWorld env trigger.AppID K (stopRequested env w trigger.AppID)).now <
                    (stopRequested env w trigger.AppID).now + se.startStopExpiredDuration ∧
                  ∃ e, (env.cf.GetAppSummary trigger.AppID (w.cfCalls.length + 2 + K)).err =
                      some e ∧
                    ScalingEngine.StopApp env se w trigger = some
                      { err := some e, se := se,
                        world := ((stopPollWorld env trigger.AppID K
                          (stopRequested env w trigger.AppID)).request
                            (CfCall.GetAppSummary trigger.AppID)
                            (env.cf.GetAppSummary trigger.AppID
                              (w.cfCalls.length + 2 + K))).SaveScalingHistory
                          { ScalingEngine.stopHistory trigger w.now with
                            Status := ScalingStatus.ScalingStatusFailed,
                            Message := "failed to get application status" } }) ∨
                 ((stopPollWorld env trigger.AppID K (stopRequested env w trigger.AppID)).now <
                    (stopRequested env w trigger.AppID).now + se.startStopExpiredDuration ∧
                  (env.cf.GetAppSummary trigger.AppID (w.cfCalls.length + 2 + K)).err = none ∧
                  (env.cf.GetAppSummary trigger.AppID (w.cfCalls.length + 2 + K)).value.State =
                    "STOPPED" ∧
                  ScalingEngine.StopApp env se w trigger = some
                    { err := none,
                      se := { se with
                        appNextScaleTimestampMap :=
                          GoMap.set se.appNextScaleTimestampMap trigger.AppID
                            ((stopPollWorld env trigger.AppID K
                                (stopRequested env w trigger.AppID)).now +
                              ((env.cf.GetAppSummary trigger.AppID
                                (w.cfCalls.length + 2 + K)).took : Int) +
                              se.coolDownDuration) },
                      world := (((stopPollWorld env trigger.AppID K
                          (stopRequested env w trigger.AppID)).request
                            (CfCall.GetAppSummary trigger.AppID)
                            (env.cf.GetAppSummary trigger.AppID
                              (w.cfCalls.length + 2 + K))).enableAppRoutesFunc
                                trigger.AppID).SaveScalingHistory
                          { ScalingEngine.stopHistory trigger w.now with
                            Status := ScalingStatus.ScalingStatusSucceeded } }))))))) := by
  by_cases hgate : ScalingEngine.checkCoolDown se w trigger.AppID = true
  swap
  · left
    have hle : w.now ≤ GoMap.get se.appNextScaleTimestampMap trigger.AppID 0 := by
      rw [checkCoolDown_iff] at hgate
      omega
    refine ⟨hle, ?_⟩
    have hc : ScalingEngine.checkCoolDown se w trigger.AppID = false := by
      simpa using hgate
    simp [ScalingEngine.StopApp, hc]
  right
  refine ⟨(checkCoolDown_iff se w trigger.AppID).1 hgate, ?_⟩
  cases herr : (env.cf.GetAppSummary trigger.AppID w.cfCalls.length).err with
  | some e =>
    left
    exact ⟨e, rfl, by simp [ScalingEngine.StopApp, hgate, herr]⟩
  | none =>
  right
  by_cases hst : (env.cf.GetAppSummary trigger.AppID w.cfCalls.length).value.State = "STOPPED"
  · left
    exact ⟨rfl, hst, by simp [ScalingEngine.StopApp, hgate, herr, hst]⟩
  right
  refine ⟨rfl, hst, ?_⟩
  have hw1 : (w.request (CfCall.GetAppSummary trigger.AppID)
      (env.cf.GetAppSummary trigger.AppID w.cfCalls.length)).cfCalls.length =
      w.cfCalls.length + 1 := by
    simp [World.request]
  cases herr2 : (env.cf.StopApp trigger.AppID (w.cfCalls.length + 1)).err with
  | some e =>
    left
    exact ⟨e, rfl, by simp [ScalingEngine.StopApp, hgate, herr, hst, hw1, herr2, stopRequested]⟩
  | none =>
  right
  refine ⟨rfl, ?_⟩
  obtain ⟨K, f, hf, hwait, hterm⟩ := poll_first env (CfCall.GetAppSummary trigger.AppID)
    (fun n => (env.cf.GetAppSummary trigger.AppID n).took) se (stopRequested env w trigger.AppID)
    (fun i => (env.cf.GetAppSummary trigger.AppID (w.cfCalls.length + 2 + i)).err ≠ none ∨
      (env.cf.GetAppSummary trigger.AppID (w.cfCalls.length + 2 + i)).value.State = "STOPPED")
  have hlen := stopRequested_length env w trigger.AppID
  have hwait2 : ∀ i, i < K →
      (env.cf.GetAppSummary trigger.AppID (w.cfCalls.length + 2 + i)).err = none ∧
      (env.cf.GetAppSummary trigger.AppID (w.cfCalls.length + 2 + i)).value.State ≠
        "STOPPED" := by
    intro i hi
    have h := (hwait i hi).2
    rw [not_or, not_not] at h
    exact h
  have hskip := stopPoll_skip env se trigger.AppID
    ((stopRequested env w trigger.AppID).now + se.startStopExpiredDuration)
    (ScalingEngine.stopHistory trigger w.now) K (f + 1) (stopRequested env w trigger.AppID)
    (fun i hi => (hwait i hi).1)
    (fun i hi => by rw [hlen]; exact (hwait2 i hi).1)
    (fun i hi => by rw [hlen]; exact (hwait2 i hi).2)
  have hklen : (stopPollWorld env trigger.AppID K
      (stopRequested env w trigger.AppID)).cfCalls.length = w.cfCalls.length + 2 + K := by
    rw [stopPollWorld, pollWorld_length, hlen]
  have hrun : ScalingEngine.StopApp env se w trigger =
      ScalingEngine.stopPoll env se trigger.AppID
        ((stopRequested env w trigger.AppID).now + se.startStopExpiredDuration)
        (ScalingEngine.stopHistory trigger w.now) (f + 1)
        (stopPollWorld env trigger.AppID K (stopRequested env w trigger.AppID)) := by
    unfold ScalingEngine.StopApp
    simp only [hgate, herr, hst, hw1, herr2, Bool.not_true, Bool.false_eq_true, if_false]
    rw [show (w.request (CfCall.GetAppSummary trigger.AppID)
        (env.cf.GetAppSummary trigger.AppID w.cfCalls.length)).request
        (CfCall.StopApp trigger.AppID) (env.cf.StopApp trigger.AppID (w.cfCalls.length + 1)) =
      stopRequested env w trigger.AppID from rfl, hf, hskip]
  refine ⟨K, hwait2, ?_⟩
  by_cases hexp : (stopRequested env w trigger.AppID).now + se.startStopExpiredDuration ≤
      (stopPollWorld env trigger.AppID K (stopRequested env w trigger.AppID)).now
  · left
    refine ⟨hexp, ?_⟩
    rw [hrun, ScalingEngine.stopPoll]
    simp only [hexp, if_true]
  right
  have hlive : (stopPollWorld env trigger.AppID K (stopRequested env w trigger.AppID)).now <
      (stopRequested env w trigger.AppID).now + se.startStopExpiredDuration := by omega
  have hleave : (env.cf.GetAppSummary trigger.AppID (w.cfCalls.length + 2 + K)).err ≠ none ∨
      (env.cf.GetAppSummary trigger.AppID (w.cfCalls.length + 2 + K)).value.State =
        "STOPPED" := by
    rcases hterm with h | h
    · exact absurd hlive h
    · exact h
  cases herr3 : (env.cf.GetAppSummary trigger.AppID (w.cfCalls.length + 2 + K)).err with
  | some e =>
    left
    refine ⟨hlive, e, rfl, ?_⟩
    rw [hrun, ScalingEngine.stopPoll]
    simp only [hexp, if_false, hklen, herr3]
  | none =>
    right
    have hst3 : (env.cf.GetAppSummary trigger.AppID (w.cfCalls.length + 2 + K)).value.State =
        "STOPPED" := by
      rcases hleave with h | h
      · exact absurd herr3 h
      · exact h
    refine ⟨hlive, rfl, hst3, ?_⟩
    rw [hrun, ScalingEngine.stopPoll]
    simp only [hexp, if_false, hklen, herr3, hst3, if_true]
    simp only [World.request]

/-! ## A stop that is confirmed -/

/-- C5. `StopApp` success: if the gate passes, the first `GetAppSummary`
succeeds with a state other than `STOPPED`, the platform stop request
succeeds, the polls `0 .. k-1` of `GetAppSummary` succeed with a state other
than `STOPPED`, and poll `k` is issued before the deadline and reports
`STOPPED`, then `StopApp` returns `nil`; `next_scale_ns[app]` is set to the
clock reading when poll `k` returned plus the cool-down; `EnableAppRoutes(app)`
is called exactly once (the route manager drops the app from its suppressed
set); exactly one history row is written, of type Stop2Zero, status Succeeded
and reason "no ingress request received for <breach> seconds". -/
theorem StopApp_success (env : Env) (se : ScalingEngine) (w : World) (trigger : Trigger) (k : Nat)
    (hgate : ScalingEngine.checkCoolDown se w trigger.AppID = true)
    (hsum : (env.cf.GetAppSummary trigger.AppID w.cfCalls.length).err = none)
    (hrunning : (env.cf.GetAppSummary trigger.AppID w.cfCalls.length).value.State ≠ "STOPPED")
    (hstop : (env.cf.StopApp trigger.AppID (w.cfCalls.length + 1)).err = none)
    (hok : ∀ i, i < k →
      (env.cf.GetAppSummary trigger.AppID (w.cfCalls.length + 2 + i)).err = none)
    (hwait : ∀ i, i < k →
      (env.cf.GetAppSummary trigger.AppID (w.cfCalls.length + 2 + i)).value.State ≠ "STOPPED")
    (hlive : (stopPollWorld env trigger.AppID k (stopRequested env w trigger.AppID)).now <
      (stopRequested env w trigger.AppID).now + se.startStopExpiredDuration)
    (hokk : (env.cf.GetAppSummary trigger.AppID (w.cfCalls.length + 2 + k)).err = none)
    (hdown : (env.cf.GetAppSummary trigger.AppID (w.cfCalls.length + 2 + k)).value.State =
      "STOPPED") :
    ∃ o, ScalingEngine.StopApp env se w trigger = some o ∧
      o.err = none ∧
      o.se = { se with
        appNextScaleTimestampMap := GoMap.set se.appNextScaleTimestampMap trigger.AppID
          ((stopPollWorld env trigger.AppID k (stopRequested env w trigger.AppID)).now +
            ((env.cf.GetAppSummary trigger.AppID (w.cfCalls.length + 2 + k)).took : Int) +
            se.coolDownDuration) } ∧
      o.world.routeCalls = w.routeCalls ++ [RouteCall.EnableAppRoutes trigger.AppID] ∧
      o.world.routeManager = RouteManager.EnableAppRoutes w.routeManager trigger.AppID ∧
      o.world.scalingHistory = w.scalingHistory ++
        [{ AppId := trigger.AppID, Timestamp := w.now,
           ScalingType := ScalingType.ScalingType2ZeroStop,
           Status := ScalingStatus.ScalingStatusSucceeded,
           OldInstances := 0, NewInstances := 0,
           Reason := "no ingress request received for " ++ toString trigger.BreachDuration ++
             " seconds",
           Message := "", Error := "" }] := by
  have hlen := stopRequested_length env w trigger.AppID
  obtain ⟨f, hf⟩ := pollFuel_enough env _ _ se k (stopRequested env w trigger.AppID) hlive
  have hskip := stopPoll_skip env se trigger.AppID
    ((stopRequested env w trigger.AppID).now + se.startStopExpiredDuration)
    (ScalingEngine.stopHistory trigger w.now) k (f + 1) (stopRequested env w trigger.AppID)
    (fun i hi => lt_of_le_of_lt (pollWorld_now_mono env _ _ _ (Nat.le_of_lt hi)) hlive)
    (fun i hi => by rw [hlen]; exact hok i hi)
    (fun i hi => by rw [hlen]; exact hwait i hi)
  have hklen : (stopPollWorld env trigger.AppID k
      (stopRequested env w trigger.AppID)).cfCalls.length = w.cfCalls.length + 2 + k := by
    rw [stopPollWorld, pollWorld_length, hlen]
  have hfr := pollWorld_frame env (CfCall.GetAppSummary trigger.AppID)
    (fun n => (env.cf.GetAppSummary trigger.AppID n).took) k (stopRequested env w trigger.AppID)
  have hnot : ¬ (stopRequested env w trigger.AppID).now + se.startStopExpiredDuration ≤
      (stopPollWorld env trigger.AppID k (stopRequested env w trigger.AppID)).now := by omega
  have hw1 : (w.request (CfCall.GetAppSummary trigger.AppID)
      (env.cf.GetAppSummary trigger.AppID w.cfCalls.length)).cfCalls.length =
      w.cfCalls.length + 1 := by
    simp [World.request]
  unfold ScalingEngine.StopApp
  simp only [hgate, hsum, hrunning, hw1, hstop, Bool.not_true, Bool.false_eq_true, if_false]
  rw [show (w.request (CfCall.GetAppSummary trigger.AppID)
      (env.cf.GetAppSummary trigger.AppID w.cfCalls.length)).request
      (CfCall.StopApp trigger.AppID) (env.cf.StopApp trigger.AppID (w.cfCalls.length + 1)) =
    stopRequested env w trigger.AppID from rfl, hf, hskip, ScalingEngine.stopPoll]
  simp only [hnot, if_false, hklen, hokk, hdown, if_true, ScalingEngine.stopHistory]
  refine ⟨_, rfl, rfl, ?_, ?_, ?_, ?_⟩
  · simp only [World.request]
  · simp only [World.SaveScalingHistory, World.enableAppRoutesFunc, World.request]
    exact congrArg (· ++ [RouteCall.EnableAppRoutes trigger.AppID]) hfr.2.1
  · simp only [World.SaveScalingHistory, World.enableAppRoutesFunc, World.request]
    exact congrArg (fun rm => RouteManager.EnableAppRoutes rm trigger.AppID) hfr.2.2
  · simp only [World.SaveScalingHistory, World.enableAppRoutesFunc, World.request]
    rw [show (stopPollWorld env trigger.AppID k (stopRequested env w trigger.AppID)).scalingHistory =
      w.scalingHistory from hfr.1]

/-- Witness of C4: the start request of app `A` is request 0, the polls
numbered 1 and 2 report no instance, the poll numbered 3 reports one. -/
theorem StartApp_success_witness :
    ∃ o, ScalingEngine.StartApp (envFlip 3) se0 w0 "A" = some o ∧
      o.err = none ∧
      o.se = { se0 with
        appNextScaleTimestampMap := GoMap.set se0.appNextScaleTimestampMap "A"
          ((startPollWorld (envFlip 3) "A" 2 (startRequested (envFlip 3) w0 "A")).now +
            (((envFlip 3).cf.GetAppRunningInstanceNumber "A" (w0.cfCalls.length + 1 + 2)).took :
              Int) + se0.coolDownDuration) } ∧
      o.world.routeCalls = w0.routeCalls ++ [RouteCall.DisableAppRoutes "A"] ∧
      o.world.scalingHistory = w0.scalingHistory ++
        [{ AppId := "A", Timestamp := w0.now,
           ScalingType := ScalingType.ScalingType2ZeroStart,
           Status := ScalingStatus.ScalingStatusSucceeded,
           OldInstances := 0, NewInstances := 0,
           Reason := "ingress request received", Message := "", Error := "" }] :=
  StartApp_success (envFlip 3) se0 w0 "A" 2 rfl (by decide) (by decide) (by decide)

/-- Witness of C5: app `A` is reported `STARTED` by the requests numbered 0, 2
and 3 (request 1 is the stop request) and `STOPPED` by the request numbered 4. -/
theorem StopApp_success_witness :
    ∃ o, ScalingEngine.StopApp (envFlip 4) se0 w0 { AppID := "A", BreachDuration := 60 } = some o ∧
      o.err = none ∧
      o.se = { se0 with
        appNextScaleTimestampMap := GoMap.set se0.appNextScaleTimestampMap "A"
          ((stopPollWorld (envFlip 4) "A" 2 (stopRequested (envFlip 4) w0 "A")).now +
            (((envFlip 4).cf.GetAppSummary "A" (w0.cfCalls.length + 2 + 2)).took : Int) +
            se0.coolDownDuration) } ∧
      o.world.routeCalls = w0.routeCalls ++ [RouteCall.EnableAppRoutes "A"] ∧
      o.world.routeManager = RouteManager.EnableAppRoutes w0.routeManager "A" ∧
      o.world.scalingHistory = w0.scalingHistory ++
        [{ AppId := "A", Timestamp := w0.now,
           ScalingType := ScalingType.ScalingType2ZeroStop,
           Status := ScalingStatus.ScalingStatusSucceeded,
           OldInstances := 0, NewInstances := 0,
           Reason := "no ingress request received for " ++ toString (60 : Int) ++ " seconds",
           Message := "", Error := "" }] :=
  StopApp_success (envFlip 4) se0 w0 { AppID := "A", BreachDuration := 60 } 2
    (by decide) rfl (by decide) rfl (by decide) (by decide) (by decide) rfl rfl

/-! ## A stop that is never confirmed -/

theorem expiredSeconds_two_minutes (se : ScalingEngine)
    (hdur : se.startStopExpiredDuration = 2 * Minute) :
    ScalingEngine.expiredSeconds se = "120" := by
  unfold ScalingEngine.expiredSeconds
  rw [hdur]
  decide

/-- C6. Stop deadline: for an engine with the two-minute
`startStopExpiredDuration` that `NewScalingEngine` sets, if the gate passes,
the platform accepts the stop request and every `GetAppSummary` succeeds with
a state other than `STOPPED`, then `StopApp` returns, not before 120 seconds
have passed since the stop request was accepted, with an error; it writes
exactly one history row, of type Stop2Zero, status Failed and message
"failed to stop application in 120 seconds"; no route capability is called,
the route manager (its suppressed set) and the cool-down map are unchanged. -/
theorem StopApp_deadline (env : Env) (se : ScalingEngine) (w : World) (trigger : Trigger)
    (hgate : ScalingEngine.checkCoolDown se w trigger.AppID = true)
    (hdur : se.startStopExpiredDuration = 2 * Minute)
    (hsum : ∀ n, (env.cf.GetAppSummary trigger.AppID n).err = none ∧
      (env.cf.GetAppSummary trigger.AppID n).value.State ≠ "STOPPED")
    (hstop : (env.cf.StopApp trigger.AppID (w.cfCalls.length + 1)).err = none) :
    ∃ o, ScalingEngine.StopApp env se w trigger = some o ∧
      o.err = some "failed to stop app" ∧
      o.se = se ∧
      o.world.routeCalls = w.routeCalls ∧
      o.world.routeManager = w.routeManager ∧
      o.world.scalingHistory = w.scalingHistory ++
        [{ AppId := trigger.AppID, Timestamp := w.now,
           ScalingType := ScalingType.ScalingType2ZeroStop,
           Status := ScalingStatus.ScalingStatusFailed,
           OldInstances := 0, NewInstances := 0,
           Reason := "no ingress request received for " ++ toString trigger.BreachDuration ++
             " seconds",
           Message := "failed to stop application in 120 seconds", Error := "" }] ∧
      (stopRequested env w trigger.AppID).now + 120 * Second ≤ o.world.now := by
  have hgt := (checkCoolDown_iff se w trigger.AppID).1 hgate
  rcases StopApp_cases env se w trigger with ⟨hle, _⟩ | ⟨_, hpaths⟩
  · omega
  rcases hpaths with ⟨e, he, _⟩ | ⟨_, hs, _⟩ | ⟨_, _, hreq⟩
  · rw [(hsum _).1] at he
    cases he
  · exact absurd hs (hsum _).2
  rcases hreq with ⟨e, he, _⟩ | ⟨_, K, _, hloop⟩
  · rw [hstop] at he
    cases he
  rcases hloop with ⟨hexp, hres⟩ | ⟨_, e, he, _⟩ | ⟨_, _, hs, _⟩
  · have hfr := pollWorld_frame env (CfCall.GetAppSummary trigger.AppID)
      (fun n => (env.cf.GetAppSummary trigger.AppID n).took) K
      (stopRequested env w trigger.AppID)
    have h120 : (2 : Int) * Minute = 120 * Second := by decide
    refine ⟨_, hres, rfl, rfl, ?_, ?_, ?_, ?_⟩
    · exact hfr.2.1
    · exact hfr.2.2
    · simp only [World.SaveScalingHistory, ScalingEngine.stopHistory,
        expiredSeconds_two_minutes se hdur]
      rw [show (stopPollWorld env trigger.AppID K
        (stopRequested env w trigger.AppID)).scalingHistory = w.scalingHistory from hfr.1]
      rfl
    · rw [hdur, h120] at hexp
      exact hexp
  · rw [(hsum _).1] at he
    cases he
  · exact absurd hs (hsum _).2

/-- Witness of C6: app `A` is reported `STARTED` by every request. -/
theorem StopApp_deadline_witness :
    ∃ o, ScalingEngine.StopApp envStuck se0 w0 { AppID := "A", BreachDuration := 60 } =
        some o ∧
      o.err = some "failed to stop app" ∧
      o.se = se0 ∧
      o.world.routeCalls = w0.routeCalls ∧
      o.world.routeManager = w0.routeManager ∧
      o.world.scalingHistory = w0.scalingHistory ++
        [{ AppId := "A", Timestamp := w0.now,
           ScalingType := ScalingType.ScalingType2ZeroStop,
           Status := ScalingStatus.ScalingStatusFailed,
           OldInstances := 0, NewInstances := 0,
           Reason := "no ingress request received for " ++ toString (60 : Int) ++ " seconds",
           Message := "failed to stop application in 120 seconds", Error := "" }] ∧
      (stopRequested envStuck w0 "A").now + 120 * Second ≤ o.world.now :=
  StopApp_deadline envStuck se0 w0 { AppID := "A", BreachDuration := 60 }
    (by decide) rfl (fun _ => ⟨rfl, show "STARTED" ≠ "STOPPED" by decide⟩) rfl

/-! ## The aggregator refresh -/

theorem refresh_insert_mem (now : Int) (l : List String) (m : GoMap Int) (a : String) :
    a ∈ l.foldl (fun m appId => if !GoMap.has m appId then GoMap.set m appId now else m) m ↔
      a ∈ m ∨ a ∈ l := by
  induction l generalizing m with
  | nil => simp
  | cons k l ih =>
    rw [List.foldl_cons, ih]
    by_cases hk : GoMap.has m k = true
    · have hmem : k ∈ m := (GoMap.has_iff_mem m k).1 hk
      simp only [hk, Bool.not_true, Bool.false_eq_true, if_false, List.mem_cons]
      constructor
      · rintro (h | h)
        · exact Or.inl h
        · exact Or.inr (Or.inr h)
      · rintro (h | h | h)
        · exact Or.inl h
        · exact Or.inl (h ▸ hmem)
        · exact Or.inr h
    · have hk2 : GoMap.has m k = false := by simpa using hk
      simp only [hk2, Bool.not_false, if_true, List.mem_cons, GoMap.set, AList.mem_insert]
      constructor
      · rintro ((h | h) | h)
        · exact Or.inr (Or.inl h)
        · exact Or.inl h
        · exact Or.inr (Or.inr h)
      · rintro (h | h | h)
        · exact Or.inl (Or.inr h)
        · exact Or.inl (Or.inl h)
        · exact Or.inr h

theorem refresh_delete_mem (apps : GoMap Int) (l : List String) (m : GoMap Int) (a : String) :
    a ∈ l.foldl (fun m appId => if !GoMap.has apps appId then GoMap.delete m appId else m) m ↔
      a ∈ m ∧ (a ∈ l → a ∈ apps) := by
  induction l generalizing m with
  | nil => simp
  | cons k l ih =>
    rw [List.foldl_cons, ih]
    by_cases hk : GoMap.has apps k = true
    · have hmem : k ∈ apps := (GoMap.has_iff_mem apps k).1 hk
      simp only [hk, Bool.not_true, Bool.false_eq_true, if_false, List.mem_cons]
      constructor
      · rintro ⟨h1, h2⟩
        refine ⟨h1, ?_⟩
        rintro (h | h)
        · exact h ▸ hmem
        · exact h2 h
      · rintro ⟨h1, h2⟩
        exact ⟨h1, fun h => h2 (Or.inr h)⟩
    · have hk2 : GoMap.has apps k = false := by simpa using hk
      have hnot : k ∉ apps := fun h => hk ((GoMap.has_iff_mem apps k).2 h)
      simp only [hk2, Bool.not_false, if_true, List.mem_cons, GoMap.delete, AList.mem_erase]
      constructor
      · rintro ⟨⟨hne, h1⟩, h2⟩
        refine ⟨h1, ?_⟩
        rintro (h | h)
        · exact absurd h hne
        · exact h2 h
      · rintro ⟨h1, h2⟩
        refine ⟨⟨?_, h1⟩, fun h => h2 (Or.inr h)⟩
        intro h
        exact hnot (h ▸ h2 (Or.inl h))

/-- C10. Aggregator refresh invariant: for every aggregator state, every
registry snapshot and every clock reading, after `refreshApps` the key set of
`last_request_ns` is the key set of the snapshot, and `breach_window_s` is
the snapshot. -/
theorem refreshApps_key_sets (eg : Aggregator) (apps : GoMap Int) (now : Int) :
    (∀ a, a ∈ (Aggregator.refreshApps eg apps now).appLatestRequestTimeMap.keys ↔
      a ∈ apps.keys) ∧
    (Aggregator.refreshApps eg apps now).appBreachDurationMap = apps := by
  refine ⟨?_, rfl⟩
  intro a
  rw [← AList.mem_keys, ← AList.mem_keys]
  unfold Aggregator.refreshApps
  simp only
  rw [refresh_delete_mem, refresh_insert_mem]
  constructor
  · rintro ⟨h | h, h2⟩
    · exact h2 (AList.mem_keys.1 ((refresh_insert_mem now _ _ a).2 (Or.inl h)))
    · exact AList.mem_keys.2 h
  · intro h
    exact ⟨Or.inr (AList.mem_keys.1 h), fun _ => h⟩

/-! ## History rows -/

theorem startPollWorld_history (env : Env) (w : World) (appID : String) (K : Nat) :
    (startPollWorld env appID K (startRequested env w appID)).scalingHistory =
      w.scalingHistory :=
  (pollWorld_frame env _ _ K (startRequested env w appID)).1

theorem stopPollWorld_history (env : Env) (w : World) (appID : String) (K : Nat) :
    (stopPollWorld env appID K (stopRequested env w appID)).scalingHistory =
      w.scalingHistory :=
  (pollWorld_frame env _ _ K (stopRequested env w appID)).1

theorem stopPollWorld_calls (env : Env) (w : World) (appID : String) (K : Nat) :
    (stopPollWorld env appID K (stopRequested env w appID)).cfCalls =
      w.cfCalls ++ (CfCall.GetAppSummary appID :: CfCall.StopApp appID ::
        List.replicate K (CfCall.GetAppSummary appID)) := by
  rw [stopPollWorld, pollWorld_calls]
  simp [stopRequested, World.request]

/-- C9. History rows: every `StartApp` invocation returns and writes exactly
one history row, on each of its paths (start request refused, deadline,
success).  Every `StopApp` invocation returns and writes at most one row;
it writes exactly one, of status Failed, when it returns an error (a failed
`GetAppSummary`, a refused stop request, the deadline), and exactly one, of
status Succeeded, when it returns `nil` after having issued the stop
request. -/
theorem history_rows_exactly_one (env : Env) (se : ScalingEngine) (w : World)
    (appID : String) (trigger : Trigger) :
    (∃ o row, ScalingEngine.StartApp env se w appID = some o ∧
      o.world.scalingHistory = w.scalingHistory ++ [row] ∧
      row.AppId = appID ∧
      row.ScalingType = ScalingType.ScalingType2ZeroStart ∧
      (o.err = none → row.Status = ScalingStatus.ScalingStatusSucceeded)) ∧
    (∃ o, ScalingEngine.StopApp env se w trigger = some o ∧
      (o.world.scalingHistory = w.scalingHistory ∨
        ∃ row, o.world.scalingHistory = w.scalingHistory ++ [row]) ∧
      (o.err ≠ none →
        ∃ row, o.world.scalingHistory = w.scalingHistory ++ [row] ∧
          row.AppId = trigger.AppID ∧
          row.ScalingType = ScalingType.ScalingType2ZeroStop ∧
          row.Status = ScalingStatus.ScalingStatusFailed) ∧
      (o.err = none →
        CfCall.StopApp trigger.AppID ∈ o.world.cfCalls.drop w.cfCalls.length →
        ∃ row, o.world.scalingHistory = w.scalingHistory ++ [row] ∧
          row.AppId = trigger.AppID ∧
          row.ScalingType = ScalingType.ScalingType2ZeroStop ∧
          row.Status = ScalingStatus.ScalingStatusSucceeded)) := by
  have hone : ∀ (w1 : World) (row : AppScalingHistory), w1.scalingHistory = w.scalingHistory →
      (w1.SaveScalingHistory row).scalingHistory = w.scalingHistory ++ [row] := by
    intro w1 row h
    simp [World.SaveScalingHistory, h]
  constructor
  · rcases StartApp_cases env se w appID with ⟨e, _, hres⟩ | ⟨_, K, _, ⟨_, hres⟩ | ⟨_, _, hres⟩⟩
    · exact ⟨_, _, hres, hone (startRequested env w appID)
        (ScalingEngine.startHistory appID w.now) rfl, rfl, rfl, fun _ => rfl⟩
    · exact ⟨_, _, hres, hone (startPollWorld env appID K (startRequested env w appID))
        { ScalingEngine.startHistory appID w.now with
          Status := ScalingStatus.ScalingStatusFailed,
          Message := "failed to start application in " ++
            ScalingEngine.expiredSeconds se ++ " seconds" }
        (startPollWorld_history env w appID K), rfl, rfl, fun h => by cases h⟩
    · refine ⟨_, _, hres, hone _
        { ScalingEngine.startHistory appID w.now with
          Status := ScalingStatus.ScalingStatusSucceeded } ?_, rfl, rfl, fun _ => rfl⟩
      rw [(disableAppRoutesFunc_frame _ env appID).2.1]
      exact startPollWorld_history env w appID K
  · rcases StopApp_cases env se w trigger with ⟨_, hres⟩ | ⟨_, hpaths⟩
    · refine ⟨_, hres, Or.inl rfl, fun h => absurd rfl h, fun _ hmem => ?_⟩
      simp at hmem
    rcases hpaths with ⟨e, _, hres⟩ | ⟨_, _, hres⟩ | ⟨_, _, hreq⟩
    · have hrow := hone (w.request (CfCall.GetAppSummary trigger.AppID)
        (env.cf.GetAppSummary trigger.AppID w.cfCalls.length))
        { ScalingEngine.stopHistory trigger w.now with
          Status := ScalingStatus.ScalingStatusFailed,
          Message := "failed to get application status" } rfl
      exact ⟨_, hres, Or.inr ⟨_, hrow⟩, fun _ => ⟨_, hrow, rfl, rfl, rfl⟩,
        fun h => by cases h⟩
    · refine ⟨_, hres, Or.inl rfl, fun h => absurd rfl h, fun _ hmem => ?_⟩
      simp [World.request] at hmem
    rcases hreq with ⟨e, _, hres⟩ | ⟨_, K, _, hloop⟩
    · have hrow := hone (stopRequested env w trigger.AppID)
        { ScalingEngine.stopHistory trigger w.now with
          Status := ScalingStatus.ScalingStatusFailed,
          Message := "failed to send stop application request" } rfl
      exact ⟨_, hres, Or.inr ⟨_, hrow⟩, fun _ => ⟨_, hrow, rfl, rfl, rfl⟩,
        fun h => by cases h⟩
    rcases hloop with ⟨_, hres⟩ | ⟨_, e, _, hres⟩ | ⟨_, _, _, hres⟩
    · have hrow := hone (stopPollWorld env trigger.AppID K (stopRequested env w trigger.AppID))
        { ScalingEngine.stopHistory trigger w.now with
          Status := ScalingStatus.ScalingStatusFailed,
          Message := "failed to stop application in " ++
            ScalingEngine.expiredSeconds se ++ " seconds" }
        (stopPollWorld_history env w trigger.AppID K)
      exact ⟨_, hres, Or.inr ⟨_, hrow⟩, fun _ => ⟨_, hrow, rfl, rfl, rfl⟩,
        fun h => by cases h⟩
    · have hrow := hone ((stopPollWorld env trigger.AppID K
          (stopRequested env w trigger.AppID)).request (CfCall.GetAppSummary trigger.AppID)
          (env.cf.GetAppSummary trigger.AppID (w.cfCalls.length + 2 + K)))
        { ScalingEngine.stopHistory trigger w.now with
          Status := ScalingStatus.ScalingStatusFailed,
          Message := "failed to get application status" }
        (stopPollWorld_history env w trigger.AppID K)
      exact ⟨_, hres, Or.inr ⟨_, hrow⟩, fun _ => ⟨_, hrow, rfl, rfl, rfl⟩,
        fun h => by cases h⟩
    · have hrow := hone (((stopPollWorld env trigger.AppID K
          (stopRequested env w trigger.AppID)).request (CfCall.GetAppSummary trigger.AppID)
          (env.cf.GetAppSummary trigger.AppID (w.cfCalls.length + 2 + K))).enableAppRoutesFunc
            trigger.AppID)
        { ScalingEngine.stopHistory trigger w.now with
          Status := ScalingStatus.ScalingStatusSucceeded }
        (stopPollWorld_history env w trigger.AppID K)
      exact ⟨_, hres, Or.inr ⟨_, hrow⟩, fun h => absurd rfl h,
        fun _ _ => ⟨_, hrow, rfl, rfl, rfl⟩⟩

/-! ## Platform errors -/

theorem getElem?_replicate_snoc {α : Type} (K i : Nat) (a c : α)
    (h : (List.replicate K a ++ [a])[i]? = some c) : c = a ∧ i ≤ K := by
  rw [← List.replicate_succ', List.getElem?_replicate] at h
  split at h
  · simp only [Option.some.injEq] at h
    exact ⟨h.symm, by omega⟩
  · cases h

theorem startPoll_silence (env : Env) (se : ScalingEngine) (appID : String) (expiredAt : Int)
    (history : AppScalingHistory) (fuel : Nat) (w : World) :
    ScalingEngine.startPoll (Env.silencePollErrors env) se appID expiredAt history fuel w =
      ScalingEngine.startPoll env se appID expiredAt history fuel w := by
  induction fuel generalizing w with
  | zero => rfl
  | succ fuel ih =>
    rw [ScalingEngine.startPoll, ScalingEngine.startPoll]
    by_cases hexp : expiredAt ≤ w.now
    · simp only [hexp, if_true]
    · simp only [hexp, if_false]
      by_cases hv : (env.cf.GetAppRunningInstanceNumber appID w.cfCalls.length).value ≥ 1
      · have hv2 : ((Env.silencePollErrors env).cf.GetAppRunningInstanceNumber appID
            w.cfCalls.length).value ≥ 1 := hv
        simp only [hv, hv2, if_true]
        rfl
      · have hv2 : ¬ ((Env.silencePollErrors env).cf.GetAppRunningInstanceNumber appID
            w.cfCalls.length).value ≥ 1 := hv
        simp only [hv, hv2, if_false]
        exact ih _

/-- C8, as the code has it.  (1) Whenever a platform request made during
`StopApp` fails (the first `GetAppSummary`, the stop request, a polled
`GetAppSummary`), `StopApp` returns an error and writes exactly one history
row, of status Failed.  (2) When the start request fails, `StartApp` returns
that error.  (3) The `error` of a `GetAppRunningInstanceNumber` query has no
effect on `StartApp`: the query is logged and polling goes on. -/
theorem platform_errors (env : Env) (se : ScalingEngine) (w : World)
    (appID : String) (trigger : Trigger) :
    (∃ o, ScalingEngine.StopApp env se w trigger = some o ∧
      ((∃ n c, w.cfCalls.length ≤ n ∧ o.world.cfCalls[n]? = some c ∧
          env.cf.failed n c = true) →
        o.err ≠ none ∧
        ∃ row, o.world.scalingHistory = w.scalingHistory ++ [row] ∧
          row.Status = ScalingStatus.ScalingStatusFailed)) ∧
    (∃ o, ScalingEngine.StartApp env se w appID = some o ∧
      (env.cf.failed w.cfCalls.length (CfCall.StartApp appID) = true →
        o.err = (env.cf.StartApp appID w.cfCalls.length).err ∧ o.err ≠ none)) ∧
    ScalingEngine.StartApp (Env.silencePollErrors env) se w appID =
      ScalingEngine.StartApp env se w appID := by
  have hone : ∀ (w1 : World) (row : AppScalingHistory), w1.scalingHistory = w.scalingHistory →
      (w1.SaveScalingHistory row).scalingHistory = w.scalingHistory ++ [row] := by
    intro w1 row h
    simp [World.SaveScalingHistory, h]
  refine ⟨?_, ?_, ?_⟩
  · rcases StopApp_cases env se w trigger with ⟨_, hres⟩ | ⟨_, hpaths⟩
    · refine ⟨_, hres, ?_⟩
      rintro ⟨n, c, hn, hc, _⟩
      rw [List.getElem?_eq_none hn] at hc
      cases hc
    rcases hpaths with ⟨e, _, hres⟩ | ⟨herr, _, hres⟩ | ⟨herr, _, hreq⟩
    · exact ⟨_, hres, fun _ => ⟨(fun h => by cases h), _, hone _ _ rfl, rfl⟩⟩
    · refine ⟨_, hres, ?_⟩
      rintro ⟨n, c, hn, hc, hf⟩
      exfalso
      obtain ⟨j, rfl⟩ := Nat.exists_eq_add_of_le hn
      simp only [World.request] at hc
      rw [List.getElem?_append_right (Nat.le_add_right _ _), Nat.add_sub_cancel_left] at hc
      cases j with
      | zero =>
        simp only [List.getElem?_cons_zero, Option.some.injEq] at hc
        subst hc
        simp [CfClient.failed, herr] at hf
      | succ j => simp at hc
    rcases hreq with ⟨e, _, hres⟩ | ⟨herr2, K, hwait, hloop⟩
    · exact ⟨_, hres, fun _ => ⟨(fun h => by cases h), _, hone _ _ rfl, rfl⟩⟩
    rcases hloop with ⟨_, hres⟩ | ⟨_, e, _, hres⟩ | ⟨_, herr3, _, hres⟩
    · exact ⟨_, hres, fun _ => ⟨(fun h => by cases h), _,
        hone _ _ (stopPollWorld_history env w trigger.AppID K), rfl⟩⟩
    · exact ⟨_, hres, fun _ => ⟨(fun h => by cases h), _,
        hone _ _ (stopPollWorld_history env w trigger.AppID K), rfl⟩⟩
    · refine ⟨_, hres, ?_⟩
      rintro ⟨n, c, hn, hc, hf⟩
      exfalso
      obtain ⟨j, rfl⟩ := Nat.exists_eq_add_of_le hn
      simp only [World.SaveScalingHistory, World.enableAppRoutesFunc, World.request,
        stopPollWorld_calls, List.append_assoc] at hc
      rw [List.getElem?_append_right (Nat.le_add_right _ _), Nat.add_sub_cancel_left] at hc
      cases j with
      | zero =>
        simp only [List.cons_append, List.getElem?_cons_zero, Option.some.injEq] at hc
        subst hc
        simp [CfClient.failed, herr] at hf
      | succ j =>
        cases j with
        | zero =>
          simp only [List.cons_append, List.getElem?_cons_succ, List.getElem?_cons_zero,
            Option.some.injEq] at hc
          subst hc
          simp [CfClient.failed, herr2] at hf
        | succ i =>
          simp only [List.cons_append, List.getElem?_cons_succ] at hc
          obtain ⟨hc2, hi⟩ := getElem?_replicate_snoc K i _ c hc
          subst hc2
          have hidx : w.cfCalls.length + (i + 1 + 1) = w.cfCalls.length + 2 + i := by omega
          rw [hidx] at hf
          rcases Nat.lt_or_ge i K with hlt | hge
          · simp [CfClient.failed, (hwait i hlt).1] at hf
          · have hiK : i = K := by omega
            subst hiK
            simp [CfClient.failed, herr3] at hf
  · rcases StartApp_cases env se w appID with ⟨e, he, hres⟩ | ⟨hnone, K, _, ⟨_, hres⟩ | ⟨_, _, hres⟩⟩
    · exact ⟨_, hres, fun _ => ⟨he.symm, fun h => by cases h⟩⟩
    · refine ⟨_, hres, fun hf => ?_⟩
      simp [CfClient.failed, hnone] at hf
    · refine ⟨_, hres, fun hf => ?_⟩
      simp [CfClient.failed, hnone] at hf
  · unfold ScalingEngine.StartApp
    simp only [startPoll_silence]
    rfl

/-- Witness of C8 as the code has it: the first `GetAppSummary` for app `A`
fails; `StopApp` returns an error and writes one row of status Failed. -/
theorem platform_errors_witness :
    ∃ o, ScalingEngine.StopApp envSummaryFails se0 w0 { AppID := "A", BreachDuration := 60 } =
        some o ∧
      o.err ≠ none ∧
      ∃ row, o.world.scalingHistory = w0.scalingHistory ++ [row] ∧
        row.Status = ScalingStatus.ScalingStatusFailed := by
  obtain ⟨o, ho, h⟩ :=
    (platform_errors envSummaryFails se0 w0 "A" { AppID := "A", BreachDuration := 60 }).1
  refine ⟨o, ho, h ⟨0, CfCall.GetAppSummary "A", Nat.le_refl _, ?_, rfl⟩⟩
  have hcalls : (ScalingEngine.StopApp envSummaryFails se0 w0
      { AppID := "A", BreachDuration := 60 }).map (fun o => o.world.cfCalls) =
      some [CfCall.GetAppSummary "A"] := by decide
  rw [ho] at hcalls
  simp only [Option.map_some', Option.some.injEq] at hcalls
  rw [hcalls]
  rfl

/-- C8 fails as stated: the instance query numbered 1 of `StartApp` for app
`A` fails, the query numbered 2 reports one running instance; `StartApp`
returns `nil` and the row it writes has status Succeeded. -/
theorem platform_errors_poll_counterexample :
    cfFlaky.failed 1 (CfCall.GetAppRunningInstanceNumber "A") = true ∧
    (ScalingEngine.StartApp envFlaky se0 w0 "A").map
        (fun o => (o.err, o.world.cfCalls, o.world.scalingHistory.map (fun r => r.Status))) =
      some (none,
        [CfCall.StartApp "A", CfCall.GetAppRunningInstanceNumber "A",
          CfCall.GetAppRunningInstanceNumber "A"],
        [ScalingStatus.ScalingStatusSucceeded]) := by
  decide

/-! ## Cool-down over a run -/

theorem startPollWorld_now_ge (env : Env) (w : World) (appID : String) (K : Nat) :
    w.now ≤ (startPollWorld env appID K (startRequested env w appID)).now := by
  have h := pollWorld_now_mono env (CfCall.GetAppRunningInstanceNumber appID)
    (fun n => (env.cf.GetAppRunningInstanceNumber appID n).took) (startRequested env w appID)
    (Nat.zero_le K)
  have h0 : w.now ≤ (startRequested env w appID).now := by
    simp only [startRequested, World.request]
    omega
  exact le_trans h0 h

theorem stopPollWorld_now_ge (env : Env) (w : World) (appID : String) (K : Nat) :
    w.now ≤ (stopPollWorld env appID K (stopRequested env w appID)).now := by
  have h := pollWorld_now_mono env (CfCall.GetAppSummary appID)
    (fun n => (env.cf.GetAppSummary appID n).took) (stopRequested env w appID)
    (Nat.zero_le K)
  have h0 : w.now ≤ (stopRequested env w appID).now := by
    simp only [stopRequested, World.request]
    omega
  exact le_trans h0 h

theorem get_set_cases (m : GoMap Int) (appID a : String) (v t : Int) (h : t ≤ v) :
    GoMap.get (GoMap.set m appID v) a 0 = GoMap.get m a 0 ∨
      t ≤ GoMap.get (GoMap.set m appID v) a 0 := by
  by_cases ha : a = appID
  · right
    rw [ha, GoMap.get_set_self]
    exact h
  · left
    exact GoMap.get_set_ne m v 0 ha

theorem rows_of_append (w : World) (o : Outcome) (appID : String) (stop : Bool)
    (row : AppScalingHistory) (h : o.world.scalingHistory = w.scalingHistory ++ [row]) :
    (Action.of appID stop w o).rows = [row] := by
  simp [Action.of, h]

theorem rows_of_same (w : World) (o : Outcome) (appID : String) (stop : Bool)
    (h : o.world.scalingHistory = w.scalingHistory) :
    (Action.of appID stop w o).rows = [] := by
  simp [Action.of, h]

/-- What one `StartApp` does to the clock, the cool-down map and the history. -/
theorem StartApp_step (env : Env) (se : ScalingEngine) (w : World) (appID : String) :
    ∃ o, ScalingEngine.StartApp env se w appID = some o ∧
      w.now ≤ o.world.now ∧
      o.se.coolDownDuration = se.coolDownDuration ∧
      (∀ a, GoMap.get o.se.appNextScaleTimestampMap a 0 =
          GoMap.get se.appNextScaleTimestampMap a 0 ∨
        w.now + se.coolDownDuration ≤ GoMap.get o.se.appNextScaleTimestampMap a 0) ∧
      (∀ r ∈ (Action.of appID false w o).rows, r.Timestamp = w.now) ∧
      ((Action.of appID false w o).succeeded →
        w.now + se.coolDownDuration ≤ GoMap.get o.se.appNextScaleTimestampMap appID 0) := by
  have hone : ∀ (w1 : World) (row : AppScalingHistory), w1.scalingHistory = w.scalingHistory →
      (w1.SaveScalingHistory row).scalingHistory = w.scalingHistory ++ [row] := by
    intro w1 row h
    simp [World.SaveScalingHistory, h]
  rcases StartApp_cases env se w appID with ⟨e, _, hres⟩ | ⟨_, K, _, ⟨_, hres⟩ | ⟨_, _, hres⟩⟩
  · refine ⟨_, hres, ?_, rfl, fun a => Or.inl rfl, ?_, ?_⟩
    · simp only [World.SaveScalingHistory, startRequested, World.request]
      omega
    · rw [rows_of_append w _ appID false _ (hone _ _ rfl)]
      intro r hr
      rw [List.mem_singleton] at hr
      rw [hr]
      rfl
    · rintro ⟨h, _⟩
      cases h
  · refine ⟨_, hres, ?_, rfl, fun a => Or.inl rfl, ?_, ?_⟩
    · exact startPollWorld_now_ge env w appID K
    · rw [rows_of_append w _ appID false _ (hone _ _ (startPollWorld_history env w appID K))]
      intro r hr
      rw [List.mem_singleton] at hr
      rw [hr]
      rfl
    · rintro ⟨h, _⟩
      cases h
  · have hK := startPollWorld_now_ge env w appID K
    have hval : w.now + se.coolDownDuration ≤
        (startPollWorld env appID K (startRequested env w appID)).now +
          ((env.cf.GetAppRunningInstanceNumber appID (w.cfCalls.length + 1 + K)).took : Int) +
          se.coolDownDuration := by omega
    refine ⟨_, hres, ?_, rfl, fun a => get_set_cases _ appID a _ _ hval, ?_, ?_⟩
    · have hd := (disableAppRoutesFunc_frame
        ((startPollWorld env appID K (startRequested env w appID)).request
          (CfCall.GetAppRunningInstanceNumber appID)
          (env.cf.GetAppRunningInstanceNumber appID (w.cfCalls.length + 1 + K))) env appID).2.2.1
      simp only [World.request] at hd
      simp only [World.SaveScalingHistory, World.request]
      omega
    · have hh : (((startPollWorld env appID K (startRequested env w appID)).request
          (CfCall.GetAppRunningInstanceNumber appID)
          (env.cf.GetAppRunningInstanceNumber appID
            (w.cfCalls.length + 1 + K))).disableAppRoutesFunc env appID).scalingHistory =
          w.scalingHistory := by
        rw [(disableAppRoutesFunc_frame _ env appID).2.1]
        exact startPollWorld_history env w appID K
      rw [rows_of_append w _ appID false _ (hone _ _ hh)]
      intro r hr
      rw [List.mem_singleton] at hr
      rw [hr]
      rfl
    · intro _
      show w.now + se.coolDownDuration ≤ GoMap.get (GoMap.set _ appID _) appID 0
      rw [GoMap.get_set_self]
      exact hval

/-- What one `StopApp` does to the clock, the cool-down map and the history. -/
theorem StopApp_step (env : Env) (se : ScalingEngine) (w : World) (trigger : Trigger) :
    ∃ o, ScalingEngine.StopApp env se w trigger = some o ∧
      w.now ≤ o.world.now ∧
      o.se.coolDownDuration = se.coolDownDuration ∧
      (∀ a, GoMap.get o.se.appNextScaleTimestampMap a 0 =
          GoMap.get se.appNextScaleTimestampMap a 0 ∨
        w.now + se.coolDownDuration ≤ GoMap.get o.se.appNextScaleTimestampMap a 0) ∧
      (∀ r ∈ (Action.of trigger.AppID true w o).rows,
        r.Timestamp = w.now ∧ GoMap.get se.appNextScaleTimestampMap trigger.AppID 0 < w.now) ∧
      ((Action.of trigger.AppID true w o).succeeded →
        w.now + se.coolDownDuration ≤
          GoMap.get o.se.appNextScaleTimestampMap trigger.AppID 0) := by
  have hone : ∀ (w1 : World) (row : AppScalingHistory), w1.scalingHistory = w.scalingHistory →
      (w1.SaveScalingHistory row).scalingHistory = w.scalingHistory ++ [row] := by
    intro w1 row h
    simp [World.SaveScalingHistory, h]
  have hrow : ∀ (o : Outcome) (row : AppScalingHistory) (t : Int),
      o.world.scalingHistory = w.scalingHistory ++ [row] → row.Timestamp = w.now → t < w.now →
      ∀ r ∈ (Action.of trigger.AppID true w o).rows, r.Timestamp = w.now ∧ t < w.now := by
    intro o row t h hts ht r hr
    rw [rows_of_append w o _ true row h, List.mem_singleton] at hr
    rw [hr]
    exact ⟨hts, ht⟩
  have hnorow : ∀ (o : Outcome) (t : Int), o.world.scalingHistory = w.scalingHistory →
      ∀ r ∈ (Action.of trigger.AppID true w o).rows, r.Timestamp = w.now ∧ t < w.now := by
    intro o t h r hr
    rw [rows_of_same w o _ true h] at hr
    cases hr
  have hnosucc : ∀ (o : Outcome) (P : Prop), o.world.scalingHistory = w.scalingHistory →
      (Action.of trigger.AppID true w o).succeeded → P := by
    intro o P h hs
    obtain ⟨_, r, hr, _⟩ := hs
    rw [rows_of_same w o _ true h] at hr
    cases hr
  have herrsucc : ∀ (o : Outcome) (P : Prop) (e : String), o.err = some e →
      (Action.of trigger.AppID true w o).succeeded → P := by
    intro o P e h hs
    have h1 : o.err = none := hs.1
    rw [h] at h1
    cases h1
  rcases StopApp_cases env se w trigger with ⟨_, hres⟩ | ⟨hgt, hpaths⟩
  · exact ⟨_, hres, le_refl _, rfl, fun a => Or.inl rfl, hnorow _ _ rfl, hnosucc _ _ rfl⟩
  rcases hpaths with ⟨e, _, hres⟩ | ⟨_, _, hres⟩ | ⟨_, _, hreq⟩
  · refine ⟨_, hres, ?_, rfl, fun a => Or.inl rfl,
      hrow _ _ _ (hone _ _ rfl) rfl hgt, herrsucc _ _ e rfl⟩
    simp only [World.SaveScalingHistory, World.request]
    omega
  · refine ⟨_, hres, ?_, rfl, fun a => Or.inl rfl, hnorow _ _ rfl, hnosucc _ _ rfl⟩
    simp only [World.request]
    omega
  rcases hreq with ⟨e, _, hres⟩ | ⟨_, K, _, hloop⟩
  · refine ⟨_, hres, ?_, rfl, fun a => Or.inl rfl,
      hrow _ _ _ (hone _ _ rfl) rfl hgt, herrsucc _ _ e rfl⟩
    simp only [World.SaveScalingHistory, stopRequested, World.request]
    omega
  have hK := stopPollWorld_now_ge env w trigger.AppID K
  have hhist := stopPollWorld_history env w trigger.AppID K
  rcases hloop with ⟨_, hres⟩ | ⟨_, e, _, hres⟩ | ⟨_, _, _, hres⟩
  · exact ⟨_, hres, hK, rfl, fun a => Or.inl rfl,
      hrow _ _ _ (hone _ _ hhist) rfl hgt, herrsucc _ _ _ rfl⟩
  · refine ⟨_, hres, ?_, rfl, fun a => Or.inl rfl,
      hrow _ _ _ (hone _ _ hhist) rfl hgt, herrsucc _ _ e rfl⟩
    simp only [World.SaveScalingHistory, World.request]
    omega
  · have hval : w.now + se.coolDownDuration ≤
        (stopPollWorld env trigger.AppID K (stopRequested env w trigger.AppID)).now +
          ((env.cf.GetAppSummary trigger.AppID (w.cfCalls.length + 2 + K)).took : Int) +
          se.coolDownDuration := by omega
    refine ⟨_, hres, ?_, rfl, fun a => get_set_cases _ trigger.AppID a _ _ hval,
      hrow _ _ _ (hone _ _ hhist) rfl hgt, ?_⟩
    · simp only [World.SaveScalingHistory, World.enableAppRoutesFunc, World.request]
      omega
    · intro _
      show w.now + se.coolDownDuration ≤
        GoMap.get (GoMap.set _ trigger.AppID _) trigger.AppID 0
      rw [GoMap.get_set_self]
      exact hval

/-- Once an app is cooling from instant `t` on, every later `StopApp` of the
run that writes a history row for it does so more than the cool-down after
`t`. -/
theorem run_later (env : Env) (app : String) (t cd : Int) (steps : List Step) :
    ∀ (se : ScalingEngine) (w : World) (acts : List Action) (se1 : ScalingEngine) (w1 : World),
      run env steps se w = some (acts, se1, w1) →
      se.coolDownDuration = cd →
      t ≤ w.now →
      t + cd ≤ GoMap.get se.appNextScaleTimestampMap app 0 →
      ∀ b ∈ acts, b.appID = app → b.stop = true →
        ∀ r ∈ b.rows, t ≤ r.Timestamp ∧ t + cd < r.Timestamp := by
  induction steps with
  | nil =>
    intro se w acts se1 w1 hrun _ _ _ b hb
    simp only [run, Option.some.injEq, Prod.mk.injEq] at hrun
    rw [← hrun.1] at hb
    cases hb
  | cons step rest ih =>
    intro se w acts se1 w1 hrun hcd ht hcool b hb happ hstop r hr
    cases step with
    | Wait d =>
      simp only [run] at hrun
      exact ih se _ acts se1 w1 hrun hcd (by show t ≤ w.now + (d : Int); omega) hcool
        b hb happ hstop r hr
    | StartApp appID =>
      obtain ⟨o, ho, hnow, hcd2, hmap, _, _⟩ := StartApp_step env se w appID
      simp only [run, ho] at hrun
      cases hrest : run env rest o.se o.world with
      | none => simp [hrest] at hrun
      | some res =>
        obtain ⟨acts2, se2, w2⟩ := res
        simp only [hrest, Option.some.injEq, Prod.mk.injEq] at hrun
        rw [← hrun.1, List.mem_cons] at hb
        rcases hb with hb | hb
        · rw [hb] at hstop
          cases hstop
        · have hcool2 : t + cd ≤ GoMap.get o.se.appNextScaleTimestampMap app 0 := by
            rcases hmap app with h | h
            · rw [h]; exact hcool
            · rw [hcd] at h; omega
          exact ih o.se o.world acts2 se2 w2 hrest (hcd2.trans hcd) (le_trans ht hnow) hcool2
            b hb happ hstop r hr
    | StopApp trigger =>
      obtain ⟨o, ho, hnow, hcd2, hmap, hrows, _⟩ := StopApp_step env se w trigger
      simp only [run, ho] at hrun
      cases hrest : run env rest o.se o.world with
      | none => simp [hrest] at hrun
      | some res =>
        obtain ⟨acts2, se2, w2⟩ := res
        simp only [hrest, Option.some.injEq, Prod.mk.injEq] at hrun
        rw [← hrun.1, List.mem_cons] at hb
        rcases hb with hb | hb
        · rw [hb] at hr happ
          have happ2 : trigger.AppID = app := happ
          obtain ⟨hts, hgate⟩ := hrows r hr
          rw [happ2] at hgate
          omega
        · have hcool2 : t + cd ≤ GoMap.get o.se.appNextScaleTimestampMap app 0 := by
            rcases hmap app with h | h
            · rw [h]; exact hcool
            · rw [hcd] at h; omega
          exact ih o.se o.world acts2 se2 w2 hrest (hcd2.trans hcd) (le_trans ht hnow) hcool2
            b hb happ hstop r hr

/-- C1, as the code has it.  For every environment, engine, world and
sequence of `StartApp`/`StopApp` invocations (with any waits between them)
the run returns, and any two invocations on the same app that ended
Succeeded, of which the later is a `StopApp`, have history timestamps with
`t2 - t1 ≥ coolDownDuration` (and `t1 < t2` for a cool-down that is not
negative).  `StartApp` has no cool-down gate and is not bound by it. -/
theorem cooldown_before_stop (env : Env) (steps : List Step) :
    ∀ (se : ScalingEngine) (w : World),
      CooldownHolds env se w steps (fun a => a.stop = true) := by
  induction steps with
  | nil =>
    intro se w
    exact ⟨[], se, w, rfl, List.Pairwise.nil⟩
  | cons step rest ih =>
    intro se w
    cases step with
    | Wait d =>
      obtain ⟨acts, se1, w1, hrun, hpw⟩ := ih se { w with now := w.now + (d : Int) }
      exact ⟨acts, se1, w1, by simpa only [run] using hrun, hpw⟩
    | StartApp appID =>
      obtain ⟨o, ho, hnow, hcd, _, hrows, hsucc⟩ := StartApp_step env se w appID
      obtain ⟨acts, se1, w1, hrun, hpw⟩ := ih o.se o.world
      rw [hcd] at hpw
      refine ⟨Action.of appID false w o :: acts, se1, w1, by simp only [run, ho, hrun],
        List.pairwise_cons.2 ⟨?_, hpw⟩⟩
      intro b hb happ hsa _ hstop r1 hr1 r2 hr2
      have h := run_later env appID w.now se.coolDownDuration rest o.se o.world acts se1 w1
        hrun hcd hnow (hsucc hsa) b hb happ.symm hstop r2 hr2
      rw [hrows r1 hr1]
      constructor
      · intro h0
        omega
      · omega
    | StopApp trigger =>
      obtain ⟨o, ho, hnow, hcd, _, hrows, hsucc⟩ := StopApp_step env se w trigger
      obtain ⟨acts, se1, w1, hrun, hpw⟩ := ih o.se o.world
      rw [hcd] at hpw
      refine ⟨Action.of trigger.AppID true w o :: acts, se1, w1, by simp only [run, ho, hrun],
        List.pairwise_cons.2 ⟨?_, hpw⟩⟩
      intro b hb happ hsa _ hstop r1 hr1 r2 hr2
      have h := run_later env trigger.AppID w.now se.coolDownDuration rest o.se o.world acts
        se1 w1 hrun hcd hnow (hsucc hsa) b hb happ.symm hstop r2 hr2
      rw [(hrows r1 hr1).1]
      constructor
      · intro h0
        omega
      · omega

/-- C1 fails as stated: with a cool-down of ten minutes, `StopApp` for app `A`
at 1000 s ends Succeeded at 1003 s, and `StartApp` for `A`, invoked at once,
ends Succeeded too: the two history timestamps are 3 s apart. -/
theorem cooldown_counterexample :
    ¬ CooldownHolds (envFlip 2) se0 w0
      [Step.StopApp { AppID := "A", BreachDuration := 60 }, Step.StartApp "A"]
      (fun _ => True) := by
  rintro ⟨acts, se1, w1, hrun, hpw⟩
  have hval : (run (envFlip 2)
      [Step.StopApp { AppID := "A", BreachDuration := 60 }, Step.StartApp "A"] se0 w0).map
        (fun res => res.1) =
      some [{ appID := "A", stop := true, err := none,
              rows := [{ AppId := "A", Timestamp := 1000000000000,
                         ScalingType := ScalingType.ScalingType2ZeroStop,
                         Status := ScalingStatus.ScalingStatusSucceeded,
                         OldInstances := 0, NewInstances := 0,
                         Reason := "no ingress request received for 60 seconds",
                         Message := "", Error := "" }] },
            { appID := "A", stop := false, err := none,
              rows := [{ AppId := "A", Timestamp := 1003000000000,
                         ScalingType := ScalingType.ScalingType2ZeroStart,
                         Status := ScalingStatus.ScalingStatusSucceeded,
                         OldInstances := 0, NewInstances := 0,
                         Reason := "ingress request received",
                         Message := "", Error := "" }] }] := by
    decide
  rw [hrun] at hval
  simp only [Option.map_some', Option.some.injEq] at hval
  rw [hval, List.pairwise_cons] at hpw
  have h := hpw.1 _ (List.mem_singleton.2 rfl) rfl
    ⟨rfl, _, List.mem_singleton.2 rfl, rfl⟩ ⟨rfl, _, List.mem_singleton.2 rfl, rfl⟩ trivial
    _ (List.mem_singleton.2 rfl) _ (List.mem_singleton.2 rfl)
  exact absurd h.2 (by decide)

/-! ## Loops that send on a channel -/

theorem foldl_push (α β : Type) (P : α → Prop) [DecidablePred P] (f : α → β) (l : List α)
    (acc : List β) :
    l.foldl (fun chan e => if P e then chan ++ [f e] else chan) acc =
      acc ++ (l.filter (fun e => decide (P e))).map f := by
  induction l generalizing acc with
  | nil => simp
  | cons e l ih =>
    rw [List.foldl_cons, ih]
    by_cases h : P e
    · simp [h, List.filter_cons]
    · simp [h, List.filter_cons]

/-! ## The evaluation tick -/

theorem doEvaluation_eq (eg : Aggregator) (now : Int) :
    (Aggregator.doEvaluation eg now).2 =
      (eg.appLatestRequestTimeMap.entries.filter
        (fun e => decide (Int.tdiv (now - e.2) 1000000000 >
          GoMap.get eg.appBreachDurationMap e.1 0))).map
        (fun e => { AppID := e.1, BreachDuration := GoMap.get eg.appBreachDurationMap e.1 0 }) := by
  unfold Aggregator.doEvaluation
  simp only
  rw [foldl_push _ _ (fun e : (_ : String) × Int => Int.tdiv (now - e.2) 1000000000 >
    GoMap.get eg.appBreachDurationMap e.1 0)]
  simp

/-- C11. Evaluation: on a tick at time `now`, the triggers sent carry, for
each app, `BreachDuration = breach_window_s[app]`; an app gets exactly one
trigger when it has an entry `last` in `last_request_ns` and the truncated
quotient `(now - last) / 1_000_000_000` is strictly greater than
`breach_window_s[app]` (0 when absent), and none otherwise; the aggregator is
left as it was.  In scenario S1 (breach 60, last request at 0, tick at 61 s)
the triggers sent are exactly `Trigger{A, 60}`. -/
theorem doEvaluation_triggers (eg : Aggregator) (now : Int) :
    (Aggregator.doEvaluation eg now).1 = eg ∧
    (∀ t ∈ (Aggregator.doEvaluation eg now).2,
      t.BreachDuration = GoMap.get eg.appBreachDurationMap t.AppID 0) ∧
    (∀ app, ((Aggregator.doEvaluation eg now).2.map (fun t => t.AppID)).count app =
      match AList.lookup app eg.appLatestRequestTimeMap with
      | some last =>
        if Int.tdiv (now - last) 1000000000 > GoMap.get eg.appBreachDurationMap app 0
        then 1 else 0
      | none => 0) ∧
    (Aggregator.doEvaluation egS1 (61 * Second)).2 = [{ AppID := "A", BreachDuration := 60 }] := by
  refine ⟨rfl, ?_, ?_, by decide⟩
  · intro t ht
    rw [doEvaluation_eq, List.mem_map] at ht
    obtain ⟨e, _, rfl⟩ := ht
    rfl
  · intro app
    rw [doEvaluation_eq, List.map_map]
    have hmap : ((fun t : Trigger => t.AppID) ∘ fun e : (_ : String) × Int =>
        ({ AppID := e.1, BreachDuration := GoMap.get eg.appBreachDurationMap e.1 0 } : Trigger)) =
        Sigma.fst := rfl
    rw [hmap]
    have hnodup : ((eg.appLatestRequestTimeMap.entries.filter
        (fun e => decide (Int.tdiv (now - e.2) 1000000000 >
          GoMap.get eg.appBreachDurationMap e.1 0))).map Sigma.fst).Nodup :=
      List.Nodup.sublist ((List.filter_sublist _).map Sigma.fst) eg.appLatestRequestTimeMap.keys_nodup
    have hmem : app ∈ (eg.appLatestRequestTimeMap.entries.filter
        (fun e => decide (Int.tdiv (now - e.2) 1000000000 >
          GoMap.get eg.appBreachDurationMap e.1 0))).map Sigma.fst ↔
        ∃ last, AList.lookup app eg.appLatestRequestTimeMap = some last ∧
          Int.tdiv (now - last) 1000000000 > GoMap.get eg.appBreachDurationMap app 0 := by
      rw [List.mem_map]
      constructor
      · rintro ⟨⟨a, last⟩, he, rfl⟩
        rw [List.mem_filter] at he
        exact ⟨last, AList.mem_lookup_iff.2 he.1, by simpa using he.2⟩
      · rintro ⟨last, hl, hgt⟩
        exact ⟨⟨app, last⟩, List.mem_filter.2 ⟨AList.mem_lookup_iff.1 hl, by simpa using hgt⟩, rfl⟩
    cases hl : AList.lookup app eg.appLatestRequestTimeMap with
    | none =>
      apply List.count_eq_zero_of_not_mem
      rw [hmem, hl]
      rintro ⟨last, h, _⟩
      cases h
    | some last =>
      by_cases hgt : Int.tdiv (now - last) 1000000000 > GoMap.get eg.appBreachDurationMap app 0
      · simp only [hgt, if_true]
        exact List.count_eq_one_of_mem hnodup (hmem.2 ⟨last, hl, hgt⟩)
      · simp only [hgt, if_false]
        apply List.count_eq_zero_of_not_mem
        rw [hmem, hl]
        rintro ⟨last2, h, hgt2⟩
        cases h
        exact hgt hgt2

/-! ## The telemetry filter -/

/-- C12. Telemetry filter: for every batch of envelopes and every enrollment
snapshot, `filterEnvelopes` sends on the envelope channel exactly the
envelopes whose `source_id` is a key of the snapshot and whose message is a
Timer named "http", each once and in the order received (the sub-sequence of
the batch); so a Gauge envelope, a Timer with another name and an envelope
of an app that is not enrolled are never sent. -/
theorem filterEnvelopes_forwards (apps : GoMap Int) (envelops : List Envelope) :
    filterEnvelopes apps envelops =
      envelops.filter (fun e =>
        decide (e.SourceId ∈ apps.keys) && decide (e.Message = EnvelopeMessage.Timer "http")) ∧
    (filterEnvelopes apps envelops).Sublist envelops ∧
    (∀ e ∈ filterEnvelopes apps envelops,
      e.SourceId ∈ apps.keys ∧ e.Message = EnvelopeMessage.Timer "http") := by
  have hbody : (fun (chan : List Envelope) (e : Envelope) =>
      if GoMap.has apps e.SourceId then
        match e.Message with
        | EnvelopeMessage.Timer name => if name = "http" then chan ++ [e] else chan
        | _ => chan
      else chan) =
      (fun chan e =>
        if e.SourceId ∈ apps.keys ∧ e.Message = EnvelopeMessage.Timer "http"
        then chan ++ [id e] else chan) := by
    funext chan e
    by_cases hk : e.SourceId ∈ apps.keys
    · have hhas : GoMap.has apps e.SourceId = true :=
        (GoMap.has_iff_mem apps e.SourceId).2 (AList.mem_keys.2 hk)
      cases hm : e.Message with
      | Timer name =>
        by_cases hn : name = "http"
        · simp [hhas, hk, hn]
        · simp [hhas, hk, hn]
      | Unset => simp [hhas, hk]
      | Log => simp [hhas, hk]
      | Counter name => simp [hhas, hk]
      | Gauge => simp [hhas, hk]
      | Event => simp [hhas, hk]
    · have hhas : GoMap.has apps e.SourceId = false := by
        cases hb : GoMap.has apps e.SourceId with
        | false => rfl
        | true => exact absurd (AList.mem_keys.1 ((GoMap.has_iff_mem apps e.SourceId).1 hb)) hk
      simp [hhas, hk]
  have heq : filterEnvelopes apps envelops =
      envelops.filter (fun e =>
        decide (e.SourceId ∈ apps.keys) && decide (e.Message = EnvelopeMessage.Timer "http")) := by
    unfold filterEnvelopes
    rw [hbody, foldl_push]
    simp [Bool.decide_and]
  refine ⟨heq, ?_, ?_⟩
  · rw [heq]
    exact List.filter_sublist _
  · intro e he
    rw [heq, List.mem_filter] at he
    simpa using he.2

/-! ## The route maps under `refreshApps` -/

theorem lookup_foldl_delete (routes : List String) (m : GoMap String) (h : String) :
    AList.lookup h (routes.foldl (fun m r => GoMap.delete m r) m) =
      if h ∈ routes then none else AList.lookup h m := by
  induction routes generalizing m with
  | nil => simp
  | cons r routes ih =>
    rw [List.foldl_cons, ih]
    by_cases hr : h = r
    · subst hr
      simp [GoMap.delete]
    · by_cases hmem : h ∈ routes
      · simp [hmem]
      · simp [hmem, hr, GoMap.delete, AList.lookup_erase_ne hr]

theorem lookup_foldl_set (routes : List String) (m : GoMap String) (appId h : String) :
    AList.lookup h (routes.foldl (fun m r => GoMap.set m r appId) m) =
      if h ∈ routes then some appId else AList.lookup h m := by
  induction routes generalizing m with
  | nil => simp
  | cons r routes ih =>
    rw [List.foldl_cons, ih]
    by_cases hr : h = r
    · subst hr
      by_cases hmem : h ∈ routes
      · simp [hmem]
      · simp [hmem, GoMap.set]
    · by_cases hmem : h ∈ routes
      · simp [hmem]
      · simp [hmem, hr, GoMap.set, AList.lookup_insert_ne hr]

theorem newAppList_eq (rm : RouteManager) (appMap : GoMap Int) :
    RouteManager.newAppList rm appMap =
      appMap.keys.filter (fun a => decide (GoMap.has rm.appRoutesMap a = false)) := by
  unfold RouteManager.newAppList
  have hbody : (fun (l : List String) (appId : String) =>
      if (!GoMap.has rm.appRoutesMap appId) = true then l ++ [appId] else l) =
      (fun l appId => if GoMap.has rm.appRoutesMap appId = false then l ++ [id appId] else l) := by
    funext l appId
    cases GoMap.has rm.appRoutesMap appId <;> simp
  rw [hbody, foldl_push]
  simp

theorem staleAppList_eq (rm : RouteManager) (appMap : GoMap Int) :
    RouteManager.staleAppList rm appMap =
      rm.appRoutesMap.keys.filter (fun a => decide (GoMap.has appMap a = false)) := by
  unfold RouteManager.staleAppList
  have hbody : (fun (l : List String) (appId : String) =>
      if (!GoMap.has appMap appId) = true then l ++ [appId] else l) =
      (fun l appId => if GoMap.has appMap appId = false then l ++ [id appId] else l) := by
    funext l appId
    cases GoMap.has appMap appId <;> simp
  rw [hbody, foldl_push]
  simp

theorem dropStaleApp_appRoutes (rm : RouteManager) (S : String) :
    (RouteManager.dropStaleApp rm S).appRoutesMap = GoMap.delete rm.appRoutesMap S := by
  unfold RouteManager.dropStaleApp
  cases AList.lookup S rm.appRoutesMap <;> rfl

theorem dropStaleApp_routeApp (rm : RouteManager) (S h : String) :
    AList.lookup h (RouteManager.dropStaleApp rm S).routeAppMap =
      match AList.lookup S rm.appRoutesMap with
      | some routes => if h ∈ routes then none else AList.lookup h rm.routeAppMap
      | none => AList.lookup h rm.routeAppMap := by
  unfold RouteManager.dropStaleApp
  cases AList.lookup S rm.appRoutesMap with
  | none => rfl
  | some routes => exact lookup_foldl_delete routes rm.routeAppMap h

theorem dropStaleApp_frame (rm : RouteManager) (S : String) :
    (RouteManager.dropStaleApp rm S).temporaryDisabledAppMap = rm.temporaryDisabledAppMap ∧
    (RouteManager.dropStaleApp rm S).routeListenerIP = rm.routeListenerIP ∧
    (RouteManager.dropStaleApp rm S).routeListenerPort = rm.routeListenerPort := by
  unfold RouteManager.dropStaleApp
  cases AList.lookup S rm.appRoutesMap <;> exact ⟨rfl, rfl, rfl⟩

theorem dropStaleApp_lists (rm : RouteManager) (S a h : String) :
    RouteManager.Lists (RouteManager.dropStaleApp rm S) a h ↔
      a ≠ S ∧ RouteManager.Lists rm a h := by
  unfold RouteManager.Lists
  rw [dropStaleApp_appRoutes]
  by_cases ha : a = S
  · subst ha
    simp [GoMap.delete]
  · simp [GoMap.delete, AList.lookup_erase_ne ha, ha]

theorem addNewApp_lists (g : String → Reply (List String)) (st : RouteManager × List String)
    (N a h : String) (hok : (g N).err = none) :
    RouteManager.Lists (RouteManager.addNewApp g st N).1 a h ↔
      (a = N ∧ h ∈ (g N).value) ∨ (a ≠ N ∧ RouteManager.Lists st.1 a h) := by
  unfold RouteManager.Lists RouteManager.addNewApp
  simp only [hok]
  by_cases ha : a = N
  · subst ha
    simp [GoMap.set]
  · simp [GoMap.set, AList.lookup_insert_ne ha, ha]

theorem addNewApp_routeApp (g : String → Reply (List String)) (st : RouteManager × List String)
    (N h : String) (hok : (g N).err = none) :
    AList.lookup h (RouteManager.addNewApp g st N).1.routeAppMap =
      if h ∈ (g N).value then some N else AList.lookup h st.1.routeAppMap := by
  unfold RouteManager.addNewApp
  simp only [hok]
  exact lookup_foldl_set (g N).value st.1.routeAppMap N h

theorem addNewApp_failed (g : String → Reply (List String)) (st : RouteManager × List String)
    (N e : String) (herr : (g N).err = some e) :
    (RouteManager.addNewApp g st N).1 = st.1 := by
  unfold RouteManager.addNewApp
  simp only [herr]

theorem addNewApp_frame (g : String → Reply (List String)) (st : RouteManager × List String)
    (N : String) :
    (RouteManager.addNewApp g st N).1.temporaryDisabledAppMap = st.1.temporaryDisabledAppMap ∧
    (RouteManager.addNewApp g st N).1.routeListenerIP = st.1.routeListenerIP ∧
    (RouteManager.addNewApp g st N).1.routeListenerPort = st.1.routeListenerPort := by
  unfold RouteManager.addNewApp
  cases herr : (g N).err with
  | none => simp [herr]
  | some e => simp [herr]

theorem dropStaleApp_forward (rm : RouteManager) (S : String)
    (hF : ∀ h a, AList.lookup h rm.routeAppMap = some a → RouteManager.Lists rm a h) :
    ∀ h a, AList.lookup h (RouteManager.dropStaleApp rm S).routeAppMap = some a →
      RouteManager.Lists (RouteManager.dropStaleApp rm S) a h := by
  intro h a hl
  rw [dropStaleApp_routeApp] at hl
  rw [dropStaleApp_lists]
  cases hS : AList.lookup S rm.appRoutesMap with
  | none =>
    rw [hS] at hl
    have hlist := hF h a hl
    refine ⟨?_, hlist⟩
    rintro rfl
    obtain ⟨routes, hr, _⟩ := hlist
    rw [hS] at hr
    cases hr
  | some routes =>
    rw [hS] at hl
    by_cases hmem : h ∈ routes
    · simp [hmem] at hl
    · simp only [hmem, if_false] at hl
      have hlist := hF h a hl
      refine ⟨?_, hlist⟩
      rintro rfl
      obtain ⟨routes2, hr, hh⟩ := hlist
      rw [hS] at hr
      cases hr
      exact hmem hh

theorem dropStaleApp_backward (owner : String → String) (rm : RouteManager) (S : String)
    (hO : ∀ a h, RouteManager.Lists rm a h → owner h = a)
    (hB : ∀ h a, RouteManager.Lists rm a h → AList.lookup h rm.routeAppMap = some a) :
    (∀ a h, RouteManager.Lists (RouteManager.dropStaleApp rm S) a h → owner h = a) ∧
    (∀ h a, RouteManager.Lists (RouteManager.dropStaleApp rm S) a h →
      AList.lookup h (RouteManager.dropStaleApp rm S).routeAppMap = some a) := by
  constructor
  · intro a h hl
    exact hO a h ((dropStaleApp_lists rm S a h).1 hl).2
  · intro h a hl
    obtain ⟨hne, hlist⟩ := (dropStaleApp_lists rm S a h).1 hl
    rw [dropStaleApp_routeApp]
    cases hS : AList.lookup S rm.appRoutesMap with
    | none => exact hB h a hlist
    | some routes =>
      have hnot : h ∉ routes := by
        intro hmem
        have h1 := hO S h ⟨routes, hS, hmem⟩
        have h2 := hO a h hlist
        exact hne (h2.symm.trans h1)
      simp only [hnot, if_false]
      exact hB h a hlist

theorem addNewApp_forward (g : String → Reply (List String)) (st : RouteManager × List String)
    (N : String) (hnew : N ∉ st.1.appRoutesMap)
    (hF : ∀ h a, AList.lookup h st.1.routeAppMap = some a → RouteManager.Lists st.1 a h) :
    ∀ h a, AList.lookup h (RouteManager.addNewApp g st N).1.routeAppMap = some a →
      RouteManager.Lists (RouteManager.addNewApp g st N).1 a h := by
  intro h a hl
  cases herr : (g N).err with
  | some e =>
    rw [addNewApp_failed g st N e herr] at hl ⊢
    exact hF h a hl
  | none =>
    rw [addNewApp_routeApp g st N h herr] at hl
    rw [addNewApp_lists g st N a h herr]
    by_cases hmem : h ∈ (g N).value
    · simp only [hmem, if_true, Option.some.injEq] at hl
      exact Or.inl ⟨hl.symm, hmem⟩
    · simp only [hmem, if_false] at hl
      have hlist := hF h a hl
      refine Or.inr ⟨?_, hlist⟩
      rintro rfl
      obtain ⟨routes, hr, _⟩ := hlist
      exact hnew (AList.lookup_isSome.1 (by rw [hr]; rfl))

theorem addNewApp_backward (owner : String → String) (g : String → Reply (List String))
    (st : RouteManager × List String) (N : String)
    (hg : (g N).err = none → ∀ h ∈ (g N).value, owner h = N)
    (hO : ∀ a h, RouteManager.Lists st.1 a h → owner h = a)
    (hB : ∀ h a, RouteManager.Lists st.1 a h → AList.lookup h st.1.routeAppMap = some a) :
    (∀ a h, RouteManager.Lists (RouteManager.addNewApp g st N).1 a h → owner h = a) ∧
    (∀ h a, RouteManager.Lists (RouteManager.addNewApp g st N).1 a h →
      AList.lookup h (RouteManager.addNewApp g st N).1.routeAppMap = some a) := by
  cases herr : (g N).err with
  | some e =>
    rw [addNewApp_failed g st N e herr]
    exact ⟨hO, hB⟩
  | none =>
    constructor
    · intro a h hl
      rcases (addNewApp_lists g st N a h herr).1 hl with ⟨rfl, hmem⟩ | ⟨_, hlist⟩
      · exact hg herr h hmem
      · exact hO a h hlist
    · intro h a hl
      rw [addNewApp_routeApp g st N h herr]
      rcases (addNewApp_lists g st N a h herr).1 hl with ⟨rfl, hmem⟩ | ⟨hne, hlist⟩
      · simp only [hmem, if_true]
      · have hnot : h ∉ (g N).value := by
          intro hmem
          exact hne ((hO a h hlist).symm.trans (hg herr h hmem))
        simp only [hnot, if_false]
        exact hB h a hlist

theorem foldl_dropStaleApp (P : RouteManager → Prop)
    (hstep : ∀ rm S, P rm → P (RouteManager.dropStaleApp rm S)) (l : List String)
    (rm : RouteManager) (h : P rm) : P (l.foldl RouteManager.dropStaleApp rm) := by
  induction l generalizing rm with
  | nil => exact h
  | cons S l ih => exact ih _ (hstep rm S h)

theorem foldl_dropStaleApp_mem (l : List String) (rm : RouteManager) (a : String)
    (h : a ∈ (l.foldl RouteManager.dropStaleApp rm).appRoutesMap) : a ∈ rm.appRoutesMap := by
  induction l generalizing rm with
  | nil => exact h
  | cons S l ih =>
    have h1 := ih _ h
    rw [dropStaleApp_appRoutes] at h1
    exact (AList.mem_erase.1 h1).2

theorem addNewApp_mem (g : String → Reply (List String)) (st : RouteManager × List String)
    (N a : String) (h : a ∈ (RouteManager.addNewApp g st N).1.appRoutesMap) :
    a = N ∨ a ∈ st.1.appRoutesMap := by
  cases herr : (g N).err with
  | some e =>
    rw [addNewApp_failed g st N e herr] at h
    exact Or.inr h
  | none =>
    unfold RouteManager.addNewApp at h
    simp only [herr] at h
    exact (AList.mem_insert _).1 h

theorem foldl_addNewApp_forward (g : String → Reply (List String)) (l : List String)
    (st : RouteManager × List String) (hnodup : l.Nodup)
    (hnew : ∀ N ∈ l, N ∉ st.1.appRoutesMap)
    (hF : ∀ h a, AList.lookup h st.1.routeAppMap = some a → RouteManager.Lists st.1 a h) :
    ∀ h a, AList.lookup h (l.foldl (RouteManager.addNewApp g) st).1.routeAppMap = some a →
      RouteManager.Lists (l.foldl (RouteManager.addNewApp g) st).1 a h := by
  induction l generalizing st with
  | nil => exact hF
  | cons N l ih =>
    rw [List.nodup_cons] at hnodup
    apply ih _ hnodup.2
    · intro M hM hmem
      rcases addNewApp_mem g st N M hmem with rfl | h
      · exact hnodup.1 hM
      · exact hnew M (List.mem_cons_of_mem _ hM) h
    · exact addNewApp_forward g st N (hnew N (List.mem_cons_self _ _)) hF

theorem foldl_addNewApp_backward (owner : String → String) (g : String → Reply (List String))
    (hg : ∀ a, (g a).err = none → ∀ h ∈ (g a).value, owner h = a)
    (l : List String) (st : RouteManager × List String)
    (hO : ∀ a h, RouteManager.Lists st.1 a h → owner h = a)
    (hB : ∀ h a, RouteManager.Lists st.1 a h → AList.lookup h st.1.routeAppMap = some a) :
    (∀ a h, RouteManager.Lists (l.foldl (RouteManager.addNewApp g) st).1 a h → owner h = a) ∧
    (∀ h a, RouteManager.Lists (l.foldl (RouteManager.addNewApp g) st).1 a h →
      AList.lookup h (l.foldl (RouteManager.addNewApp g) st).1.routeAppMap = some a) := by
  induction l generalizing st with
  | nil => exact ⟨hO, hB⟩
  | cons N l ih =>
    have hstep := addNewApp_backward owner g st N (hg N) hO hB
    exact ih _ hstep.1 hstep.2

theorem refreshApps_forward (rm : RouteManager) (appMap : GoMap Int)
    (g : String → Reply (List String))
    (hF : ∀ h a, AList.lookup h rm.routeAppMap = some a → RouteManager.Lists rm a h) :
    ∀ h a, AList.lookup h (RouteManager.refreshApps rm appMap g).1.routeAppMap = some a →
      RouteManager.Lists (RouteManager.refreshApps rm appMap g).1 a h := by
  unfold RouteManager.refreshApps
  apply foldl_addNewApp_forward
  · rw [newAppList_eq]
    exact List.Nodup.sublist (List.filter_sublist _) appMap.keys_nodup
  · intro N hN hmem
    rw [newAppList_eq, List.mem_filter] at hN
    have hhas : GoMap.has rm.appRoutesMap N = false := by simpa using hN.2
    have hin := foldl_dropStaleApp_mem _ rm N hmem
    rw [← GoMap.has_iff_mem, hhas] at hin
    cases hin
  · exact foldl_dropStaleApp
      (fun rm => ∀ h a, AList.lookup h rm.routeAppMap = some a → RouteManager.Lists rm a h)
      (fun rm S h => dropStaleApp_forward rm S h) _ rm hF

theorem refreshApps_backward (owner : String → String) (rm : RouteManager)
    (appMap : GoMap Int) (g : String → Reply (List String))
    (hg : ∀ a, (g a).err = none → ∀ h ∈ (g a).value, owner h = a)
    (hO : ∀ a h, RouteManager.Lists rm a h → owner h = a)
    (hB : ∀ h a, RouteManager.Lists rm a h → AList.lookup h rm.routeAppMap = some a) :
    (∀ a h, RouteManager.Lists (RouteManager.refreshApps rm appMap g).1 a h → owner h = a) ∧
    (∀ h a, RouteManager.Lists (RouteManager.refreshApps rm appMap g).1 a h →
      AList.lookup h (RouteManager.refreshApps rm appMap g).1.routeAppMap = some a) := by
  unfold RouteManager.refreshApps
  have hstale := foldl_dropStaleApp
    (fun rm => (∀ a h, RouteManager.Lists rm a h → owner h = a) ∧
      (∀ h a, RouteManager.Lists rm a h → AList.lookup h rm.routeAppMap = some a))
    (fun rm S h => dropStaleApp_backward owner rm S h.1 h.2)
    (RouteManager.staleAppList rm appMap) rm ⟨hO, hB⟩
  exact foldl_addNewApp_backward owner g hg _ _ hstale.1 hstale.2

/-! ## The route-map invariant -/

theorem DisableAppRoutes_state (rm : RouteManager) (appID : String) :
    (RouteManager.DisableAppRoutes rm appID).1 =
      { rm with
        temporaryDisabledAppMap := GoMap.set rm.temporaryDisabledAppMap appID true } := by
  unfold RouteManager.DisableAppRoutes
  simp only
  cases AList.lookup appID rm.appRoutesMap with
  | none => rfl
  | some routes =>
    simp only
    split <;> rfl

theorem reachable_forward (ok : String → List String → Prop) (rm : RouteManager)
    (hr : RouteManager.Reachable ok rm) :
    ∀ h a, AList.lookup h rm.routeAppMap = some a → RouteManager.Lists rm a h := by
  induction hr with
  | init ip port =>
    intro h a hl
    simp [NewRouteManager, GoMap.empty] at hl
  | refresh rm appMap g _ _ ih => exact refreshApps_forward rm appMap g ih
  | disable rm appID _ ih =>
    rw [DisableAppRoutes_state]
    exact ih
  | enable rm appID _ ih => exact ih

theorem reachable_backward (owner : String → String) (rm : RouteManager)
    (hr : RouteManager.Reachable (fun a routes => ∀ h ∈ routes, owner h = a) rm) :
    (∀ a h, RouteManager.Lists rm a h → owner h = a) ∧
    (∀ h a, RouteManager.Lists rm a h → AList.lookup h rm.routeAppMap = some a) := by
  induction hr with
  | init ip port =>
    constructor
    · rintro a h ⟨routes, hl, _⟩
      simp [NewRouteManager, GoMap.empty] at hl
    · rintro h a ⟨routes, hl, _⟩
      simp [NewRouteManager, GoMap.empty] at hl
  | refresh rm appMap g _ hg ih => exact refreshApps_backward owner rm appMap g hg ih.1 ih.2
  | disable rm appID _ ih =>
    rw [DisableAppRoutes_state]
    exact ih
  | enable rm appID _ ih => exact ih

/-- C13, as the code has it.  In every route-manager state reachable from
the empty one by `refreshApps` (any registry snapshots, any `GetAppRoutes`
results), `DisableAppRoutes` and `EnableAppRoutes`, `route_app[h] = a`
implies that `h` is in `app_routes[a]`.  When the platform never returns one
hostname for two different apps (each hostname `h` has one app `owner h`),
the converse holds too, so `route_app[h] = a` if and only if `h` is in
`app_routes[a]`, and every hostname is in the route list of at most one
app. -/
theorem route_map_invariant :
    (∀ rm, RouteManager.Reachable (fun _ _ => True) rm →
      ∀ h a, AList.lookup h rm.routeAppMap = some a → RouteManager.Lists rm a h) ∧
    (∀ (owner : String → String) rm,
      RouteManager.Reachable (fun a routes => ∀ h ∈ routes, owner h = a) rm →
      RouteManager.RouteMapInvariant rm ∧
      ∀ h a b, RouteManager.Lists rm a h → RouteManager.Lists rm b h → a = b) := by
  refine ⟨fun rm hr => reachable_forward _ rm hr, ?_⟩
  intro owner rm hr
  have hb := reachable_backward owner rm hr
  refine ⟨fun h a => ⟨reachable_forward _ rm hr h a, hb.2 h a⟩, ?_⟩
  intro h a b ha hb2
  exact (hb.1 a h ha).symm.trans (hb.1 b h hb2)

/-- Witness of C13 as the code has it: after a refresh in which `A` and `B`
get one route each, both directions hold. -/
theorem route_map_invariant_witness :
    RouteManager.RouteMapInvariant
        (RouteManager.refreshApps (NewRouteManager "10.0.0.1" 8080) appsAB ownRoutes).1 ∧
      ∀ h a b,
        RouteManager.Lists
          (RouteManager.refreshApps (NewRouteManager "10.0.0.1" 8080) appsAB ownRoutes).1 a h →
        RouteManager.Lists
          (RouteManager.refreshApps (NewRouteManager "10.0.0.1" 8080) appsAB ownRoutes).1 b h →
        a = b :=
  route_map_invariant.2 ownOwner _
    (RouteManager.Reachable.refresh _ appsAB ownRoutes (RouteManager.Reachable.init _ _)
      (by
        intro a herr h hmem
        unfold ownRoutes at herr hmem
        unfold ownOwner
        by_cases hA : a = "A"
        · simp only [hA, if_true, List.mem_singleton] at hmem
          simp [hmem, hA]
        · by_cases hB : a = "B"
          · simp only [hB, if_true, List.mem_singleton] at hmem
            rw [if_neg (by decide)] at hmem
            simp only [List.mem_singleton] at hmem
            simp [hmem, hB]
          · simp [hA, hB] at herr))

/-- C13 fails as stated: from the empty state, one `refreshApps` with the
apps `A` and `B` enrolled, both mapped by the platform to the route
`shop.example.com`, leaves `route_app[shop.example.com] = A` while the
hostname is in `app_routes[B]` too. -/
theorem route_map_counterexample :
    RouteManager.Reachable (fun _ _ => True)
      (RouteManager.refreshApps (NewRouteManager "10.0.0.1" 8080) appsAB sharedRoutes).1 ∧
    RouteManager.Lists
      (RouteManager.refreshApps (NewRouteManager "10.0.0.1" 8080) appsAB sharedRoutes).1
      "B" "shop.example.com" ∧
    RouteManager.Lists
      (RouteManager.refreshApps (NewRouteManager "10.0.0.1" 8080) appsAB sharedRoutes).1
      "A" "shop.example.com" ∧
    AList.lookup "shop.example.com"
      (RouteManager.refreshApps (NewRouteManager "10.0.0.1" 8080) appsAB sharedRoutes).1.routeAppMap =
      some "A" ∧
    ¬ RouteManager.RouteMapInvariant
      (RouteManager.refreshApps (NewRouteManager "10.0.0.1" 8080) appsAB sharedRoutes).1 := by
  have hB : RouteManager.Lists
      (RouteManager.refreshApps (NewRouteManager "10.0.0.1" 8080) appsAB sharedRoutes).1
      "B" "shop.example.com" := ⟨["shop.example.com"], by decide, by decide⟩
  have hA : RouteManager.Lists
      (RouteManager.refreshApps (NewRouteManager "10.0.0.1" 8080) appsAB sharedRoutes).1
      "A" "shop.example.com" := ⟨["shop.example.com"], by decide, by decide⟩
  have hl : AList.lookup "shop.example.com"
      (RouteManager.refreshApps (NewRouteManager "10.0.0.1" 8080) appsAB sharedRoutes).1.routeAppMap =
      some "A" := by decide
  refine ⟨RouteManager.Reachable.refresh _ _ _ (RouteManager.Reachable.init _ _)
    (fun _ _ => trivial), hB, hA, hl, ?_⟩
  intro hinv
  have h2 := (hinv "shop.example.com" "B").2 hB
  rw [hl] at h2
  exact absurd h2 (by decide)

/-! ## The send-routes pass -/

theorem foldl_push_all (α β : Type) (f : α → β) (l : List α) (acc : List β) :
    l.foldl (fun chan a => chan ++ [f a]) acc = acc ++ l.map f := by
  induction l generalizing acc with
  | nil => simp
  | cons a l ih =>
    rw [List.foldl_cons, ih]
    simp

theorem foldl_push_lists (α β : Type) (c : α → Bool) (f : α → List β) (l : List α)
    (acc : List β) :
    l.foldl (fun chan a => if c a then chan else chan ++ f a) acc =
      acc ++ ((l.filter (fun a => !c a)).map f).flatten := by
  induction l generalizing acc with
  | nil => simp
  | cons a l ih =>
    rw [List.foldl_cons, ih]
    cases hc : c a
    · simp [hc, List.filter_cons]
    · simp [hc, List.filter_cons]

theorem sendRoutes_eq (rm : RouteManager) :
    (RouteManager.sendRoutes rm).2 =
      ((rm.appRoutesMap.entries.filter (fun e => !RouteManager.suppressed rm e.1)).map
        (fun e => RouteManager.routeEntityList rm e.2)).flatten := by
  unfold RouteManager.sendRoutes
  simp only
  have hbody : (fun (chan : List RouteEntity) (e : (_ : String) × List String) =>
      if GoMap.get rm.temporaryDisabledAppMap e.1 false = true then chan
      else
        e.2.foldl
          (fun chan route =>
            chan ++ [({ Route := route, IP := rm.routeListenerIP,
                        Port := rm.routeListenerPort, TTL := 120 } : RouteEntity)])
          chan) =
      (fun chan e => if RouteManager.suppressed rm e.1 then chan
        else chan ++ RouteManager.routeEntityList rm e.2) := by
    funext chan e
    rw [foldl_push_all]
    rfl
  rw [hbody, foldl_push_lists]
  simp

/-- C14. Send-routes: one `sendRoutes` pass sends on `route_chan` the
concatenation, over the apps of `app_routes` that are not suppressed (in
range order), of the entities `RouteEntity{Route: h, IP: listener_ip, Port:
listener_port, TTL: 120}` for the hostnames `h` of the app's route list, in
list order: one entity for each hostname of each such app, none for a
suppressed app; the route-manager state is left as it was. -/
theorem sendRoutes_emits (rm : RouteManager) :
    (RouteManager.sendRoutes rm).1 = rm ∧
    (RouteManager.sendRoutes rm).2 =
      ((rm.appRoutesMap.entries.filter (fun e => !RouteManager.suppressed rm e.1)).map
        (fun e => e.2.map (fun h =>
          ({ Route := h, IP := rm.routeListenerIP, Port := rm.routeListenerPort,
             TTL := 120 } : RouteEntity)))).flatten ∧
    (∀ x, x ∈ (RouteManager.sendRoutes rm).2 ↔
      ∃ a routes, AList.lookup a rm.appRoutesMap = some routes ∧
        RouteManager.suppressed rm a = false ∧
        ∃ h ∈ routes, x = { Route := h, IP := rm.routeListenerIP,
                            Port := rm.routeListenerPort, TTL := 120 }) := by
  refine ⟨rfl, sendRoutes_eq rm, ?_⟩
  intro x
  rw [sendRoutes_eq, List.mem_flatten]
  constructor
  · rintro ⟨l, hl, hx⟩
    rw [List.mem_map] at hl
    obtain ⟨⟨a, routes⟩, he, rfl⟩ := hl
    rw [List.mem_filter] at he
    simp only [RouteManager.routeEntityList, List.mem_map] at hx
    obtain ⟨h, hh, rfl⟩ := hx
    exact ⟨a, routes, AList.mem_lookup_iff.2 he.1, by simpa using he.2, h, hh, rfl⟩
  · rintro ⟨a, routes, hl, hs, h, hh, rfl⟩
    refine ⟨RouteManager.routeEntityList rm routes, ?_, ?_⟩
    · rw [List.mem_map]
      exact ⟨⟨a, routes⟩, List.mem_filter.2 ⟨AList.mem_lookup_iff.1 hl, by simpa using hs⟩, rfl⟩
    · simp only [RouteManager.routeEntityList, List.mem_map]
      exact ⟨h, hh, rfl⟩

/-! ## Go maps: assignments and deletions -/

theorem GoMap.delete_of_not_mem {V : Type} (m : GoMap V) (k : String) (h : k ∉ m) :
    GoMap.delete m k = m := by
  apply AList.ext
  simp only [GoMap.delete, AList.erase]
  exact List.kerase_of_not_mem_keys (fun hk => h (AList.mem_keys.2 hk))

theorem GoMap.delete_delete {V : Type} (m : GoMap V) (k : String) :
    GoMap.delete (GoMap.delete m k) k = GoMap.delete m k := by
  apply GoMap.delete_of_not_mem
  intro h
  exact (AList.mem_erase.1 h).1 rfl

theorem GoMap.delete_set {V : Type} (m : GoMap V) (k : String) (v : V) :
    GoMap.delete (GoMap.set m k v) k = GoMap.delete m k := by
  apply AList.ext
  simp only [GoMap.delete, GoMap.set, AList.erase, AList.insert_entries]
  exact List.kerase_cons_eq rfl

theorem GoMap.set_set {V : Type} (m : GoMap V) (k : String) (v v' : V) :
    GoMap.set (GoMap.set m k v) k v' = GoMap.set m k v' := by
  simp only [GoMap.set]
  exact AList.insert_insert m

theorem GoMap.get_delete_self {V : Type} (m : GoMap V) (k : String) (z : V) :
    GoMap.get (GoMap.delete m k) k z = z := by
  simp [GoMap.get, GoMap.delete]

theorem GoMap.get_delete_ne {V : Type} (m : GoMap V) {k k' : String} (z : V) (h : k' ≠ k) :
    GoMap.get (GoMap.delete m k) k' z = GoMap.get m k' z := by
  simp [GoMap.get, GoMap.delete, AList.lookup_erase_ne h]

/-! ## Suppressing and releasing the routes of an app -/

/-- C16. `DisableAppRoutes(app)` puts `app` into the suppressed set and
leaves the other apps as they were.  When `app` has a non-empty route list,
it issues exactly one `UnRegisterRoutes` request, whose argument lists in
order `RouteEntity{Route: h, IP: listener_ip, Port: listener_port, TTL: 120}`
for each hostname `h` of `app`; otherwise it issues no request.  `app_routes`
and `route_app` are unchanged, so `GetAppIDByRoute` answers as before. -/
theorem DisableAppRoutes_effect (rm : RouteManager) (appID : String) (w : World) (env : Env) :
    RouteManager.suppressed (RouteManager.DisableAppRoutes rm appID).1 appID = true ∧
    (∀ b, b ≠ appID →
      RouteManager.suppressed (RouteManager.DisableAppRoutes rm appID).1 b =
        RouteManager.suppressed rm b) ∧
    (RouteManager.DisableAppRoutes rm appID).1.appRoutesMap = rm.appRoutesMap ∧
    (RouteManager.DisableAppRoutes rm appID).1.routeAppMap = rm.routeAppMap ∧
    (∀ h, RouteManager.GetAppIDByRoute (RouteManager.DisableAppRoutes rm appID).1 h =
      RouteManager.GetAppIDByRoute rm h) ∧
    (RouteManager.DisableAppRoutes rm appID).2 =
      (match AList.lookup appID rm.appRoutesMap with
        | some (h :: routes) =>
          some ((h :: routes).map (fun h =>
            ({ Route := h, IP := rm.routeListenerIP, Port := rm.routeListenerPort,
               TTL := 120 } : RouteEntity)))
        | _ => none) ∧
    (w.disableAppRoutesFunc env appID).cfCalls =
      w.cfCalls ++
        (match (RouteManager.DisableAppRoutes w.routeManager appID).2 with
          | some l => [CfCall.UnRegisterRoutes l]
          | none => []) := by
  refine ⟨?_, ?_, ?_, ?_, ?_, ?_, ?_⟩
  · rw [DisableAppRoutes_state]
    exact GoMap.get_set_self _ _ _ _
  · intro b hb
    rw [DisableAppRoutes_state]
    exact GoMap.get_set_ne _ _ _ hb
  · rw [DisableAppRoutes_state]
  · rw [DisableAppRoutes_state]
  · intro h
    rw [DisableAppRoutes_state]
    rfl
  · unfold RouteManager.DisableAppRoutes
    simp only
    cases AList.lookup appID rm.appRoutesMap with
    | none => rfl
    | some routes =>
      cases routes with
      | nil => rfl
      | cons h routes => simp [RouteManager.routeEntityList]
  · unfold World.disableAppRoutesFunc
    rcases hd : RouteManager.DisableAppRoutes w.routeManager appID with ⟨rm2, _ | l⟩
    · simp [hd]
    · simp [hd, World.request]

/-- C17. `EnableAppRoutes(app)` removes `app` from the suppressed set and
changes nothing else; calling it twice is calling it once; for an app with
no entry in the suppressed set it leaves the state as it is; and after
`DisableAppRoutes(app)` it gives the state `EnableAppRoutes(app)` alone
gives: the suppressed set is what it was, without `app`. -/
theorem EnableAppRoutes_effect (rm : RouteManager) (appID : String) :
    RouteManager.suppressed (RouteManager.EnableAppRoutes rm appID) appID = false ∧
    (∀ b, b ≠ appID →
      RouteManager.suppressed (RouteManager.EnableAppRoutes rm appID) b =
        RouteManager.suppressed rm b) ∧
    (RouteManager.EnableAppRoutes rm appID).appRoutesMap = rm.appRoutesMap ∧
    (RouteManager.EnableAppRoutes rm appID).routeAppMap = rm.routeAppMap ∧
    (RouteManager.EnableAppRoutes rm appID).routeListenerIP = rm.routeListenerIP ∧
    (RouteManager.EnableAppRoutes rm appID).routeListenerPort = rm.routeListenerPort ∧
    RouteManager.EnableAppRoutes (RouteManager.EnableAppRoutes rm appID) appID =
      RouteManager.EnableAppRoutes rm appID ∧
    (appID ∉ rm.temporaryDisabledAppMap → RouteManager.EnableAppRoutes rm appID = rm) ∧
    RouteManager.EnableAppRoutes (RouteManager.DisableAppRoutes rm appID).1 appID =
      RouteManager.EnableAppRoutes rm appID ∧
    (∀ b, RouteManager.suppressed
        (RouteManager.EnableAppRoutes (RouteManager.DisableAppRoutes rm appID).1 appID) b =
      (decide (b ≠ appID) && RouteManager.suppressed rm b)) := by
  have hpair : RouteManager.EnableAppRoutes (RouteManager.DisableAppRoutes rm appID).1 appID =
      RouteManager.EnableAppRoutes rm appID := by
    rw [DisableAppRoutes_state]
    simp only [RouteManager.EnableAppRoutes, GoMap.delete_set]
  refine ⟨GoMap.get_delete_self _ _ _, fun b hb => GoMap.get_delete_ne _ _ hb, rfl, rfl, rfl,
    rfl, ?_, ?_, hpair, ?_⟩
  · simp only [RouteManager.EnableAppRoutes, GoMap.delete_delete]
  · intro h
    simp only [RouteManager.EnableAppRoutes, GoMap.delete_of_not_mem _ _ h]
  · intro b
    rw [hpair]
    by_cases hb : b = appID
    · subst hb
      simp [RouteManager.suppressed, RouteManager.EnableAppRoutes, GoMap.get_delete_self]
    · simp [RouteManager.suppressed, RouteManager.EnableAppRoutes, GoMap.get_delete_ne _ _ hb, hb]

/-! ## The enrollment registry -/

/-- C18. Registry Add/Remove, on the mapping the registry's map object holds.
After `AddApp(app, b)` the mapping sends `app` to `b` and every other entry
is as before; `AddApp(app, b)` twice gives the mapping it gives once, and of
two `AddApp` for one app the last breach value wins.  After `RemoveApp(app)`
the app is absent and every other entry is as before; `RemoveApp` twice
gives what it gives once, and `RemoveApp` of an app that is not enrolled
leaves the mapping as it is. -/
theorem registry_add_remove (am : AppManager) (heap : MapHeap) (app : String) (b b2 : Int) :
    AList.lookup app ((AppManager.AddApp am heap app b).contents am.applicationMap) = some b ∧
    (∀ a, a ≠ app →
      AList.lookup a ((AppManager.AddApp am heap app b).contents am.applicationMap) =
        AList.lookup a (heap.contents am.applicationMap)) ∧
    (AppManager.AddApp am (AppManager.AddApp am heap app b) app b).contents am.applicationMap =
      (AppManager.AddApp am heap app b).contents am.applicationMap ∧
    (AppManager.AddApp am (AppManager.AddApp am heap app b) app b2).contents am.applicationMap =
      (AppManager.AddApp am heap app b2).contents am.applicationMap ∧
    AList.lookup app ((AppManager.RemoveApp am heap app).contents am.applicationMap) = none ∧
    (∀ a, a ≠ app →
      AList.lookup a ((AppManager.RemoveApp am heap app).contents am.applicationMap) =
        AList.lookup a (heap.contents am.applicationMap)) ∧
    (AppManager.RemoveApp am (AppManager.RemoveApp am heap app) app).contents am.applicationMap =
      (AppManager.RemoveApp am heap app).contents am.applicationMap ∧
    (app ∉ heap.contents am.applicationMap →
      (AppManager.RemoveApp am heap app).contents am.applicationMap =
        heap.contents am.applicationMap) := by
  refine ⟨?_, ?_, ?_, ?_, ?_, ?_, ?_, ?_⟩
  · simp [AppManager.AddApp, GoMap.set]
  · intro a ha
    simp [AppManager.AddApp, GoMap.set, AList.lookup_insert_ne ha]
  · simp [AppManager.AddApp, GoMap.set_set]
  · simp [AppManager.AddApp, GoMap.set_set]
  · simp [AppManager.RemoveApp, GoMap.delete]
  · intro a ha
    simp [AppManager.RemoveApp, GoMap.delete, AList.lookup_erase_ne ha]
  · simp [AppManager.RemoveApp, GoMap.delete_delete]
  · intro h
    simp [AppManager.RemoveApp, GoMap.delete_of_not_mem _ _ h]

/-- Witness of C18: removing app `B`, which is not enrolled, from the registry
that holds app `A` only. -/
theorem registry_add_remove_witness :
    (AppManager.RemoveApp amA heapA "B").contents amA.applicationMap =
      heapA.contents amA.applicationMap :=
  (registry_add_remove amA heapA "B" 0 0).2.2.2.2.2.2.2 (by decide)

/-- C19, as the code has it.  `GetApplications` returns the registry's own map
object, not a copy: after a later `AddApp` or `RemoveApp` on the registry, a
mapping that was returned earlier holds the registry's new contents; map
objects at other addresses are not changed.  A reload, in contrast, gives the
registry a new map object and leaves a mapping returned before it as it
was, also under every `AddApp` and `RemoveApp` that follows. -/
theorem snapshot_is_live (am : AppManager) (heap : MapHeap) (app : String) (b : Int)
    (loaded : GoMap Int) :
    (AppManager.AddApp am heap app b).contents (AppManager.GetApplications am) =
      GoMap.set (heap.contents (AppManager.GetApplications am)) app b ∧
    (AppManager.RemoveApp am heap app).contents (AppManager.GetApplications am) =
      GoMap.delete (heap.contents (AppManager.GetApplications am)) app ∧
    (∀ r, r ≠ am.applicationMap →
      (AppManager.AddApp am heap app b).contents r = heap.contents r ∧
      (AppManager.RemoveApp am heap app).contents r = heap.contents r) ∧
    (am.applicationMap < heap.next →
      (AppManager.retrieve am heap (Except.ok loaded)).2.contents
          (AppManager.GetApplications am) =
        heap.contents (AppManager.GetApplications am) ∧
      (AppManager.AddApp (AppManager.retrieve am heap (Except.ok loaded)).1
          (AppManager.retrieve am heap (Except.ok loaded)).2 app b).contents
          (AppManager.GetApplications am) =
        heap.contents (AppManager.GetApplications am) ∧
      (AppManager.RemoveApp (AppManager.retrieve am heap (Except.ok loaded)).1
          (AppManager.retrieve am heap (Except.ok loaded)).2 app).contents
          (AppManager.GetApplications am) =
        heap.contents (AppManager.GetApplications am)) := by
  refine ⟨?_, ?_, ?_, ?_⟩
  · simp [AppManager.AddApp, AppManager.GetApplications]
  · simp [AppManager.RemoveApp, AppManager.GetApplications]
  · intro r hr
    simp [AppManager.AddApp, AppManager.RemoveApp, Function.update_noteq hr]
  · intro hlt
    have hne : am.applicationMap ≠ heap.next := Nat.ne_of_lt hlt
    refine ⟨?_, ?_, ?_⟩
    · simp [AppManager.retrieve, AppManager.GetApplications, Function.update_noteq hne]
    · simp [AppManager.retrieve, AppManager.AddApp, AppManager.GetApplications,
        Function.update_noteq hne]
    · simp [AppManager.retrieve, AppManager.RemoveApp, AppManager.GetApplications,
        Function.update_noteq hne]

/-- Witness of C19 as the code has it: the registry at address 0 is reloaded
with the enrollment of app `C`; the mapping returned before the reload still
holds app `A` only. -/
theorem snapshot_is_live_witness :
    (AppManager.retrieve amA heapA (Except.ok (GoMap.set GoMap.empty "C" 5))).2.contents
        (AppManager.GetApplications amA) =
      heapA.contents (AppManager.GetApplications amA) :=
  ((snapshot_is_live amA heapA "B" 30 (GoMap.set GoMap.empty "C" 5)).2.2.2 (by decide)).1

/-- C19 does not hold of the code: the registry holds app `A`;
`GetApplications` returns its mapping; `AddApp("B", 30)` then changes what
that mapping holds: it has an entry for `B`. -/
theorem snapshot_isolation_counterexample :
    ¬ AppManager.AddIsolated amA heapA "B" 30 ∧
    AList.lookup "B" (heapA.contents (AppManager.GetApplications amA)) = none ∧
    AList.lookup "B"
      ((AppManager.AddApp amA heapA "B" 30).contents (AppManager.GetApplications amA)) =
      some 30 := by
  have h1 : AList.lookup "B" (heapA.contents (AppManager.GetApplications amA)) = none := by
    decide
  have h2 : AList.lookup "B"
      ((AppManager.AddApp amA heapA "B" 30).contents (AppManager.GetApplications amA)) =
      some 30 := by decide
  refine ⟨?_, h1, h2⟩
  intro hiso
  unfold AppManager.AddIsolated at hiso
  rw [hiso, h1] at h2
  cases h2

/-! ## The history query -/

theorem selectScalingHistory_perm (table : List AppScalingHistory) (appId : String)
    (start end1 : Int) (orderStr : String) :
    (selectScalingHistory table appId start end1 orderStr).Perm
      (table.filter (fun r => decide (r.AppId = appId) && decide (start ≤ r.Timestamp) &&
        decide (r.Timestamp ≤ end1))) := by
  unfold selectScalingHistory
  simp only
  split
  · exact List.perm_insertionSort _ _
  · exact List.perm_insertionSort _ _

theorem selectScalingHistory_sorted (table : List AppScalingHistory) (appId : String)
    (start end1 : Int) (orderStr : String) :
    (orderStr = "DESC" →
      (selectScalingHistory table appId start end1 orderStr).Sorted
        (fun a b => a.Timestamp ≥ b.Timestamp)) ∧
    (orderStr ≠ "DESC" →
      (selectScalingHistory table appId start end1 orderStr).Sorted
        (fun a b => a.Timestamp ≤ b.Timestamp)) := by
  haveI h1 : IsTotal AppScalingHistory (fun a b => a.Timestamp ≥ b.Timestamp) :=
    ⟨fun a b => le_total b.Timestamp a.Timestamp⟩
  haveI h2 : IsTrans AppScalingHistory (fun a b => a.Timestamp ≥ b.Timestamp) :=
    ⟨fun a b c hab hbc => le_trans hbc hab⟩
  haveI h3 : IsTotal AppScalingHistory (fun a b => a.Timestamp ≤ b.Timestamp) :=
    ⟨fun a b => le_total a.Timestamp b.Timestamp⟩
  haveI h4 : IsTrans AppScalingHistory (fun a b => a.Timestamp ≤ b.Timestamp) :=
    ⟨fun a b c hab hbc => le_trans hab hbc⟩
  unfold selectScalingHistory
  constructor
  · intro h
    simp only [h, if_true]
    exact List.sorted_insertionSort _ _
  · intro h
    simp only [h, if_false]
    exact List.sorted_insertionSort _ _

theorem RetrieveScalingHistories_eq (table : List AppScalingHistory) (now : Int)
    (appId : String) (start end0 : Int) (orderType : Nat) (includeAll : Bool) :
    RetrieveScalingHistories table now none appId start end0 orderType includeAll =
      Except.ok
        ((selectScalingHistory table appId start (if end0 < 0 then now else end0)
            (if orderType = DESC then DESCSTR else ASCSTR)).filter
          (fun r => includeAll || decide (r.Status ≠ ScalingStatus.ScalingStatusIgnored))) := by
  unfold RetrieveScalingHistories
  simp only
  rw [foldl_push _ _
    (fun row : AppScalingHistory =>
      includeAll = true ∨
        ({ row with AppId := appId } : AppScalingHistory).Status ≠
          ScalingStatus.ScalingStatusIgnored)
    (fun row => ({ row with AppId := appId } : AppScalingHistory))]
  have hid : ∀ r ∈ (selectScalingHistory table appId start (if end0 < 0 then now else end0)
      (if orderType = DESC then DESCSTR else ASCSTR)).filter
      (fun row => decide (includeAll = true ∨
        ({ row with AppId := appId } : AppScalingHistory).Status ≠
          ScalingStatus.ScalingStatusIgnored)),
      ({ r with AppId := appId } : AppScalingHistory) = r := by
    intro r hr
    have hmem := (selectScalingHistory_perm table appId start _ _).mem_iff.1
      (List.mem_filter.1 hr).1
    have happ : r.AppId = appId := by
      have := (List.mem_filter.1 hmem).2
      simp only [Bool.and_eq_true, decide_eq_true_eq] at this
      exact this.1.1
    cases r
    simp only at happ
    simp [happ]
  rw [List.map_congr_left hid, List.map_id', List.nil_append]
  congr 1
  apply List.filter_congr
  intro r _
  simp [Bool.decide_or]

/-- C20. History query: for every table, `RetrieveScalingHistories` whose
query succeeds returns, each as often as it is in the table, the rows of the
app whose timestamp lies in `[start, end]` (a negative `end` standing for the
clock reading) when `includeAll` is true, and those of them whose status is
not Ignored when `includeAll` is false; they come back sorted by timestamp,
descending for `DESC` and ascending for `ASC`.  With the rows (100,
Succeeded), (200, Ignored), (300, Failed), start 0 and end 400: ascending
gives 100, 300; with `includeAll` 100, 200, 300; descending the reverse. -/
theorem RetrieveScalingHistories_result (table : List AppScalingHistory) (now : Int)
    (appId : String) (start end0 : Int) (orderType : Nat) (includeAll : Bool) :
    (∃ hs, RetrieveScalingHistories table now none appId start end0 orderType includeAll =
        Except.ok hs ∧
      hs.Perm ((table.filter (fun r => decide (r.AppId = appId) &&
          decide (start ≤ r.Timestamp) &&
          decide (r.Timestamp ≤ (if end0 < 0 then now else end0)))).filter
        (fun r => includeAll || decide (r.Status ≠ ScalingStatus.ScalingStatusIgnored))) ∧
      (∀ r, r ∈ hs ↔
        r ∈ table ∧ r.AppId = appId ∧ start ≤ r.Timestamp ∧
          r.Timestamp ≤ (if end0 < 0 then now else end0) ∧
          (includeAll = true ∨ r.Status ≠ ScalingStatus.ScalingStatusIgnored)) ∧
      (orderType = DESC → hs.Sorted (fun a b => a.Timestamp ≥ b.Timestamp)) ∧
      (orderType = ASC → hs.Sorted (fun a b => a.Timestamp ≤ b.Timestamp))) ∧
    RetrieveScalingHistories tableS6 1000 none "A" 0 400 ASC false =
      Except.ok [rowA 100 ScalingStatus.ScalingStatusSucceeded,
        rowA 300 ScalingStatus.ScalingStatusFailed] ∧
    RetrieveScalingHistories tableS6 1000 none "A" 0 400 ASC true =
      Except.ok [rowA 100 ScalingStatus.ScalingStatusSucceeded,
        rowA 200 ScalingStatus.ScalingStatusIgnored,
        rowA 300 ScalingStatus.ScalingStatusFailed] ∧
    RetrieveScalingHistories tableS6 1000 none "A" 0 400 DESC false =
      Except.ok [rowA 300 ScalingStatus.ScalingStatusFailed,
        rowA 100 ScalingStatus.ScalingStatusSucceeded] ∧
    RetrieveScalingHistories tableS6 1000 none "A" 0 400 DESC true =
      Except.ok [rowA 300 ScalingStatus.ScalingStatusFailed,
        rowA 200 ScalingStatus.ScalingStatusIgnored,
        rowA 100 ScalingStatus.ScalingStatusSucceeded] := by
  refine ⟨⟨_, RetrieveScalingHistories_eq table now appId start end0 orderType includeAll,
    ?_, ?_, ?_, ?_⟩, ?_, ?_, ?_, ?_⟩
  · exact (selectScalingHistory_perm table appId start _ _).filter _
  · intro r
    rw [((selectScalingHistory_perm table appId start _ _).filter _).mem_iff]
    simp only [List.mem_filter, Bool.and_eq_true, Bool.or_eq_true, decide_eq_true_eq]
    constructor
    · rintro ⟨⟨h1, ⟨h2, h3⟩, h4⟩, h5⟩
      exact ⟨h1, h2, h3, h4, h5⟩
    · rintro ⟨h1, h2, h3, h4, h5⟩
      exact ⟨⟨h1, ⟨h2, h3⟩, h4⟩, h5⟩
  · intro hd
    have hs := (selectScalingHistory_sorted table appId start
      (if end0 < 0 then now else end0) (if orderType = DESC then DESCSTR else ASCSTR)).1
      (by simp [hd, DESCSTR])
    exact List.Pairwise.sublist (List.filter_sublist _) hs
  · intro ha
    have hs := (selectScalingHistory_sorted table appId start
      (if end0 < 0 then now else end0) (if orderType = DESC then DESCSTR else ASCSTR)).2
      (by rw [ha]; decide)
    exact List.Pairwise.sublist (List.filter_sublist _) hs
  · rfl
  · rfl
  · rfl
  · rfl

/-! ## The engine and the send-routes pass -/

theorem refreshApps_frame (rm : RouteManager) (appMap : GoMap Int)
    (g : String → Reply (List String)) :
    (RouteManager.refreshApps rm appMap g).1.temporaryDisabledAppMap =
      rm.temporaryDisabledAppMap ∧
    (RouteManager.refreshApps rm appMap g).1.routeListenerIP = rm.routeListenerIP ∧
    (RouteManager.refreshApps rm appMap g).1.routeListenerPort = rm.routeListenerPort := by
  unfold RouteManager.refreshApps
  have hstale := foldl_dropStaleApp
    (fun r => r.temporaryDisabledAppMap = rm.temporaryDisabledAppMap ∧
      r.routeListenerIP = rm.routeListenerIP ∧ r.routeListenerPort = rm.routeListenerPort)
    (fun r S h => by
      have hf := dropStaleApp_frame r S
      exact ⟨hf.1.trans h.1, hf.2.1.trans h.2.1, hf.2.2.trans h.2.2⟩)
    (RouteManager.staleAppList rm appMap) rm ⟨rfl, rfl, rfl⟩
  have hnew : ∀ (l : List String) (st : RouteManager × List String),
      (st.1.temporaryDisabledAppMap = rm.temporaryDisabledAppMap ∧
        st.1.routeListenerIP = rm.routeListenerIP ∧
        st.1.routeListenerPort = rm.routeListenerPort) →
      ((l.foldl (RouteManager.addNewApp g) st).1.temporaryDisabledAppMap =
          rm.temporaryDisabledAppMap ∧
        (l.foldl (RouteManager.addNewApp g) st).1.routeListenerIP = rm.routeListenerIP ∧
        (l.foldl (RouteManager.addNewApp g) st).1.routeListenerPort =
          rm.routeListenerPort) := by
    intro l
    induction l with
    | nil => exact fun _ h => h
    | cons N l ih =>
      intro st h
      have hf := addNewApp_frame g st N
      exact ih _ ⟨hf.1.trans h.1, hf.2.1.trans h.2.1, hf.2.2.trans h.2.2⟩
  exact hnew _ _ hstale

theorem refreshMany_frame (passes : List (GoMap Int × (String → Reply (List String))))
    (rm : RouteManager) :
    (RouteManager.refreshMany rm passes).temporaryDisabledAppMap =
      rm.temporaryDisabledAppMap ∧
    (RouteManager.refreshMany rm passes).routeListenerIP = rm.routeListenerIP ∧
    (RouteManager.refreshMany rm passes).routeListenerPort = rm.routeListenerPort := by
  induction passes generalizing rm with
  | nil => exact ⟨rfl, rfl, rfl⟩
  | cons pass passes ih =>
    have h1 := ih (RouteManager.refreshApps rm pass.1 pass.2).1
    have h2 := refreshApps_frame rm pass.1 pass.2
    exact ⟨h1.1.trans h2.1, h1.2.1.trans h2.2.1, h1.2.2.trans h2.2.2⟩

theorem StartApp_routes (env : Env) (se : ScalingEngine) (w : World) (appID : String) :
    ∃ o, ScalingEngine.StartApp env se w appID = some o ∧
      (o.err = none →
        o.world.routeManager = (RouteManager.DisableAppRoutes w.routeManager appID).1) := by
  rcases StartApp_cases env se w appID with ⟨e, _, hres⟩ | ⟨_, K, _, ⟨_, hres⟩ | ⟨_, _, hres⟩⟩
  · exact ⟨_, hres, fun h => by cases h⟩
  · exact ⟨_, hres, fun h => by cases h⟩
  · refine ⟨_, hres, fun _ => ?_⟩
    have hfr := pollWorld_frame env (CfCall.GetAppRunningInstanceNumber appID)
      (fun n => (env.cf.GetAppRunningInstanceNumber appID n).took) K (startRequested env w appID)
    have hd := (disableAppRoutesFunc_frame
      ((startPollWorld env appID K (startRequested env w appID)).request
        (CfCall.GetAppRunningInstanceNumber appID)
        (env.cf.GetAppRunningInstanceNumber appID (w.cfCalls.length + 1 + K))) env appID).2.2.2
    simp only [World.SaveScalingHistory]
    rw [hd]
    simp only [World.request]
    rw [show (startPollWorld env appID K (startRequested env w appID)).routeManager =
      w.routeManager from hfr.2.2]

theorem StopApp_routes (env : Env) (se : ScalingEngine) (w : World) (trigger : Trigger) :
    ∃ o, ScalingEngine.StopApp env se w trigger = some o ∧
      ((Action.of trigger.AppID true w o).succeeded →
        o.world.routeManager = RouteManager.EnableAppRoutes w.routeManager trigger.AppID) := by
  have hnosucc : ∀ (o : Outcome) (P : Prop), o.world.scalingHistory = w.scalingHistory →
      (Action.of trigger.AppID true w o).succeeded → P := by
    intro o P h hs
    obtain ⟨_, r, hr, _⟩ := hs
    rw [rows_of_same w o _ true h] at hr
    cases hr
  have herrsucc : ∀ (o : Outcome) (P : Prop) (e : String), o.err = some e →
      (Action.of trigger.AppID true w o).succeeded → P := by
    intro o P e h hs
    have h1 : o.err = none := hs.1
    rw [h] at h1
    cases h1
  rcases StopApp_cases env se w trigger with ⟨_, hres⟩ | ⟨_, hpaths⟩
  · exact ⟨_, hres, hnosucc _ _ rfl⟩
  rcases hpaths with ⟨e, _, hres⟩ | ⟨_, _, hres⟩ | ⟨_, _, hreq⟩
  · exact ⟨_, hres, herrsucc _ _ e rfl⟩
  · exact ⟨_, hres, hnosucc _ _ rfl⟩
  rcases hreq with ⟨e, _, hres⟩ | ⟨_, K, _, hloop⟩
  · exact ⟨_, hres, herrsucc _ _ e rfl⟩
  rcases hloop with ⟨_, hres⟩ | ⟨_, e, _, hres⟩ | ⟨_, _, _, hres⟩
  · exact ⟨_, hres, herrsucc _ _ _ rfl⟩
  · exact ⟨_, hres, herrsucc _ _ e rfl⟩
  · refine ⟨_, hres, fun _ => ?_⟩
    have hfr := pollWorld_frame env (CfCall.GetAppSummary trigger.AppID)
      (fun n => (env.cf.GetAppSummary trigger.AppID n).took) K
      (stopRequested env w trigger.AppID)
    simp only [World.SaveScalingHistory, World.enableAppRoutesFunc, World.request]
    exact congrArg (fun rm => RouteManager.EnableAppRoutes rm trigger.AppID) hfr.2.2

/-! ## Idleness in whole seconds -/

theorem tdiv_billion (a : Int) :
    Int.tdiv a 1000000000 =
      if 0 ≤ a then a / 1000000000 else -((-a) / 1000000000) := by
  by_cases h : 0 ≤ a
  · simp only [h, if_true]
    exact Int.tdiv_eq_ediv h (by decide)
  · simp only [h, if_false]
    have hneg : (0 : Int) ≤ -a := by omega
    have h1 := Int.neg_tdiv (-a) 1000000000
    rw [Int.neg_neg] at h1
    rw [h1, Int.tdiv_eq_ediv hneg (by decide)]

theorem tdiv_billion_mono {a b : Int} (h : a ≤ b) :
    Int.tdiv a 1000000000 ≤ Int.tdiv b 1000000000 := by
  rw [tdiv_billion a, tdiv_billion b]
  split <;> split <;> omega

theorem mem_doEvaluation (eg : Aggregator) (now : Int) (t : Trigger) :
    t ∈ (Aggregator.doEvaluation eg now).2 ↔
      ∃ last, AList.lookup t.AppID eg.appLatestRequestTimeMap = some last ∧
        Int.tdiv (now - last) 1000000000 > GoMap.get eg.appBreachDurationMap t.AppID 0 ∧
        t.BreachDuration = GoMap.get eg.appBreachDurationMap t.AppID 0 := by
  rw [doEvaluation_eq, List.mem_map]
  constructor
  · rintro ⟨⟨a, last⟩, he, rfl⟩
    rw [List.mem_filter] at he
    exact ⟨last, AList.mem_lookup_iff.2 he.1, by simpa using he.2, rfl⟩
  · rintro ⟨last, hl, hgt, hb⟩
    refine ⟨⟨t.AppID, last⟩, List.mem_filter.2 ⟨AList.mem_lookup_iff.1 hl, by simpa using hgt⟩, ?_⟩
    cases t
    simp only at hb
    simp [hb]

/-- C24. No reset after trigger: `doEvaluation` leaves the aggregator, so
`last_request_ns` and `breach_window_s`, as it was.  If an evaluation at time
`t` sends a trigger for app `A`, then in any aggregator state in which the
two entries of `A` are the same (no envelope for `A` ingested, no refresh
that changed them), an evaluation at any time `t2 ≥ t` sends a trigger for
`A` again, with the same breach duration. -/
theorem doEvaluation_again (eg eg2 : Aggregator) (t t2 : Int) (A : String)
    (hlater : t ≤ t2)
    (hlast : AList.lookup A eg2.appLatestRequestTimeMap =
      AList.lookup A eg.appLatestRequestTimeMap)
    (hbreach : AList.lookup A eg2.appBreachDurationMap = AList.lookup A eg.appBreachDurationMap)
    (hsent : ∃ x ∈ (Aggregator.doEvaluation eg t).2, x.AppID = A) :
    (Aggregator.doEvaluation eg t).1 = eg ∧
    (Aggregator.doEvaluation eg2 t2).1 = eg2 ∧
    ({ AppID := A, BreachDuration := GoMap.get eg.appBreachDurationMap A 0 } : Trigger) ∈
      (Aggregator.doEvaluation eg t).2 ∧
    ({ AppID := A, BreachDuration := GoMap.get eg.appBreachDurationMap A 0 } : Trigger) ∈
      (Aggregator.doEvaluation eg2 t2).2 := by
  obtain ⟨x, hx, rfl⟩ := hsent
  obtain ⟨last, hl, hgt, hb⟩ := (mem_doEvaluation eg t x).1 hx
  have hget : GoMap.get eg2.appBreachDurationMap x.AppID 0 =
      GoMap.get eg.appBreachDurationMap x.AppID 0 := by
    simp only [GoMap.get, hbreach]
  have hmono := tdiv_billion_mono (show t - last ≤ t2 - last by omega)
  refine ⟨rfl, rfl, ?_, ?_⟩
  · rw [mem_doEvaluation]
    exact ⟨last, hl, hgt, rfl⟩
  · rw [mem_doEvaluation]
    refine ⟨last, hlast.trans hl, ?_, hget.symm⟩
    show Int.tdiv (t2 - last) 1000000000 > GoMap.get eg2.appBreachDurationMap x.AppID 0
    rw [hget]
    omega

/-- Witness of C24: in scenario S1 the evaluation at 61 s sends a trigger for
app `A`, and so does the evaluation at 100 s. -/
theorem doEvaluation_again_witness :
    (Aggregator.doEvaluation egS1 (61 * Second)).1 = egS1 ∧
    (Aggregator.doEvaluation egS1 (100 * Second)).1 = egS1 ∧
    ({ AppID := "A", BreachDuration := GoMap.get egS1.appBreachDurationMap "A" 0 } : Trigger) ∈
      (Aggregator.doEvaluation egS1 (61 * Second)).2 ∧
    ({ AppID := "A", BreachDuration := GoMap.get egS1.appBreachDurationMap "A" 0 } : Trigger) ∈
      (Aggregator.doEvaluation egS1 (100 * Second)).2 :=
  doEvaluation_again egS1 egS1 (61 * Second) (100 * Second) "A" (by decide) rfl rfl
    ⟨{ AppID := "A", BreachDuration := 60 }, by decide, rfl⟩

/-- C29. Missing breach window: the ingest loop records the current time
for the source id of every envelope it receives and leaves `breach_window_s`
alone, so an id the registry does not know gets an entry in
`last_request_ns` and none in `breach_window_s`.  For an app with an entry
`last` in `last_request_ns` and none in `breach_window_s`, `doEvaluation`
takes the breach window to be 0: when the silence `now - last` has reached
one full second it sends `Trigger{app, 0}` (every trigger for the app has
breach duration 0); while the silence is below one second it sends no
trigger for the app. -/
theorem doEvaluation_missing_window (eg : Aggregator) (now last : Int) (app : String)
    (hlast : AList.lookup app eg.appLatestRequestTimeMap = some last)
    (hnone : AList.lookup app eg.appBreachDurationMap = none) :
    (∀ (eg0 : Aggregator) (e : Envelope) (t : Int),
      AList.lookup e.SourceId (Aggregator.ingest eg0 e t).appLatestRequestTimeMap = some t ∧
      (Aggregator.ingest eg0 e t).appBreachDurationMap = eg0.appBreachDurationMap) ∧
    (1000000000 ≤ now - last →
      ({ AppID := app, BreachDuration := 0 } : Trigger) ∈ (Aggregator.doEvaluation eg now).2) ∧
    (∀ t ∈ (Aggregator.doEvaluation eg now).2, t.AppID = app → t.BreachDuration = 0) ∧
    (now - last < 1000000000 →
      ∀ t ∈ (Aggregator.doEvaluation eg now).2, t.AppID ≠ app) := by
  have hget : GoMap.get eg.appBreachDurationMap app 0 = 0 := by
    simp [GoMap.get, hnone]
  refine ⟨?_, ?_, ?_, ?_⟩
  · intro eg0 e t
    exact ⟨by simp [Aggregator.ingest, GoMap.set], rfl⟩
  · intro hsil
    rw [mem_doEvaluation]
    refine ⟨last, hlast, ?_, hget.symm⟩
    show Int.tdiv (now - last) 1000000000 > GoMap.get eg.appBreachDurationMap app 0
    rw [hget, tdiv_billion]
    split <;> omega
  · intro t ht happ
    obtain ⟨_, _, _, hb⟩ := (mem_doEvaluation eg now t).1 ht
    rw [hb, happ, hget]
  · intro hsil t ht happ
    obtain ⟨last2, hl, hgt, _⟩ := (mem_doEvaluation eg now t).1 ht
    rw [happ, hlast] at hl
    cases hl
    rw [happ, hget, tdiv_billion] at hgt
    split at hgt <;> omega

/-- Witness of C29: the id `ghost` was ingested at 10 s and has no breach
window; the evaluation at 11 s sends `Trigger{ghost, 0}`. -/
theorem doEvaluation_missing_window_witness :
    AList.lookup "ghost" egGhost.appLatestRequestTimeMap = some (10 * Second) ∧
    AList.lookup "ghost" egGhost.appBreachDurationMap = none ∧
    ({ AppID := "ghost", BreachDuration := 0 } : Trigger) ∈
      (Aggregator.doEvaluation egGhost (11 * Second)).2 :=
  ⟨by decide, by decide,
   (doEvaluation_missing_window egGhost (11 * Second) (10 * Second) "ghost"
      (by decide) (by decide)).2.1 (by decide)⟩

/-! ## Enrollment grace -/

theorem lookup_refresh_insert (now : Int) (l : List String) (m : GoMap Int) (a : String) :
    AList.lookup a
        (l.foldl (fun m appId => if !GoMap.has m appId then GoMap.set m appId now else m) m) =
      match AList.lookup a m with
      | some ts => some ts
      | none => if a ∈ l then some now else none := by
  induction l generalizing m with
  | nil => cases h : AList.lookup a m <;> simp [h]
  | cons k l ih =>
    rw [List.foldl_cons, ih]
    by_cases hk : GoMap.has m k = true
    · have hmem : k ∈ m := (GoMap.has_iff_mem m k).1 hk
      simp only [hk, Bool.not_true, Bool.false_eq_true, if_false, List.mem_cons]
      cases h : AList.lookup a m with
      | some ts => rfl
      | none =>
        have hne : a ≠ k := by
          rintro rfl
          exact (AList.lookup_eq_none.1 h) hmem
        simp [hne]
    · have hnot : k ∉ m := fun hm => hk ((GoMap.has_iff_mem m k).2 hm)
      simp only [hk, Bool.not_false, if_true, List.mem_cons]
      by_cases hak : a = k
      · subst hak
        simp [GoMap.set, AList.lookup_eq_none.2 hnot]
      · simp only [GoMap.set, AList.lookup_insert_ne hak]
        cases h : AList.lookup a m with
        | some ts => rfl
        | none => simp [hak]

theorem lookup_refresh_delete (apps : GoMap Int) (l : List String) (m : GoMap Int) (a : String)
    (ha : a ∈ apps) :
    AList.lookup a
        (l.foldl (fun m appId => if !GoMap.has apps appId then GoMap.delete m appId else m) m) =
      AList.lookup a m := by
  induction l generalizing m with
  | nil => rfl
  | cons k l ih =>
    rw [List.foldl_cons, ih]
    by_cases hk : GoMap.has apps k = true
    · simp [hk]
    · have hne : a ≠ k := by
        rintro rfl
        exact hk ((GoMap.has_iff_mem apps a).2 ha)
      simp [hk, GoMap.delete, AList.lookup_erase_ne hne]

theorem lookup_refreshApps (eg : Aggregator) (apps : GoMap Int) (now : Int) (a : String)
    (ha : a ∈ apps) :
    AList.lookup a (Aggregator.refreshApps eg apps now).appLatestRequestTimeMap =
      match AList.lookup a eg.appLatestRequestTimeMap with
      | some ts => some ts
      | none => some now := by
  unfold Aggregator.refreshApps
  simp only
  rw [lookup_refresh_delete _ _ _ _ ha, lookup_refresh_insert]
  cases h : AList.lookup a eg.appLatestRequestTimeMap with
  | some ts => rfl
  | none => simp [AList.mem_keys.1 ha]

/-- C23. Enrollment grace: `refreshApps` at time `now` sets the latest
request time of every app of the snapshot that had no entry to `now`, and
leaves the latest request time of every app of the snapshot that had an
entry as it was; so an evaluation at the same instant sends no trigger for
a newly added app whose breach duration is at least 0. -/
theorem refreshApps_enrollment_grace (eg : Aggregator) (apps : GoMap Int) (now : Int) :
    (∀ a, a ∈ apps → AList.lookup a eg.appLatestRequestTimeMap = none →
      AList.lookup a (Aggregator.refreshApps eg apps now).appLatestRequestTimeMap = some now) ∧
    (∀ a ts, a ∈ apps → AList.lookup a eg.appLatestRequestTimeMap = some ts →
      AList.lookup a (Aggregator.refreshApps eg apps now).appLatestRequestTimeMap = some ts) ∧
    (∀ a, a ∈ apps → AList.lookup a eg.appLatestRequestTimeMap = none →
      0 ≤ GoMap.get apps a 0 →
      ∀ t ∈ (Aggregator.doEvaluation (Aggregator.refreshApps eg apps now) now).2,
        t.AppID ≠ a) := by
  refine ⟨?_, ?_, ?_⟩
  · intro a ha hnone
    rw [lookup_refreshApps eg apps now a ha, hnone]
  · intro a ts ha hsome
    rw [lookup_refreshApps eg apps now a ha, hsome]
  · intro a ha hnone hbreach t ht happ
    obtain ⟨last, hl, hgt, _⟩ := (mem_doEvaluation _ now t).1 ht
    rw [happ, lookup_refreshApps eg apps now a ha, hnone] at hl
    cases hl
    have hb : (Aggregator.refreshApps eg apps now).appBreachDurationMap = apps := rfl
    rw [hb, happ, tdiv_billion] at hgt
    simp at hgt
    omega

/-- C26. Registry refresh: one iteration of the background reload makes the
registry's mapping exactly the mapping loaded from persistence when the load
succeeds, and leaves the registry and every map object as they were when
the load returns an error. -/
theorem retrieve_replaces_or_keeps (am : AppManager) (heap : MapHeap) (apps : GoMap Int)
    (e : String) :
    (AppManager.retrieve am heap (Except.ok apps)).2.contents
        (AppManager.GetApplications (AppManager.retrieve am heap (Except.ok apps)).1) = apps ∧
    AppManager.retrieve am heap (Except.error e) = (am, heap) ∧
    (AppManager.retrieve am heap (Except.error e)).2.contents
        (AppManager.GetApplications (AppManager.retrieve am heap (Except.error e)).1) =
      heap.contents (AppManager.GetApplications am) := by
  refine ⟨?_, rfl, rfl⟩
  simp [AppManager.GetApplications, AppManager.retrieve]

/-! ## The route listener -/

/-- C21. Route listener: for every request, `startAppFunc` is called if and
only if `getAppIDByRouteFunc(Host)` is not empty, and then once, for that app;
the request is reverse-proxied if and only if the lookup is not empty and
`startAppFunc` returned no error; when the host is unknown or `startAppFunc`
returned an error the response is status 500 with the body
`ErrorResponse{Code: "Internal-server-error", Message: "Error taking scaling
action"}` and nothing is proxied.  On the route manager `rmAB`, where
starting `B` fails: a request for `a.example.com` starts `A` and is
proxied, one for `b.example.com` and one for an unknown host get the 500. -/
theorem HijackAppRoutes_cases {σ : Type} (h : RouteHandler σ) (host : String) (s : σ) :
    ((RouteHandler.HijackAppRoutes h host s).started ≠ [] ↔
      h.getAppIDByRouteFunc s host ≠ "") ∧
    (RouteHandler.HijackAppRoutes h host s).started =
      (if h.getAppIDByRouteFunc s host = "" then [] else [h.getAppIDByRouteFunc s host]) ∧
    ((∃ scheme target,
        (RouteHandler.HijackAppRoutes h host s).response =
          RouteResponse.ServeHTTP scheme target) ↔
      h.getAppIDByRouteFunc s host ≠ "" ∧
        (h.startAppFunc (h.getAppIDByRouteFunc s host) s).1 = none) ∧
    (h.getAppIDByRouteFunc s host ≠ "" →
      (h.startAppFunc (h.getAppIDByRouteFunc s host) s).1 = none →
      (RouteHandler.HijackAppRoutes h host s).response = RouteResponse.ServeHTTP "http" host) ∧
    (h.getAppIDByRouteFunc s host = "" ∨
        (h.startAppFunc (h.getAppIDByRouteFunc s host) s).1 ≠ none →
      (RouteHandler.HijackAppRoutes h host s).response =
        RouteResponse.WriteJSONResponse 500
          { Code := "Internal-server-error", Message := "Error taking scaling action" }) ∧
    (h.getAppIDByRouteFunc s host = "" → (RouteHandler.HijackAppRoutes h host s).state = s) ∧
    ((RouteHandler.HijackAppRoutes handlerAB "a.example.com" []).response =
        RouteResponse.ServeHTTP "http" "a.example.com" ∧
      (RouteHandler.HijackAppRoutes handlerAB "a.example.com" []).started = ["A"]) ∧
    ((RouteHandler.HijackAppRoutes handlerAB "b.example.com" []).response =
        RouteResponse.WriteJSONResponse 500
          { Code := "Internal-server-error", Message := "Error taking scaling action" } ∧
      (RouteHandler.HijackAppRoutes handlerAB "b.example.com" []).started = ["B"]) ∧
    ((RouteHandler.HijackAppRoutes handlerAB "c.example.com" []).response =
        RouteResponse.WriteJSONResponse 500
          { Code := "Internal-server-error", Message := "Error taking scaling action" } ∧
      (RouteHandler.HijackAppRoutes handlerAB "c.example.com" []).started = []) := by
  refine ⟨?_, ?_, ?_, ?_, ?_, ?_, ⟨by decide, by decide⟩, ⟨by decide, by decide⟩,
    ⟨by decide, by decide⟩⟩
  all_goals unfold RouteHandler.HijackAppRoutes
  all_goals by_cases happ : h.getAppIDByRouteFunc s host = ""
  all_goals cases hstart : (h.startAppFunc (h.getAppIDByRouteFunc s host) s).1
  all_goals simp [happ, hstart]

/-! ## Cancellation of a trigger worker -/

theorem doHandleTrigger_not_returned (done : Bool) (pickDone : Nat → Bool) (n : Nat)
    (w r : TriggerWorker) :
    TriggerWorker.doHandleTrigger done pickDone n w ≠ LoopEnd.Returned r := by
  induction n generalizing w with
  | zero =>
    intro h
    simp [TriggerWorker.doHandleTrigger] at h
  | succ n ih =>
    obtain ⟨chan, handled, infos⟩ := w
    cases done <;> cases chan with
    | nil =>
      first
      | (intro h; simp [TriggerWorker.doHandleTrigger] at h; done)
      | (simp only [TriggerWorker.doHandleTrigger]; exact ih _)
    | cons t rest =>
      first
      | (simp only [TriggerWorker.doHandleTrigger]; exact ih _)
      | (simp only [TriggerWorker.doHandleTrigger]
         split
         · exact ih _
         · exact ih _)

theorem doHandleTrigger_spins (pickDone : Nat → Bool) (n : Nat) (handled : List Trigger)
    (infos : List String) :
    TriggerWorker.doHandleTrigger true pickDone n
        { triggerChan := [], handled := handled, infos := infos } =
      LoopEnd.Running
        { triggerChan := [], handled := handled,
          infos := infos ++ List.replicate n "stopped" } := by
  induction n generalizing infos with
  | zero => simp [TriggerWorker.doHandleTrigger]
  | succ n ih =>
    simp only [TriggerWorker.doHandleTrigger]
    rw [ih]
    simp [List.replicate_succ]

/-- C28. Cancellation of trigger workers, as the code has it: the case
`context.Done()` of `doHandleTrigger` logs `stopped` and does not return, so
the loop never returns, whatever the cancellation signal and the channel
are.  With the signal fired and the channel empty, after any number `n` of
iterations the loop is still running and has logged `stopped` `n` times; and
a trigger that is in the channel when the signal has fired is still passed
to `scale2ZeroFunc` when the `select` picks its case. -/
theorem doHandleTrigger_no_exit (done : Bool) (pickDone : Nat → Bool) (n : Nat)
    (w r : TriggerWorker) (handled : List Trigger) (infos : List String) (trigger : Trigger) :
    TriggerWorker.doHandleTrigger done pickDone n w ≠ LoopEnd.Returned r ∧
    TriggerWorker.doHandleTrigger true pickDone n
        { triggerChan := [], handled := handled, infos := infos } =
      LoopEnd.Running
        { triggerChan := [], handled := handled,
          infos := infos ++ List.replicate n "stopped" } ∧
    TriggerWorker.doHandleTrigger true (fun _ => false) (n + 1) (worker0 [trigger]) =
      LoopEnd.Running
        { triggerChan := [], handled := [trigger], infos := List.replicate n "stopped" } := by
  refine ⟨doHandleTrigger_not_returned done pickDone n w r,
    doHandleTrigger_spins pickDone n handled infos, ?_⟩
  simp only [TriggerWorker.doHandleTrigger, worker0]
  simp only [Bool.false_eq_true, if_false, List.nil_append]
  rw [doHandleTrigger_spins]
  simp

/-! ## The history query of the API -/

theorem parseStart_cases (lib : GoLibrary) (startParam : List String) :
    (startParam = [] ∧ parseStart lib startParam = Except.ok 0) ∨
    (∃ s v, startParam = [s] ∧ lib.ParseInt s = some v ∧
      parseStart lib startParam = Except.ok v) ∨
    (((∃ s, startParam = [s] ∧ lib.ParseInt s = none) ∨ 1 < startParam.length) ∧
      ∃ e, parseStart lib startParam = Except.error e) := by
  rcases startParam with _ | ⟨s, _ | ⟨s2, rest⟩⟩
  · exact Or.inl ⟨rfl, rfl⟩
  · cases hp : lib.ParseInt s with
    | some v => exact Or.inr (Or.inl ⟨s, v, rfl, hp, by simp [parseStart, hp]⟩)
    | none => exact Or.inr (Or.inr ⟨Or.inl ⟨s, rfl, hp⟩, by simp [parseStart, hp]⟩)
  · exact Or.inr (Or.inr ⟨Or.inr (by simp), _, rfl⟩)

theorem parseEnd_cases (lib : GoLibrary) (endParam : List String) :
    (endParam = [] ∧ parseEnd lib endParam = Except.ok (-1)) ∨
    (∃ s v, endParam = [s] ∧ lib.ParseInt s = some v ∧ parseEnd lib endParam = Except.ok v) ∨
    (((∃ s, endParam = [s] ∧ lib.ParseInt s = none) ∨ 1 < endParam.length) ∧
      ∃ e, parseEnd lib endParam = Except.error e) := by
  rcases endParam with _ | ⟨s, _ | ⟨s2, rest⟩⟩
  · exact Or.inl ⟨rfl, rfl⟩
  · cases hp : lib.ParseInt s with
    | some v => exact Or.inr (Or.inl ⟨s, v, rfl, hp, by simp [parseEnd, hp]⟩)
    | none => exact Or.inr (Or.inr ⟨Or.inl ⟨s, rfl, hp⟩, by simp [parseEnd, hp]⟩)
  · exact Or.inr (Or.inr ⟨Or.inr (by simp), _, rfl⟩)

theorem parseOrder_cases (lib : GoLibrary) (orderParam : List String) :
    (orderParam = [] ∧ parseOrder lib orderParam = Except.ok DESC) ∨
    (∃ s, orderParam = [s] ∧ lib.ToUpper s = "DESC" ∧
      parseOrder lib orderParam = Except.ok DESC) ∨
    (∃ s, orderParam = [s] ∧ lib.ToUpper s = "ASC" ∧
      parseOrder lib orderParam = Except.ok ASC) ∨
    (((∃ s, orderParam = [s] ∧ lib.ToUpper s ≠ "DESC" ∧ lib.ToUpper s ≠ "ASC") ∨
        1 < orderParam.length) ∧
      ∃ e, parseOrder lib orderParam = Except.error e) := by
  rcases orderParam with _ | ⟨s, _ | ⟨s2, rest⟩⟩
  · exact Or.inl ⟨rfl, rfl⟩
  · by_cases hd : lib.ToUpper s = "DESC"
    · exact Or.inr (Or.inl ⟨s, rfl, hd, by simp [parseOrder, hd, DESCSTR]⟩)
    · by_cases ha : lib.ToUpper s = "ASC"
      · exact Or.inr (Or.inr (Or.inl ⟨s, rfl, ha, by simp [parseOrder, ha, DESCSTR, ASCSTR]⟩))
      · exact Or.inr (Or.inr (Or.inr ⟨Or.inl ⟨s, rfl, hd, ha⟩,
          by simp [parseOrder, hd, ha, DESCSTR, ASCSTR]⟩))
  · exact Or.inr (Or.inr (Or.inr ⟨Or.inr (by simp), _, rfl⟩))

theorem parseInclude_cases (lib : GoLibrary) (includeParam : List String) :
    (includeParam = [] ∧ parseInclude lib includeParam = Except.ok false) ∨
    (∃ s, includeParam = [s] ∧ lib.ToLower s = "all" ∧
      parseInclude lib includeParam = Except.ok true) ∨
    (((∃ s, includeParam = [s] ∧ lib.ToLower s ≠ "all") ∨ 1 < includeParam.length) ∧
      ∃ e, parseInclude lib includeParam = Except.error e) := by
  rcases includeParam with _ | ⟨s, _ | ⟨s2, rest⟩⟩
  · exact Or.inl ⟨rfl, rfl⟩
  · by_cases hd : lib.ToLower s = "all"
    · exact Or.inr (Or.inl ⟨s, rfl, hd, by simp [parseInclude, hd]⟩)
    · exact Or.inr (Or.inr ⟨Or.inl ⟨s, rfl, hd⟩, by simp [parseInclude, hd]⟩)
  · exact Or.inr (Or.inr ⟨Or.inr (by simp), _, rfl⟩)

theorem parseStart_error_iff (lib : GoLibrary) (startParam : List String) :
    (∃ e, parseStart lib startParam = Except.error e) ↔
      ((∃ s, startParam = [s] ∧ lib.ParseInt s = none) ∨ 1 < startParam.length) := by
  rcases parseStart_cases lib startParam with ⟨h, hp⟩ | ⟨s, v, h, hv, hp⟩ | ⟨hbad, he⟩
  · subst h
    simp [hp]
  · subst h
    simp [hp, hv]
  · exact ⟨fun _ => hbad, fun _ => he⟩

theorem parseStart_ok (lib : GoLibrary) (startParam : List String) (v : Int)
    (hok : parseStart lib startParam = Except.ok v) :
    (startParam = [] → v = 0) ∧ (∀ s, startParam = [s] → lib.ParseInt s = some v) := by
  rcases parseStart_cases lib startParam with ⟨h, hp⟩ | ⟨s, w, h, hv, hp⟩ | ⟨_, e, he⟩
  · subst h
    rw [hp] at hok
    cases hok
    simp
  · subst h
    rw [hp] at hok
    cases hok
    simp [hv]
  · rw [he] at hok
    cases hok

theorem parseEnd_error_iff (lib : GoLibrary) (endParam : List String) :
    (∃ e, parseEnd lib endParam = Except.error e) ↔
      ((∃ s, endParam = [s] ∧ lib.ParseInt s = none) ∨ 1 < endParam.length) := by
  rcases parseEnd_cases lib endParam with ⟨h, hp⟩ | ⟨s, v, h, hv, hp⟩ | ⟨hbad, he⟩
  · subst h
    simp [hp]
  · subst h
    simp [hp, hv]
  · exact ⟨fun _ => hbad, fun _ => he⟩

theorem parseEnd_ok (lib : GoLibrary) (endParam : List String) (v : Int)
    (hok : parseEnd lib endParam = Except.ok v) :
    (endParam = [] → v = -1) ∧ (∀ s, endParam = [s] → lib.ParseInt s = some v) := by
  rcases parseEnd_cases lib endParam with ⟨h, hp⟩ | ⟨s, w, h, hv, hp⟩ | ⟨_, e, he⟩
  · subst h
    rw [hp] at hok
    cases hok
    simp
  · subst h
    rw [hp] at hok
    cases hok
    simp [hv]
  · rw [he] at hok
    cases hok

theorem parseOrder_error_iff (lib : GoLibrary) (orderParam : List String) :
    (∃ e, parseOrder lib orderParam = Except.error e) ↔
      ((∃ s, orderParam = [s] ∧ lib.ToUpper s ≠ "DESC" ∧ lib.ToUpper s ≠ "ASC") ∨
        1 < orderParam.length) := by
  rcases parseOrder_cases lib orderParam with
    ⟨h, hp⟩ | ⟨s, h, hv, hp⟩ | ⟨s, h, hv, hp⟩ | ⟨hbad, he⟩
  · subst h
    simp [hp]
  · subst h
    simp [hp, hv]
  · subst h
    simp [hp, hv]
  · exact ⟨fun _ => hbad, fun _ => he⟩

theorem parseOrder_ok (lib : GoLibrary) (orderParam : List String) (v : Nat)
    (hok : parseOrder lib orderParam = Except.ok v) :
    (orderParam = [] → v = DESC) ∧
    (∀ s, orderParam = [s] →
      (lib.ToUpper s = "DESC" ∧ v = DESC) ∨ (lib.ToUpper s = "ASC" ∧ v = ASC)) := by
  rcases parseOrder_cases lib orderParam with
    ⟨h, hp⟩ | ⟨s, h, hv, hp⟩ | ⟨s, h, hv, hp⟩ | ⟨_, e, he⟩
  · subst h
    rw [hp] at hok
    cases hok
    simp
  · subst h
    rw [hp] at hok
    cases hok
    simp [hv]
  · subst h
    rw [hp] at hok
    cases hok
    simp [hv]
  · rw [he] at hok
    cases hok

theorem parseInclude_error_iff (lib : GoLibrary) (includeParam : List String) :
    (∃ e, parseInclude lib includeParam = Except.error e) ↔
      ((∃ s, includeParam = [s] ∧ lib.ToLower s ≠ "all") ∨ 1 < includeParam.length) := by
  rcases parseInclude_cases lib includeParam with ⟨h, hp⟩ | ⟨s, h, hv, hp⟩ | ⟨hbad, he⟩
  · subst h
    simp [hp]
  · subst h
    simp [hp, hv]
  · exact ⟨fun _ => hbad, fun _ => he⟩

theorem parseInclude_ok (lib : GoLibrary) (includeParam : List String) (v : Bool)
    (hok : parseInclude lib includeParam = Except.ok v) :
    (includeParam = [] → v = false) ∧
    (∀ s, includeParam = [s] → lib.ToLower s = "all" ∧ v = true) := by
  rcases parseInclude_cases lib includeParam with ⟨h, hp⟩ | ⟨s, h, hv, hp⟩ | ⟨_, e, he⟩
  · subst h
    rw [hp] at hok
    cases hok
    simp
  · subst h
    rw [hp] at hok
    cases hok
    simp [hv]
  · rw [he] at hok
    cases hok

theorem malformedQuery_iff (lib : GoLibrary) (sp ep op ip : List String) :
    malformedQuery lib sp ep op ip ↔
      ((∃ e, parseStart lib sp = Except.error e) ∨ (∃ e, parseEnd lib ep = Except.error e) ∨
        (∃ e, parseOrder lib op = Except.error e) ∨
        (∃ e, parseInclude lib ip = Except.error e)) := by
  unfold malformedQuery
  rw [parseStart_error_iff, parseEnd_error_iff, parseOrder_error_iff, parseInclude_error_iff]

/-- C27. History query parsing: `GetScalingHistories` answers 400 if and only
if the query is malformed (`start` or `end` given once and not a base-10
`int64`, `order` given once and neither `asc` nor `desc`, `include` given
once and not `all`, letters in any case, or one of the four given more than
once), and then it makes no query to the database.  Otherwise it makes
exactly one query: for the app of the request, with `start` 0 when `start` is
absent and the number given otherwise, with `end` -1 when `end` is absent,
in descending order when `order` is absent, and without Ignored entries
(`includeAll` false) when `include` is absent; the answer is the rows of
that query, or 500 when the query fails.  `RetrieveScalingHistories` reads
an `end` of -1 as the clock reading `now`.  With the rows of scenario S6:
no parameters give 300, 100; `start=100&end=400&order=asc&include=ALL`
gives 100, 200, 300; `start=abc` gives 400. -/
theorem GetScalingHistories_parsing (lib : GoLibrary)
    (db : String → Int → Int → Nat → Bool → Except String (List AppScalingHistory))
    (appId : String) (sp ep op ip : List String) :
    ((∃ e, (GetScalingHistories lib db appId sp ep op ip).1 =
        ApiResponse.WriteJSONResponse 400 e) ↔ malformedQuery lib sp ep op ip) ∧
    (malformedQuery lib sp ep op ip → (GetScalingHistories lib db appId sp ep op ip).2 = []) ∧
    (¬ malformedQuery lib sp ep op ip →
      ∃ q, (GetScalingHistories lib db appId sp ep op ip).2 = [q] ∧ q.appId = appId ∧
        (sp = [] → q.start = 0) ∧ (∀ s, sp = [s] → lib.ParseInt s = some q.start) ∧
        (ep = [] → q.end0 = -1) ∧ (∀ s, ep = [s] → lib.ParseInt s = some q.end0) ∧
        (op = [] → q.orderType = DESC) ∧
        (∀ s, op = [s] → (lib.ToUpper s = "DESC" ∧ q.orderType = DESC) ∨
          (lib.ToUpper s = "ASC" ∧ q.orderType = ASC)) ∧
        (ip = [] → q.includeAll = false) ∧
        (∀ s, ip = [s] → lib.ToLower s = "all" ∧ q.includeAll = true) ∧
        (GetScalingHistories lib db appId sp ep op ip).1 =
          match db q.appId q.start q.end0 q.orderType q.includeAll with
          | Except.ok histories => ApiResponse.Write histories
          | Except.error _ =>
            ApiResponse.WriteJSONResponse 500
              { Code := "Interal-Server-Error",
                Message := "Error getting scaling histories from database" }) ∧
    (∀ (table : List AppScalingHistory) (now : Int) (queryErr : Option String) (start : Int)
        (orderType : Nat) (includeAll : Bool),
      RetrieveScalingHistories table now queryErr appId start (-1) orderType includeAll =
        RetrieveScalingHistories table now queryErr appId start now orderType includeAll) ∧
    GetScalingHistories libS6 (RetrieveScalingHistories tableS6 1000 none) "A" [] [] [] [] =
      (ApiResponse.Write [rowA 300 ScalingStatus.ScalingStatusFailed,
          rowA 100 ScalingStatus.ScalingStatusSucceeded],
        [{ appId := "A", start := 0, end0 := -1, orderType := DESC, includeAll := false }]) ∧
    GetScalingHistories libS6 (RetrieveScalingHistories tableS6 1000 none) "A"
        ["100"] ["400"] ["asc"] ["ALL"] =
      (ApiResponse.Write [rowA 100 ScalingStatus.ScalingStatusSucceeded,
          rowA 200 ScalingStatus.ScalingStatusIgnored,
          rowA 300 ScalingStatus.ScalingStatusFailed],
        [{ appId := "A", start := 100, end0 := 400, orderType := ASC, includeAll := true }]) ∧
    GetScalingHistories libS6 (RetrieveScalingHistories tableS6 1000 none) "A"
        ["abc"] [] [] [] =
      (ApiResponse.WriteJSONResponse 400
          { Code := "Bad-Request", Message := "Error parsing start time" }, []) := by
  refine ⟨?_, ?_, ?_, ?_, by decide, by decide, by decide⟩
  · rw [malformedQuery_iff]
    unfold GetScalingHistories
    cases hS : parseStart lib sp <;> cases hE : parseEnd lib ep <;>
      cases hO : parseOrder lib op <;> cases hI : parseInclude lib ip <;> simp
    split <;> simp
  · rw [malformedQuery_iff]
    unfold GetScalingHistories
    cases hS : parseStart lib sp <;> cases hE : parseEnd lib ep <;>
      cases hO : parseOrder lib op <;> cases hI : parseInclude lib ip <;> simp
  · rw [malformedQuery_iff]
    intro hn
    cases hS : parseStart lib sp with
    | error e => exact absurd (Or.inl ⟨e, hS⟩) hn
    | ok start =>
      cases hE : parseEnd lib ep with
      | error e => exact absurd (Or.inr (Or.inl ⟨e, hE⟩)) hn
      | ok end0 =>
        cases hO : parseOrder lib op with
        | error e => exact absurd (Or.inr (Or.inr (Or.inl ⟨e, hO⟩))) hn
        | ok order =>
          cases hI : parseInclude lib ip with
          | error e => exact absurd (Or.inr (Or.inr (Or.inr ⟨e, hI⟩))) hn
          | ok includeAll =>
            have h1 := parseStart_ok lib sp start hS
            have h2 := parseEnd_ok lib ep end0 hE
            have h3 := parseOrder_ok lib op order hO
            have h4 := parseInclude_ok lib ip includeAll hI
            refine ⟨HistoryQuery.mk appId start end0 order includeAll, ?_, rfl, h1.1, h1.2,
              h2.1, h2.2, h3.1, h3.2, h4.1, h4.2, ?_⟩
            · unfold GetScalingHistories
              simp only [hS, hE, hO, hI]
              split <;> rfl
            · unfold GetScalingHistories
              simp only [hS, hE, hO, hI]
              cases db appId start end0 order includeAll <;> rfl
  · intro table now queryErr start orderType includeAll
    unfold RetrieveScalingHistories
    simp

/-! ## What one pass of the route refresh changes -/

theorem mem_newAppList (rm : RouteManager) (appMap : GoMap Int) (N : String) :
    N ∈ RouteManager.newAppList rm appMap ↔ N ∈ appMap ∧ N ∉ rm.appRoutesMap := by
  rw [newAppList_eq, List.mem_filter, AList.mem_keys]
  constructor
  · rintro ⟨h1, h2⟩
    refine ⟨h1, fun hmem => ?_⟩
    have := (GoMap.has_iff_mem rm.appRoutesMap N).2 hmem
    simp [this] at h2
  · rintro ⟨h1, h2⟩
    refine ⟨h1, ?_⟩
    cases hhas : GoMap.has rm.appRoutesMap N with
    | false => simp
    | true => exact absurd ((GoMap.has_iff_mem rm.appRoutesMap N).1 hhas) h2

theorem mem_staleAppList (rm : RouteManager) (appMap : GoMap Int) (a : String) :
    a ∈ RouteManager.staleAppList rm appMap ↔ a ∈ rm.appRoutesMap ∧ a ∉ appMap := by
  rw [staleAppList_eq, List.mem_filter, AList.mem_keys]
  constructor
  · rintro ⟨h1, h2⟩
    refine ⟨h1, fun hmem => ?_⟩
    have := (GoMap.has_iff_mem appMap a).2 hmem
    simp [this] at h2
  · rintro ⟨h1, h2⟩
    refine ⟨h1, ?_⟩
    cases hhas : GoMap.has appMap a with
    | false => simp
    | true => exact absurd ((GoMap.has_iff_mem appMap a).1 hhas) h2

theorem foldl_dropStaleApp_appRoutes (l : List String) (rm : RouteManager) (a : String) :
    AList.lookup a (l.foldl RouteManager.dropStaleApp rm).appRoutesMap =
      if a ∈ l then none else AList.lookup a rm.appRoutesMap := by
  induction l generalizing rm with
  | nil => simp
  | cons S l ih =>
    rw [List.foldl_cons, ih, dropStaleApp_appRoutes]
    by_cases hl : a ∈ l
    · simp [hl]
    · by_cases hS : a = S
      · subst hS
        simp [hl, GoMap.delete]
      · simp [hl, hS, GoMap.delete, AList.lookup_erase_ne hS]

theorem foldl_dropStaleApp_none (l : List String) (rm : RouteManager) (h : String)
    (hnone : AList.lookup h rm.routeAppMap = none) :
    AList.lookup h (l.foldl RouteManager.dropStaleApp rm).routeAppMap = none := by
  refine foldl_dropStaleApp (fun r => AList.lookup h r.routeAppMap = none) ?_ l rm hnone
  intro r S hr
  rw [dropStaleApp_routeApp]
  cases AList.lookup S r.appRoutesMap with
  | none => exact hr
  | some routes =>
    by_cases hmem : h ∈ routes
    · simp [hmem]
    · simp [hmem, hr]

theorem foldl_dropStaleApp_deleted (l : List String) (rm : RouteManager) (a h : String)
    (routes : List String) (ha : a ∈ l)
    (hroutes : AList.lookup a rm.appRoutesMap = some routes) (hh : h ∈ routes) :
    AList.lookup h (l.foldl RouteManager.dropStaleApp rm).routeAppMap = none := by
  induction l generalizing rm with
  | nil => cases ha
  | cons S l ih =>
    rw [List.foldl_cons]
    by_cases hS : a = S
    · subst hS
      apply foldl_dropStaleApp_none
      rw [dropStaleApp_routeApp, hroutes]
      simp [hh]
    · have hal : a ∈ l := by
        rcases List.mem_cons.1 ha with h1 | h1
        · exact absurd h1 hS
        · exact h1
      apply ih _ hal
      rw [dropStaleApp_appRoutes]
      simp [GoMap.delete, AList.lookup_erase_ne hS, hroutes]

theorem foldl_dropStaleApp_keep (l : List String) (rm : RouteManager) (h : String)
    (hfree : ∀ S ∈ l, ∀ routes, AList.lookup S rm.appRoutesMap = some routes → h ∉ routes) :
    AList.lookup h (l.foldl RouteManager.dropStaleApp rm).routeAppMap =
      AList.lookup h rm.routeAppMap := by
  induction l generalizing rm with
  | nil => rfl
  | cons S l ih =>
    rw [List.foldl_cons, ih]
    · rw [dropStaleApp_routeApp]
      cases hS : AList.lookup S rm.appRoutesMap with
      | none => rfl
      | some routes =>
        have := hfree S (List.mem_cons_self _ _) routes hS
        simp [this]
    · intro T hT routes hroutes
      rw [dropStaleApp_appRoutes] at hroutes
      by_cases hTS : T = S
      · subst hTS
        simp [GoMap.delete] at hroutes
      · rw [show AList.lookup T (GoMap.delete rm.appRoutesMap S) =
            AList.lookup T rm.appRoutesMap from by
          simp [GoMap.delete, AList.lookup_erase_ne hTS]] at hroutes
        exact hfree T (List.mem_cons_of_mem _ hT) routes hroutes

theorem addNewApp_appRoutes (g : String → Reply (List String)) (st : RouteManager × List String)
    (N a : String) :
    AList.lookup a (RouteManager.addNewApp g st N).1.appRoutesMap =
      if a = N ∧ (g N).err = none then some (g N).value
      else AList.lookup a st.1.appRoutesMap := by
  cases herr : (g N).err with
  | some e =>
    rw [addNewApp_failed g st N e herr]
    simp
  | none =>
    unfold RouteManager.addNewApp
    simp only [herr]
    by_cases ha : a = N
    · subst ha
      simp [GoMap.set]
    · simp [ha, GoMap.set, AList.lookup_insert_ne ha]

theorem foldl_addNewApp_appRoutes (g : String → Reply (List String)) (l : List String)
    (st : RouteManager × List String) (a : String) :
    AList.lookup a (l.foldl (RouteManager.addNewApp g) st).1.appRoutesMap =
      if a ∈ l ∧ (g a).err = none then some (g a).value
      else AList.lookup a st.1.appRoutesMap := by
  induction l generalizing st with
  | nil => simp
  | cons N l ih =>
    rw [List.foldl_cons, ih, addNewApp_appRoutes]
    by_cases hok : (g a).err = none
    · by_cases hl : a ∈ l
      · simp [hl, hok]
      · by_cases ha : a = N
        · subst ha
          simp [hok]
        · simp [hl, ha, hok]
    · by_cases ha : a = N
      · subst ha
        simp [hok]
      · simp [ha, hok]

theorem foldl_addNewApp_calls (g : String → Reply (List String)) (l : List String)
    (st : RouteManager × List String) :
    (l.foldl (RouteManager.addNewApp g) st).2 = st.2 ++ l := by
  induction l generalizing st with
  | nil => simp
  | cons N l ih =>
    rw [List.foldl_cons, ih]
    have : (RouteManager.addNewApp g st N).2 = st.2 ++ [N] := by
      unfold RouteManager.addNewApp
      cases herr : (g N).err with
      | none => simp [herr]
      | some e => simp [herr]
    rw [this]
    simp

theorem addNewApp_routeApp_cases (g : String → Reply (List String))
    (st : RouteManager × List String) (N h : String) :
    AList.lookup h (RouteManager.addNewApp g st N).1.routeAppMap =
      if (g N).err = none ∧ h ∈ (g N).value then some N
      else AList.lookup h st.1.routeAppMap := by
  cases herr : (g N).err with
  | some e =>
    rw [addNewApp_failed g st N e herr]
    simp
  | none =>
    rw [addNewApp_routeApp g st N h herr]
    simp

theorem foldl_addNewApp_keep (g : String → Reply (List String)) (l : List String)
    (st : RouteManager × List String) (h : String)
    (hfree : ∀ N ∈ l, (g N).err = none → h ∉ (g N).value) :
    AList.lookup h (l.foldl (RouteManager.addNewApp g) st).1.routeAppMap =
      AList.lookup h st.1.routeAppMap := by
  induction l generalizing st with
  | nil => rfl
  | cons N l ih =>
    rw [List.foldl_cons, ih _ (fun M hM => hfree M (List.mem_cons_of_mem _ hM)),
      addNewApp_routeApp_cases]
    have := hfree N (List.mem_cons_self _ _)
    by_cases hok : (g N).err = none
    · simp [this hok]
    · simp [hok]

theorem foldl_addNewApp_own (g : String → Reply (List String)) (l : List String)
    (st : RouteManager × List String) (N h : String)
    (honly : ∀ M ∈ l, (g M).err = none → h ∈ (g M).value → M = N)
    (hN : AList.lookup h st.1.routeAppMap = some N ∨
      (N ∈ l ∧ (g N).err = none ∧ h ∈ (g N).value)) :
    AList.lookup h (l.foldl (RouteManager.addNewApp g) st).1.routeAppMap = some N := by
  induction l generalizing st with
  | nil =>
    rcases hN with h1 | ⟨h1, _⟩
    · exact h1
    · cases h1
  | cons M l ih =>
    rw [List.foldl_cons]
    apply ih _ (fun K hK => honly K (List.mem_cons_of_mem _ hK))
    rw [addNewApp_routeApp_cases]
    by_cases hM : (g M).err = none ∧ h ∈ (g M).value
    · have hMN := honly M (List.mem_cons_self _ _) hM.1 hM.2
      subst hMN
      left
      simp [hM]
    · rcases hN with h1 | ⟨h1, h2, h3⟩
      · left
        simp [hM, h1]
      · right
        rcases List.mem_cons.1 h1 with h4 | h4
        · subst h4
          exact absurd ⟨h2, h3⟩ hM
        · exact ⟨h4, h2, h3⟩

theorem foldl_addNewApp_some (g : String → Reply (List String)) (l : List String)
    (st : RouteManager × List String) (h : String) :
    AList.lookup h (l.foldl (RouteManager.addNewApp g) st).1.routeAppMap =
        AList.lookup h st.1.routeAppMap ∨
      ∃ N ∈ l, (g N).err = none ∧ h ∈ (g N).value ∧
        AList.lookup h (l.foldl (RouteManager.addNewApp g) st).1.routeAppMap = some N := by
  induction l generalizing st with
  | nil => exact Or.inl rfl
  | cons M l ih =>
    rw [List.foldl_cons]
    rcases ih (RouteManager.addNewApp g st M) with h1 | ⟨N, hN, h2, h3, h4⟩
    · rw [addNewApp_routeApp_cases] at h1
      by_cases hM : (g M).err = none ∧ h ∈ (g M).value
      · right
        refine ⟨M, List.mem_cons_self _ _, hM.1, hM.2, ?_⟩
        rw [h1]
        simp [hM]
      · left
        rw [h1]
        simp [hM]
    · exact Or.inr ⟨N, List.mem_cons_of_mem _ hN, h2, h3, h4⟩

theorem mem_of_lookup_some {V : Type} (m : GoMap V) (k : String) (v : V)
    (h : AList.lookup k m = some v) : k ∈ m := by
  by_contra hn
  rw [AList.lookup_eq_none.2 hn] at h
  cases h

/-- C25 fails as stated: the route manager holds `A` with `a.example.com`
and `www.example.com` and `B` with `b.example.com`; the registry now holds
`C` and `D`, and the platform maps both to `a.example.com`.  After
`refreshApps` the hostname `a.example.com` of the removed app `A` is still in
`route_app`, and it maps to `C`, not to the newly-present app `D`, whose
call succeeded and returned it. -/
theorem refresh_diff_counterexample :
    AList.lookup "A" rmAB.appRoutesMap = some ["a.example.com", "www.example.com"] ∧
    AList.lookup "A" appsCD = none ∧
    AList.lookup "a.example.com"
        (RouteManager.refreshApps rmAB appsCD movedRoutes).1.routeAppMap = some "C" ∧
    AList.lookup "D" appsCD = some 60 ∧
    AList.lookup "D" rmAB.appRoutesMap = none ∧
    (movedRoutes "D").err = none ∧
    "a.example.com" ∈ (movedRoutes "D").value ∧
    AList.lookup "D" (RouteManager.refreshApps rmAB appsCD movedRoutes).1.appRoutesMap =
      some ["a.example.com"] ∧
    AList.lookup "a.example.com"
        (RouteManager.refreshApps rmAB appsCD movedRoutes).1.routeAppMap ≠ some "D" := by
  decide

/-- C25, amended.  After `refreshApps` with the registry snapshot `appMap`:
every app that was in `app_routes` and is not in the snapshot is no longer in
`app_routes`, and each of its hostnames is either absent from `route_app` or
maps to a newly-present app whose successful `GetAppRoutes` call returned
it; every app of the snapshot that was not in `app_routes` and whose call
succeeded is in `app_routes` with exactly the returned list, and each
returned hostname that no other newly-present app got from a successful
call maps to it in `route_app`; every app whose call failed is in the
snapshot, absent from `app_routes`, and newly-present again for the next
pass over the same snapshot. -/
theorem refreshApps_diff (rm : RouteManager) (appMap : GoMap Int)
    (g : String → Reply (List String)) :
    (∀ a routes, AList.lookup a rm.appRoutesMap = some routes → a ∉ appMap →
      AList.lookup a (RouteManager.refreshApps rm appMap g).1.appRoutesMap = none ∧
      ∀ h ∈ routes,
        AList.lookup h (RouteManager.refreshApps rm appMap g).1.routeAppMap = none ∨
        ∃ N, N ∈ appMap ∧ N ∉ rm.appRoutesMap ∧ (g N).err = none ∧ h ∈ (g N).value ∧
          AList.lookup h (RouteManager.refreshApps rm appMap g).1.routeAppMap = some N) ∧
    (∀ N, N ∈ appMap → N ∉ rm.appRoutesMap → (g N).err = none →
      AList.lookup N (RouteManager.refreshApps rm appMap g).1.appRoutesMap =
        some (g N).value ∧
      ∀ h ∈ (g N).value,
        (∀ M, M ∈ appMap → M ∉ rm.appRoutesMap → (g M).err = none → h ∈ (g M).value →
          M = N) →
        AList.lookup h (RouteManager.refreshApps rm appMap g).1.routeAppMap = some N) ∧
    (∀ N, N ∈ (RouteManager.refreshApps rm appMap g).2 → (g N).err ≠ none →
      N ∈ appMap ∧
      AList.lookup N (RouteManager.refreshApps rm appMap g).1.appRoutesMap = none ∧
      N ∈ RouteManager.newAppList (RouteManager.refreshApps rm appMap g).1 appMap) := by
  refine ⟨?_, ?_, ?_⟩
  · intro a routes hroutes hnot
    have hstale : a ∈ RouteManager.staleAppList rm appMap :=
      (mem_staleAppList rm appMap a).2 ⟨mem_of_lookup_some _ _ _ hroutes, hnot⟩
    have hnew : a ∉ RouteManager.newAppList rm appMap :=
      fun hmem => hnot ((mem_newAppList rm appMap a).1 hmem).1
    constructor
    · unfold RouteManager.refreshApps
      rw [foldl_addNewApp_appRoutes, foldl_dropStaleApp_appRoutes]
      simp [hnew, hstale]
    · intro h hh
      unfold RouteManager.refreshApps
      rcases foldl_addNewApp_some g (RouteManager.newAppList rm appMap)
          ((RouteManager.staleAppList rm appMap).foldl RouteManager.dropStaleApp rm, []) h with
        h1 | ⟨N, hN, h2, h3, h4⟩
      · left
        rw [h1]
        exact foldl_dropStaleApp_deleted _ rm a h routes hstale hroutes hh
      · right
        have hN2 := (mem_newAppList rm appMap N).1 hN
        exact ⟨N, hN2.1, hN2.2, h2, h3, h4⟩
  · intro N hN hnot hok
    have hnew : N ∈ RouteManager.newAppList rm appMap := (mem_newAppList rm appMap N).2 ⟨hN, hnot⟩
    constructor
    · unfold RouteManager.refreshApps
      rw [foldl_addNewApp_appRoutes]
      simp [hnew, hok]
    · intro h hh honly
      unfold RouteManager.refreshApps
      apply foldl_addNewApp_own
      · intro M hM hMok hMh
        have hM2 := (mem_newAppList rm appMap M).1 hM
        exact honly M hM2.1 hM2.2 hMok hMh
      · exact Or.inr ⟨hnew, hok, hh⟩
  · intro N hcall hfail
    have hnew : N ∈ RouteManager.newAppList rm appMap := by
      unfold RouteManager.refreshApps at hcall
      rw [foldl_addNewApp_calls] at hcall
      simpa using hcall
    have hN2 := (mem_newAppList rm appMap N).1 hnew
    have hnone : AList.lookup N (RouteManager.refreshApps rm appMap g).1.appRoutesMap = none := by
      unfold RouteManager.refreshApps
      rw [foldl_addNewApp_appRoutes, foldl_dropStaleApp_appRoutes]
      simp [hfail, AList.lookup_eq_none.2 hN2.2]
    exact ⟨hN2.1, hnone,
      (mem_newAppList _ appMap N).2 ⟨hN2.1, AList.lookup_eq_none.1 hnone⟩⟩

/-- C30 fails as stated: the route manager holds `A` with `a.example.com` and
`www.example.com` and `B` with `b.example.com`; the registry now holds `A`,
`B` and the new app `C`, which the platform maps to `a.example.com`.  After
`refreshApps` the entry of `a.example.com`, a hostname of the known app `A`,
has changed from `A` to `C`. -/
theorem known_app_counterexample :
    AList.lookup "A" appsABC = some 60 ∧
    AList.lookup "A" rmAB.appRoutesMap = some ["a.example.com", "www.example.com"] ∧
    AList.lookup "A" (RouteManager.refreshApps rmAB appsABC movedRoutes).1.appRoutesMap =
      some ["a.example.com", "www.example.com"] ∧
    AList.lookup "a.example.com" rmAB.routeAppMap = some "A" ∧
    AList.lookup "a.example.com"
        (RouteManager.refreshApps rmAB appsABC movedRoutes).1.routeAppMap = some "C" := by
  decide

/-- C30, amended.  For an app that is both in the registry snapshot and
already in `app_routes`, `refreshApps` makes no `GetAppRoutes` call and
leaves its route list unchanged, whatever the platform answers; the
`route_app` entry of each of its hostnames is unchanged too, unless the
hostname is in the list of an app removed in this pass or a newly-present
app got it from a successful `GetAppRoutes` call.  `refreshApps` never
changes the suppressed set, so after any series of passes an app is
suppressed if and only if it was before. -/
theorem refreshApps_known_app (rm : RouteManager) (appMap : GoMap Int)
    (g : String → Reply (List String)) :
    (∀ K, K ∈ appMap → K ∈ rm.appRoutesMap →
      K ∉ (RouteManager.refreshApps rm appMap g).2 ∧
      AList.lookup K (RouteManager.refreshApps rm appMap g).1.appRoutesMap =
        AList.lookup K rm.appRoutesMap ∧
      ∀ routes, AList.lookup K rm.appRoutesMap = some routes → ∀ h ∈ routes,
        (∀ a stale, AList.lookup a rm.appRoutesMap = some stale → a ∉ appMap → h ∉ stale) →
        (∀ N, N ∈ appMap → N ∉ rm.appRoutesMap → (g N).err = none → h ∉ (g N).value) →
        AList.lookup h (RouteManager.refreshApps rm appMap g).1.routeAppMap =
          AList.lookup h rm.routeAppMap) ∧
    (RouteManager.refreshApps rm appMap g).1.temporaryDisabledAppMap =
      rm.temporaryDisabledAppMap ∧
    (∀ (passes : List (GoMap Int × (String → Reply (List String)))) (a : String),
      RouteManager.suppressed (RouteManager.refreshMany rm passes) a =
        RouteManager.suppressed rm a) := by
  refine ⟨?_, (refreshApps_frame rm appMap g).1, ?_⟩
  · intro K hK hknown
    have hnew : K ∉ RouteManager.newAppList rm appMap :=
      fun hmem => ((mem_newAppList rm appMap K).1 hmem).2 hknown
    have hstale : K ∉ RouteManager.staleAppList rm appMap :=
      fun hmem => ((mem_staleAppList rm appMap K).1 hmem).2 hK
    refine ⟨?_, ?_, ?_⟩
    · unfold RouteManager.refreshApps
      rw [foldl_addNewApp_calls]
      simpa using hnew
    · unfold RouteManager.refreshApps
      rw [foldl_addNewApp_appRoutes, foldl_dropStaleApp_appRoutes]
      simp [hnew, hstale]
    · intro routes _ h _ hremoved hadded
      unfold RouteManager.refreshApps
      rw [foldl_addNewApp_keep, foldl_dropStaleApp_keep]
      · intro S hS stale hlookup
        exact hremoved S stale hlookup ((mem_staleAppList rm appMap S).1 hS).2
      · intro N hN hok
        have hN2 := (mem_newAppList rm appMap N).1 hN
        exact hadded N hN2.1 hN2.2 hok
  · intro passes a
    unfold RouteManager.suppressed
    rw [(refreshMany_frame passes rm).1]

/-! ## Route/engine coupling -/

theorem mem_sendRoutes (rm : RouteManager) (x : RouteEntity) :
    x ∈ (RouteManager.sendRoutes rm).2 ↔
      ∃ a routes, AList.lookup a rm.appRoutesMap = some routes ∧
        RouteManager.suppressed rm a = false ∧
        ∃ h ∈ routes, x = { Route := h, IP := rm.routeListenerIP,
                            Port := rm.routeListenerPort, TTL := 120 } := by
  rw [sendRoutes_eq, List.mem_flatten]
  constructor
  · rintro ⟨l, hl, hx⟩
    rw [List.mem_map] at hl
    obtain ⟨⟨a, routes⟩, he, rfl⟩ := hl
    rw [List.mem_filter] at he
    simp only [RouteManager.routeEntityList, List.mem_map] at hx
    obtain ⟨h, hh, rfl⟩ := hx
    exact ⟨a, routes, AList.mem_lookup_iff.2 he.1, by simpa using he.2, h, hh, rfl⟩
  · rintro ⟨a, routes, hl, hs, h, hh, rfl⟩
    refine ⟨RouteManager.routeEntityList rm routes, ?_, ?_⟩
    · rw [List.mem_map]
      exact ⟨⟨a, routes⟩, List.mem_filter.2 ⟨AList.mem_lookup_iff.1 hl, by simpa using hs⟩, rfl⟩
    · simp only [RouteManager.routeEntityList, List.mem_map]
      exact ⟨h, hh, rfl⟩

theorem refreshApps_enrolled (rm : RouteManager) (appMap : GoMap Int)
    (g : String → Reply (List String)) (A : String) (hA : A ∈ appMap) :
    AList.lookup A (RouteManager.refreshApps rm appMap g).1.appRoutesMap =
      match AList.lookup A rm.appRoutesMap with
      | some routes => some routes
      | none => if (g A).err = none then some (g A).value else none := by
  have hstale : A ∉ RouteManager.staleAppList rm appMap :=
    fun hmem => ((mem_staleAppList rm appMap A).1 hmem).2 hA
  unfold RouteManager.refreshApps
  rw [foldl_addNewApp_appRoutes, foldl_dropStaleApp_appRoutes]
  cases hl : AList.lookup A rm.appRoutesMap with
  | some routes =>
    have hnew : A ∉ RouteManager.newAppList rm appMap :=
      fun hmem => ((mem_newAppList rm appMap A).1 hmem).2 (mem_of_lookup_some _ _ _ hl)
    simp [hnew, hstale]
  | none =>
    have hnew : A ∈ RouteManager.newAppList rm appMap :=
      (mem_newAppList rm appMap A).2 ⟨hA, AList.lookup_eq_none.1 hl⟩
    by_cases hok : (g A).err = none
    · simp [hnew, hok]
    · simp [hok, hstale]

/-- C15 fails as stated.  Start: the apps `A` and `B` both have the route
`shop.example.com`; `StartApp(A)` ends Succeeded, and the next `sendRoutes`
pass still sends the entity of `shop.example.com`, a hostname of `A`, because
`B` lists it and is not suppressed.  Stop: the route manager is empty;
`StopApp` for `A` ends Succeeded; `A` is enrolled in the snapshot of the
following `refreshApps` pass, but its `GetAppRoutes` request fails, and the
next `sendRoutes` pass sends nothing. -/
theorem route_engine_coupling_counterexample :
    (ScalingEngine.StartApp (envFlip 1) se0 wShared "A").map
        (fun o => (o.err, o.world.scalingHistory.map (fun r => r.Status))) =
      some (none, [ScalingStatus.ScalingStatusSucceeded]) ∧
    (ScalingEngine.StartApp (envFlip 1) se0 wShared "A").map
        (fun o => (AList.lookup "A" o.world.routeManager.appRoutesMap,
          RouteManager.suppressed o.world.routeManager "A")) =
      some (some ["shop.example.com"], true) ∧
    (ScalingEngine.StartApp (envFlip 1) se0 wShared "A").map
        (fun o => (RouteManager.sendRoutes o.world.routeManager).2) =
      some [{ Route := "shop.example.com", IP := "10.0.0.1", Port := 8080, TTL := 120 }] ∧
    (ScalingEngine.StopApp (envFlip 2) se0 w0 { AppID := "A", BreachDuration := 60 }).map
        (fun o => (o.err, o.world.scalingHistory.map (fun r => r.Status))) =
      some (none, [ScalingStatus.ScalingStatusSucceeded]) ∧
    AList.lookup "A" appsAB = some 60 ∧
    (ScalingEngine.StopApp (envFlip 2) se0 w0 { AppID := "A", BreachDuration := 60 }).map
        (fun o => (RouteManager.sendRoutes
          (RouteManager.refreshMany o.world.routeManager [(appsAB, noRoutes)])).2) =
      some [] := by
  refine ⟨by decide, by decide, by decide, by decide, by decide, by decide⟩

/-- C15, amended.  Route/engine coupling, in the combined state of engine and
route manager, with any number of `refreshApps` passes between the action
and the send-routes pass.  When `StartApp(A)` ends Succeeded, `A` is
suppressed and the next `sendRoutes` pass sends exactly the entities of the
route lists of the unsuppressed apps other than `A`: a hostname of `A` is
sent only when such an app lists it too.  When `StopApp` for `A` ends
Succeeded, `A` is not suppressed, and if `A` has an entry in `app_routes`,
the next `sendRoutes` pass sends the entity of each hostname of that entry.
An app of the snapshot has an entry after a `refreshApps` pass exactly when
it had one before the pass, which is kept, or its `GetAppRoutes` request in
the pass succeeded. -/
theorem route_engine_coupling (env : Env) (se : ScalingEngine) (w : World) (appID : String)
    (trigger : Trigger) (passes : List (GoMap Int × (String → Reply (List String)))) :
    (∃ o, ScalingEngine.StartApp env se w appID = some o ∧
      (o.err = none →
        RouteManager.suppressed (RouteManager.refreshMany o.world.routeManager passes) appID =
          true ∧
        ∀ x, x ∈ (RouteManager.sendRoutes
            (RouteManager.refreshMany o.world.routeManager passes)).2 ↔
          ∃ b routes, b ≠ appID ∧
            AList.lookup b (RouteManager.refreshMany o.world.routeManager passes).appRoutesMap =
              some routes ∧
            RouteManager.suppressed (RouteManager.refreshMany o.world.routeManager passes) b =
              false ∧
            ∃ h ∈ routes, x = { Route := h, IP := w.routeManager.routeListenerIP,
                                Port := w.routeManager.routeListenerPort, TTL := 120 })) ∧
    (∃ o, ScalingEngine.StopApp env se w trigger = some o ∧
      ((Action.of trigger.AppID true w o).succeeded →
        RouteManager.suppressed (RouteManager.refreshMany o.world.routeManager passes)
          trigger.AppID = false ∧
        ∀ routes,
          AList.lookup trigger.AppID
            (RouteManager.refreshMany o.world.routeManager passes).appRoutesMap = some routes →
          ∀ h ∈ routes,
            ({ Route := h, IP := w.routeManager.routeListenerIP,
               Port := w.routeManager.routeListenerPort, TTL := 120 } : RouteEntity) ∈
              (RouteManager.sendRoutes
                (RouteManager.refreshMany o.world.routeManager passes)).2)) ∧
    (∀ (rm : RouteManager) (appMap : GoMap Int) (g : String → Reply (List String)) (A : String),
      A ∈ appMap →
      AList.lookup A (RouteManager.refreshApps rm appMap g).1.appRoutesMap =
        match AList.lookup A rm.appRoutesMap with
        | some routes => some routes
        | none => if (g A).err = none then some (g A).value else none) := by
  refine ⟨?_, ?_, fun rm appMap g A hA => refreshApps_enrolled rm appMap g A hA⟩
  · obtain ⟨o, ho, hrm⟩ := StartApp_routes env se w appID
    refine ⟨o, ho, fun hok => ?_⟩
    have hfr := refreshMany_frame passes o.world.routeManager
    have hsup : RouteManager.suppressed (RouteManager.refreshMany o.world.routeManager passes)
        appID = true := by
      unfold RouteManager.suppressed
      rw [hfr.1, hrm hok, DisableAppRoutes_state]
      exact GoMap.get_set_self _ _ _ _
    have hip : (RouteManager.refreshMany o.world.routeManager passes).routeListenerIP =
        w.routeManager.routeListenerIP := by
      rw [hfr.2.1, hrm hok, DisableAppRoutes_state]
    have hport : (RouteManager.refreshMany o.world.routeManager passes).routeListenerPort =
        w.routeManager.routeListenerPort := by
      rw [hfr.2.2, hrm hok, DisableAppRoutes_state]
    refine ⟨hsup, fun x => ?_⟩
    rw [mem_sendRoutes, hip, hport]
    constructor
    · rintro ⟨a, routes, hl, hs, h, hh, rfl⟩
      refine ⟨a, routes, ?_, hl, hs, h, hh, rfl⟩
      rintro rfl
      rw [hsup] at hs
      cases hs
    · rintro ⟨a, routes, _, hl, hs, h, hh, rfl⟩
      exact ⟨a, routes, hl, hs, h, hh, rfl⟩
  · obtain ⟨o, ho, hrm⟩ := StopApp_routes env se w trigger
    refine ⟨o, ho, fun hok => ?_⟩
    have hfr := refreshMany_frame passes o.world.routeManager
    have hsup : RouteManager.suppressed (RouteManager.refreshMany o.world.routeManager passes)
        trigger.AppID = false := by
      unfold RouteManager.suppressed
      rw [hfr.1, hrm hok]
      exact GoMap.get_delete_self _ _ _
    refine ⟨hsup, fun routes hl h hh => ?_⟩
    rw [mem_sendRoutes]
    refine ⟨trigger.AppID, routes, hl, hsup, h, hh, ?_⟩
    rw [hfr.2.1, hfr.2.2, hrm hok]
    rfl

/-! ## The registry's map in the aggregator -/

/-- What the shared map object does to the aggregator: the registry holds app
`A` with breach duration 60 and the aggregator keeps the mapping
`GetApplications` returned as its breach durations; `A` was last seen at 0.
An evaluation at 1 s sends nothing.  After `RemoveApp("A")` on the registry
the same mapping has no entry for `A`, and the evaluation at 1 s sends
`Trigger{A, 0}`. -/
theorem removed_app_triggered :
    (Aggregator.doEvaluation
        { appLatestRequestTimeMap := GoMap.set GoMap.empty "A" 0,
          appBreachDurationMap := heapA.contents (AppManager.GetApplications amA) }
        (1 * Second)).2 = [] ∧
    (Aggregator.doEvaluation
        { appLatestRequestTimeMap := GoMap.set GoMap.empty "A" 0,
          appBreachDurationMap :=
            (AppManager.RemoveApp amA heapA "A").contents (AppManager.GetApplications amA) }
        (1 * Second)).2 = [{ AppID := "A", BreachDuration := 0 }] := by
  constructor <;> decide

end Scale2Zero
